import Mathlib

/-!
# Flywheel: work-item state transitions and process-step history

A shallow embedding of `domain/work/WorkProcessManager.go` (the transition engine and the
process-step query) and of `domain/flow/WorkflowManager.go` (`DetailWorkflow` and the
operations that write), over an explicit store of table rows.

Conventions of the embedding

* A table is the list of its rows in the order in which they were stored.  The order in
  which `QueryProcessSteps`, whose `Find` has no `ORDER BY`, hands over its rows is the
  database engine's and is a parameter of the query (`Delivery`).
* A struct condition `Where(&T{...})` constrains only the fields whose value is not the
  zero value of their type (the ORM drops zero-valued fields of a struct condition), and a
  struct `Update(&T{...})` writes only the non-zero fields.  `condID` and `condString`
  are those conditions on one column.
* `First` returns the matching row with the least primary key, or `ErrRecordNotFound`.
* `db.Transaction(fn)` commits the store `fn` returns and keeps the store it started from
  when `fn` returns an error.
* `Create` appends its row to the table.  `RowsAffected` is what the driver reports, the
  rows an update matched or the rows it changed, by a setting of the connection that is a
  parameter of the calls (`Env.foundRows`).  Failures of the storage itself (a lost
  connection, a rejected key) are outside the model, keys being stated as hypotheses where
  a property rests on them.
* Identifiers and timestamps are natural numbers; the zero timestamp is the unset one.
-/

namespace Flywheel

/-- Identifier `types.ID`, an unsigned 64-bit integer; zero is its zero value. -/
abbrev types.ID := Nat

/-- Millisecond timestamp `types.Timestamp`; zero is the unset instant (`IsZero`). -/
abbrev types.Timestamp := Nat

/-- Decimal rendering `types.ID.String()`. -/
def types.ID.String (id : types.ID) : String := Nat.repr id

/-! ## Package `state` -/

namespace state

/-- Modelled from the spec: the declaration of `state.Category` is not among the sources.
The spec gives `category ∈ {IN_BACKLOG, IN_PROCESS, DONE}`; the three constants are
non-zero values (a zero category is what a row without a category holds), so a category
is never dropped from a struct condition or a struct update. -/
inductive Category where
  | InBacklog
  | InProcess
  | Done
deriving DecidableEq, Repr

/-- Modelled from the spec: the declaration of `state.State` is not among the sources;
its fields are the ones `DetailWorkflow` fills in (`Name`, `Category`, `Order`). -/
structure State where
  Name : String
  Category : state.Category
  Order : Int
deriving DecidableEq, Repr

/-- Modelled from the spec: the declaration of `state.Transition` is not among the
sources; its fields are the ones `DetailWorkflow` fills in (`Name`, `From`, `To`). -/
structure Transition where
  Name : String
  From : String
  To : String
deriving DecidableEq, Repr

/-- Modelled from the spec: the declaration of `state.StateMachine` is not among the
sources: an ordered sequence of states and the transitions between them. -/
structure StateMachine where
  States : List State
  Transitions : List Transition
deriving DecidableEq, Repr

/-- Modelled from the spec: `StateMachine.FindState` is not among the sources.
`find_state(name) → State?`, a case-sensitive exact match; the first state of the
sequence bearing the name. -/
def StateMachine.FindState (sm : StateMachine) (name : String) : Option State :=
  sm.States.find? (fun s => decide (s.Name = name))

/-- Modelled from the spec: `StateMachine.AvailableTransitions` is not among the
sources.  `available_transitions(from, to)` returns the subset of the transitions whose
endpoints equal the given names. -/
def StateMachine.AvailableTransitions (sm : StateMachine) (fromState toState : String) :
    List Transition :=
  sm.Transitions.filter (fun t => decide (t.From = fromState) && decide (t.To = toState))

end state

/-! ## Package `domain`: the rows -/

namespace domain

/-- Row of `workflows`. -/
structure Workflow where
  ID : types.ID
  Name : String
  ProjectID : types.ID
  ThemeColor : String
  ThemeIcon : String
  CreateTime : types.Timestamp
deriving DecidableEq, Repr

/-- Row of `workflow_states`. -/
structure WorkflowState where
  WorkflowID : types.ID
  Name : String
  Category : state.Category
  Order : Int
  CreateTime : types.Timestamp
deriving DecidableEq, Repr

/-- Row of `workflow_state_transitions`. -/
structure WorkflowStateTransition where
  WorkflowID : types.ID
  Name : String
  FromState : String
  ToState : String
  CreateTime : types.Timestamp
deriving DecidableEq, Repr

/-- Value `domain.WorkflowDetail`: the workflow row with its materialised state machine. -/
structure WorkflowDetail where
  Workflow : domain.Workflow
  StateMachine : state.StateMachine
deriving DecidableEq, Repr

/-- Row of `works`, with the columns the transition engine reads or writes. -/
structure Work where
  ID : types.ID
  ProjectID : types.ID
  FlowID : types.ID
  StateName : String
  StateCategory : state.Category
  StateBeginTime : types.Timestamp
  ProcessBeginTime : types.Timestamp
  ProcessEndTime : types.Timestamp
  ArchiveTime : types.Timestamp
deriving DecidableEq, Repr

/-- Row of `work_process_steps`.  `NextStateCategory` is `none` while the column holds
the zero category. -/
structure WorkProcessStep where
  WorkID : types.ID
  FlowID : types.ID
  StateName : String
  StateCategory : state.Category
  BeginTime : types.Timestamp
  EndTime : types.Timestamp
  NextStateName : String
  NextStateCategory : Option state.Category
  CreatorID : types.ID
  CreatorName : String
deriving DecidableEq, Repr

/-- Request `domain.WorkStateTransitionBrief`. -/
structure WorkStateTransitionBrief where
  FlowID : types.ID
  WorkID : types.ID
  FromState : String
  ToState : String
deriving DecidableEq, Repr

/-- Row of the state-transition log, `domain.WorkStateTransition`. -/
structure WorkStateTransition where
  ID : types.ID
  CreateTime : types.Timestamp
  Creator : types.ID
  WorkStateTransitionBrief : domain.WorkStateTransitionBrief
deriving DecidableEq, Repr

/-- Query `domain.WorkProcessStepQuery`. -/
structure WorkProcessStepQuery where
  WorkID : types.ID
deriving DecidableEq, Repr

end domain

/-! ## Package `security`: the session -/

namespace security

/-- Caller identity carried by the session. -/
structure Identity where
  ID : types.ID
  Name : String
  Nickname : String
deriving DecidableEq, Repr

/-- Session `security.Context`: the identity and the role strings. -/
structure Context where
  Identity : security.Identity
  Perms : List String
deriving DecidableEq, Repr

/-- Modelled from the spec: `Context.HasRoleSuffix` is not among the sources.  The session
carries some role whose suffix equals the given string. -/
def Context.HasRoleSuffix (sec : Context) (suffix : String) : Bool :=
  sec.Perms.any (fun role => suffix.toList.isSuffixOf role.toList)

end security

/-! ## Errors, events, the store -/

/-- Errors the operations return. `Message` carries the text of an `errors.New`. -/
inductive Error where
  | ErrRecordNotFound
  | ErrForbidden
  | ErrStateInvalid
  | ErrArchiveStatusInvalid
  | ErrWorkflowIsReferenced
  | ErrUnknownState
  | ErrStateExisted
  | Message (text : String)
  | EventFailure (text : String)
deriving DecidableEq, Repr

/-- Value `event.PropertyUpdated`. -/
structure PropertyUpdated where
  PropertyName : String
  PropertyDesc : String
  OldValue : String
  OldValueDesc : String
  NewValue : String
  NewValueDesc : String
deriving DecidableEq, Repr

/-- The persisted tables. -/
structure Store where
  workflows : List domain.Workflow
  workflowStates : List domain.WorkflowState
  workflowStateTransitions : List domain.WorkflowStateTransition
  works : List domain.Work
  workProcessSteps : List domain.WorkProcessStep
  workStateTransitions : List domain.WorkStateTransition
deriving DecidableEq, Repr

/-- What a call takes from outside the store: the clock reading
`common.CurrentTimestamp()`, the identifier `common.NextId` hands out, the event sink
`CreateWorkPropertyUpdatedEvent`, which answers with an error or with none, and the way
the database connection counts `RowsAffected`.  The connection is opened from
`config.DriverType` and `config.DriverArgs`, which are not among the sources: with
`foundRows` the driver reports the rows an update matched, without it the rows whose
values the update changed (the default of the MySQL driver). -/
structure Env where
  now : types.Timestamp
  newId : types.ID
  CreateWorkPropertyUpdatedEvent :
    domain.Work → List PropertyUpdated → security.Identity → Option Error
  foundRows : Bool

/-! ## The ORM primitives -/

/-- Struct condition on an identifier column: a zero value constrains nothing. -/
def condID (v x : types.ID) : Bool := decide (v = 0) || decide (x = v)

/-- Struct condition on a text column: an empty value constrains nothing. -/
def condString (v x : String) : Bool := decide (v = "") || decide (x = v)

/-- The row `First` picks among the matches: the one with the least primary key (the
earliest stored one among equal keys). -/
def firstByKey {α : Type} (key : α → Nat) : List α → Option α
  | [] => none
  | x :: xs =>
    match firstByKey key xs with
    | none => some x
    | some y => if key x ≤ key y then some x else some y

/-- Rows after `UPDATE ... WHERE cond`: every matching row is rewritten in place. -/
def updateWhere {α : Type} (cond : α → Bool) (f : α → α) (rows : List α) : List α :=
  rows.map (fun r => if cond r then f r else r)

/-- Number of the rows that satisfy `cond`. -/
def rowsAffected {α : Type} (cond : α → Bool) (rows : List α) : Nat :=
  (rows.filter cond).length

/-- Count `RowsAffected` of an `UPDATE ... WHERE cond` that rewrites a row `r` to `f r`, as
the driver reports it: the rows matched when the connection counts found rows, else the
matched rows that the update changed. -/
def rowsAffectedBy {α : Type} [DecidableEq α] (foundRows : Bool) (cond : α → Bool)
    (f : α → α) (rows : List α) : Nat :=
  if foundRows then rowsAffected cond rows
  else rowsAffected (fun r => cond r && decide (f r ≠ r)) rows

/-- Whether `f` accepts some suffix of the text: the part of a `LIKE` pattern after a `%`
may start anywhere. -/
def likeAny (f : List Char → Bool) : List Char → Bool
  | [] => f []
  | c :: cs => f (c :: cs) || likeAny f cs

/-- SQL `LIKE` on characters: `%` stands for any run of characters, `_` for any one
character, every other character for itself. -/
def likeMatch : List Char → List Char → Bool
  | [], text => text.isEmpty
  | p :: ps, text =>
    if p = '%' then likeAny (likeMatch ps) text
    else
      match text with
      | [] => false
      | c :: cs => (decide (p = '_') || decide (p = c)) && likeMatch ps cs

/-- Condition `column LIKE ?` with the bound value as the pattern.  Escape characters and
collations, which differ between database engines, are not part of the model. -/
def like (pattern value : String) : Bool := likeMatch pattern.toList value.toList

/-- Rows after `DELETE ... WHERE cond`. -/
def deleteWhere {α : Type} (cond : α → Bool) (rows : List α) : List α :=
  rows.filter (fun r => !cond r)

/-- Run of `db.Transaction(fc)`: commit on return, roll back on error. -/
def Transaction (db : Store) (fc : Store → Except Error Store) : Option Error × Store :=
  match fc db with
  | .ok tx => (none, tx)
  | .error e => (some e, db)

/-! ## `WorkflowManager.DetailWorkflow` -/

namespace flow

/-- The loop of `DetailWorkflow` over the transition records: each record is re-bound to
the names of the states it resolves to; a record naming a missing state is
`ErrStateInvalid`. -/
def bindTransitions (sm : state.StateMachine) :
    List domain.WorkflowStateTransition → Except Error (List state.Transition)
  | [] => .ok []
  | record :: rest =>
    match sm.FindState record.FromState, sm.FindState record.ToState with
    | some fromState, some toState =>
      match bindTransitions sm rest with
      | .ok ts => .ok ({ Name := record.Name, From := fromState.Name, To := toState.Name } :: ts)
      | .error e => .error e
    | _, _ => .error .ErrStateInvalid

/-- The states of a workflow as `DetailWorkflow` reads them:
`Where(WorkflowState{WorkflowID: id}).Order("order ASC")`, ties in storage order. -/
def stateRecords (db : Store) (workflowID : types.ID) : List domain.WorkflowState :=
  (db.workflowStates.filter (fun s => condID workflowID s.WorkflowID)).insertionSort
    (fun a b => a.Order ≤ b.Order)

/-- The transitions of a workflow as `DetailWorkflow` reads them. -/
def transitionRecords (db : Store) (workflowID : types.ID) : List domain.WorkflowStateTransition :=
  db.workflowStateTransitions.filter (fun t => condID workflowID t.WorkflowID)

/-- Embedding of `WorkflowManager.DetailWorkflow`. -/
def DetailWorkflow (db : Store) (id : types.ID) (sec : security.Context) :
    Except Error domain.WorkflowDetail :=
  match firstByKey (fun w => w.ID) (db.workflows.filter (fun w => condID id w.ID)) with
  | none => .error .ErrRecordNotFound
  | some workflow =>
    if !sec.HasRoleSuffix ("_" ++ types.ID.String workflow.ProjectID) then .error .ErrForbidden
    else
      let states : List state.State := (stateRecords db workflow.ID).map
        (fun record => { Name := record.Name, Category := record.Category, Order := record.Order })
      match bindTransitions { States := states, Transitions := [] }
          (transitionRecords db workflow.ID) with
      | .error e => .error e
      | .ok transitions =>
        .ok { Workflow := workflow, StateMachine := { States := states, Transitions := transitions } }

end flow

/-! ## `WorkProcessManager` -/

namespace work

open domain

/-- The conditional update of the work row:
`Where(&Work{ID, StateName: FromState}).Update(&Work{StateName, StateCategory, StateBeginTime})`. -/
def matchesWorkState (c : WorkStateTransitionBrief) (w : Work) : Bool :=
  condID c.WorkID w.ID && condString c.FromState w.StateName

/-- The struct update of the work row: zero-valued fields are not written. -/
def setWorkState (c : WorkStateTransitionBrief) (toState : state.State) (now : types.Timestamp)
    (w : Work) : Work :=
  { w with
    StateName := if c.ToState = "" then w.StateName else c.ToState
    StateCategory := toState.Category
    StateBeginTime := if now = 0 then w.StateBeginTime else now }

/-- The works after "update beginProcessTime and endProcessTime"; `work` is the row read
before the state update. -/
def updateProcessTimes (c : WorkStateTransitionBrief) (work : Work) (toState : state.State)
    (now : types.Timestamp) (works : List Work) : List Work :=
  let works1 :=
    if work.ProcessBeginTime = 0 ∧ toState.Category ≠ state.Category.InBacklog then
      updateWhere (fun w => condID c.WorkID w.ID) (fun w => { w with ProcessBeginTime := now }) works
    else works
  if work.ProcessEndTime = 0 ∧ toState.Category = state.Category.Done then
    updateWhere (fun w => condID c.WorkID w.ID) (fun w => { w with ProcessEndTime := now }) works1
  else if work.ProcessEndTime ≠ 0 ∧ toState.Category ≠ state.Category.Done then
    updateWhere (fun w => condID c.WorkID w.ID) (fun w => { w with ProcessEndTime := 0 }) works1
  else works1

/-- The condition of the step update:
`Where(&WorkProcessStep{WorkID, FlowID: workflow.ID, StateName: fromState.Name}).Where("end_time = ?", Timestamp{})`. -/
def matchesOpenStep (c : WorkStateTransitionBrief) (workflow : WorkflowDetail)
    (fromState : state.State) (s : WorkProcessStep) : Bool :=
  condID c.WorkID s.WorkID && condID workflow.Workflow.ID s.FlowID &&
    condString fromState.Name s.StateName && decide (s.EndTime = 0)

/-- The steps after "update process step", first half: when the category of `fromState`
is not `Done`, `Update(&WorkProcessStep{EndTime: now})` on the matching open steps.  Only
`end_time` is written; a zero `now` would not be written at all, which leaves the matched
rows as they are, their `end_time` being zero already. -/
def closeProcessStep (c : WorkStateTransitionBrief) (workflow : WorkflowDetail)
    (fromState : state.State) (now : types.Timestamp) (steps : List WorkProcessStep) :
    List WorkProcessStep :=
  if fromState.Category ≠ state.Category.Done then
    updateWhere (matchesOpenStep c workflow fromState) (fun s => { s with EndTime := now }) steps
  else steps

/-- The row `nextProcessStep` of the source. -/
def nextProcessStep (work : Work) (toState : state.State) (now : types.Timestamp) : WorkProcessStep :=
  { WorkID := work.ID, FlowID := work.FlowID, StateName := toState.Name,
    StateCategory := toState.Category, BeginTime := now, EndTime := 0,
    NextStateName := "", NextStateCategory := none, CreatorID := 0, CreatorName := "" }

/-- The steps after "update process step", second half: when the category of `toState`
is not `Done`, `Create(nextProcessStep)`. -/
def createNextProcessStep (work : Work) (toState : state.State) (now : types.Timestamp)
    (steps : List WorkProcessStep) : List WorkProcessStep :=
  if toState.Category ≠ state.Category.Done then steps ++ [nextProcessStep work toState now]
  else steps

/-- The event the transition emits for the work row it read. -/
def stateNameUpdated (work : Work) (c : WorkStateTransitionBrief) : List PropertyUpdated :=
  [{ PropertyName := "StateName", PropertyDesc := "StateName", OldValue := work.StateName,
     OldValueDesc := work.StateName, NewValue := c.ToState, NewValueDesc := c.ToState }]

/-- The function `CreateWorkStateTransition` hands to `db.Transaction`. -/
def transitionTx (env : Env) (c : WorkStateTransitionBrief) (sec : security.Context)
    (workflow : WorkflowDetail) (fromState toState : state.State)
    (transition : WorkStateTransition) (tx : Store) : Except Error Store :=
  match firstByKey (fun w => w.ID) (tx.works.filter (fun w => condID c.WorkID w.ID)) with
  | none => .error .ErrRecordNotFound
  | some work =>
    if !sec.HasRoleSuffix ("_" ++ types.ID.String work.ProjectID) then .error .ErrForbidden
    else if work.ArchiveTime ≠ 0 then .error .ErrArchiveStatusInvalid
    else if rowsAffectedBy env.foundRows (matchesWorkState c)
        (setWorkState c toState env.now) tx.works ≠ 1 then
      .error (.Message ("expected affected row is 1, but actual is " ++
        Nat.repr (rowsAffectedBy env.foundRows (matchesWorkState c)
          (setWorkState c toState env.now) tx.works)))
    else
      match env.CreateWorkPropertyUpdatedEvent work (stateNameUpdated work c) sec.Identity with
      | some e => .error e
      | none =>
        .ok { tx with
          works := updateProcessTimes c work toState env.now
            (updateWhere (matchesWorkState c) (setWorkState c toState env.now) tx.works)
          workStateTransitions := tx.workStateTransitions ++ [transition]
          workProcessSteps := createNextProcessStep work toState env.now
            (closeProcessStep c workflow fromState env.now tx.workProcessSteps) }

/-- Embedding of `WorkProcessManager.CreateWorkStateTransition`: the returned transition
or error, and the store afterwards. -/
def CreateWorkStateTransition (env : Env) (db : Store) (c : WorkStateTransitionBrief)
    (sec : security.Context) : Except Error WorkStateTransition × Store :=
  match flow.DetailWorkflow db c.FlowID sec with
  | .error e => (.error e, db)
  | .ok workflow =>
    if (workflow.StateMachine.AvailableTransitions c.FromState c.ToState).length ≠ 1 then
      (.error (.Message ("transition from " ++ c.FromState ++ " to " ++ c.ToState ++
        " is not invalid")), db)
    else
      let transition : WorkStateTransition :=
        { ID := env.newId, CreateTime := env.now, Creator := sec.Identity.ID,
          WorkStateTransitionBrief := c }
      match workflow.StateMachine.FindState c.FromState with
      | none => (.error (.Message ("invalid state " ++ "")), db)
      | some fromState =>
        match workflow.StateMachine.FindState c.ToState with
        | none => (.error (.Message ("invalid state " ++ "")), db)
        | some toState =>
          match Transaction db (transitionTx env c sec workflow fromState toState transition) with
          | (some e, db1) => (.error e, db1)
          | (none, db1) => (.ok transition, db1)

/-- The order in which the database delivers the rows of a `Find` that asks for none.
`QueryProcessSteps` carries no `Order` clause, and neither the declaration of the table
nor the database engine is among the sources, so the order of its answer is the engine's:
`arrange` takes the matching rows, listed as the store holds them, to the list the engine
delivers, which has the same rows. -/
structure Delivery where
  arrange : List WorkProcessStep → List WorkProcessStep
  perm : ∀ rows, (arrange rows).Perm rows

/-- Delivery in the order in which the rows were stored. -/
def Delivery.stored : Delivery :=
  { arrange := fun rows => rows, perm := fun rows => List.Perm.refl rows }

/-- Whether the first text comes before the second, or equals it, character by
character. -/
def textLE : List Char → List Char → Bool
  | [], _ => true
  | _ :: _, [] => false
  | a :: as, b :: bs =>
    if a.toNat < b.toNat then true
    else if b.toNat < a.toNat then false
    else textLE as bs

/-- Modelled from the spec: the declaration of the table `work_process_steps` is not among
the sources; the spec keys a process step by `(work_id, flow_id, state_name, begin_time)`.
Whether the key of the first row comes before the key of the second, or equals it. -/
def stepKeyLE (a b : WorkProcessStep) : Bool :=
  if a.WorkID ≠ b.WorkID then decide (a.WorkID < b.WorkID)
  else if a.FlowID ≠ b.FlowID then decide (a.FlowID < b.FlowID)
  else if a.StateName ≠ b.StateName then textLE a.StateName.toList b.StateName.toList
  else decide (a.BeginTime ≤ b.BeginTime)

/-- Delivery in the order of the key, as an engine that reads the table along its key
delivers. -/
def Delivery.byKey : Delivery :=
  { arrange := fun rows => rows.insertionSort (fun a b => stepKeyLE a b = true)
    perm := fun rows => List.perm_insertionSort _ rows }

/-- Embedding of `WorkProcessManager.QueryProcessSteps`; `deliver` is the order in which
the engine hands over the rows of the `Find`. -/
def QueryProcessSteps (deliver : Delivery) (db : Store) (query : WorkProcessStepQuery)
    (sec : security.Context) : Except Error (List WorkProcessStep) :=
  match firstByKey (fun w => w.ID) (db.works.filter (fun w => condID query.WorkID w.ID)) with
  | none => .ok []
  | some work =>
    if !sec.HasRoleSuffix ("_" ++ types.ID.String work.ProjectID) then .ok []
    else
      .ok (deliver.arrange (db.workProcessSteps.filter (fun s => condID query.WorkID s.WorkID)))

/-- The store a committed transition leaves. -/
def committed (env : Env) (c : WorkStateTransitionBrief) (workflow : WorkflowDetail)
    (fromState toState : state.State) (work : Work) (transition : WorkStateTransition)
    (db : Store) : Store :=
  { db with
    works := updateProcessTimes c work toState env.now
      (updateWhere (matchesWorkState c) (setWorkState c toState env.now) db.works)
    workStateTransitions := db.workStateTransitions ++ [transition]
    workProcessSteps := createNextProcessStep work toState env.now
      (closeProcessStep c workflow fromState env.now db.workProcessSteps) }

/-! ### The history of a work item -/

/-- The process steps of a work item, in storage order. -/
def stepsOf (db : Store) (workID : types.ID) : List WorkProcessStep :=
  db.workProcessSteps.filter (fun s => decide (s.WorkID = workID))

/-- The open process steps of a work item: those with a zero `end_time`. -/
def openSteps (db : Store) (workID : types.ID) : List WorkProcessStep :=
  db.workProcessSteps.filter (fun s => decide (s.WorkID = workID) && decide (s.EndTime = 0))

/-- The open-step invariant, as the spec words it: a work item whose current state
category is not `DONE` has exactly one open step, one whose category is `DONE` has none. -/
def OpenStepInvariant (db : Store) : Prop :=
  ∀ w ∈ db.works,
    (w.StateCategory ≠ state.Category.Done → (openSteps db w.ID).length = 1) ∧
    (w.StateCategory = state.Category.Done → (openSteps db w.ID).length = 0)

instance (db : Store) : Decidable (OpenStepInvariant db) := by
  unfold OpenStepInvariant
  infer_instance

/-- The coherence the engine relies on: `id` is the primary key of `works`,
`(workflow_id, name)` determines the category of a state, the category snapshot of every
work item is the category of its state in its workflow, and the open step of a work item
that is not done is the single step of its current state in its flow. -/
def Coherent (db : Store) : Prop :=
  (db.works.map (fun w => w.ID)).Nodup ∧
  (∀ s1 ∈ db.workflowStates, ∀ s2 ∈ db.workflowStates,
    s1.WorkflowID = s2.WorkflowID → s1.Name = s2.Name → s1.Category = s2.Category) ∧
  ∀ w ∈ db.works,
    (∀ s ∈ db.workflowStates, s.WorkflowID = w.FlowID → s.Name = w.StateName →
      s.Category = w.StateCategory) ∧
    (w.StateCategory ≠ state.Category.Done →
      ∃ s, openSteps db w.ID = [s] ∧ s.FlowID = w.FlowID ∧ s.StateName = w.StateName) ∧
    (w.StateCategory = state.Category.Done → openSteps db w.ID = [])

/-- One call of `CreateWorkStateTransition`: what it takes from outside, the request and
the session. -/
structure Call where
  env : Env
  brief : WorkStateTransitionBrief
  sec : security.Context

/-- The store after a sequence of calls that all succeed; `none` when one of them fails. -/
def applyCalls (db : Store) : List Call → Option Store
  | [] => some db
  | k :: ks =>
    match CreateWorkStateTransition k.env db k.brief k.sec with
    | (.ok _, db1) => applyCalls db1 ks
    | (.error _, _) => none

/-- Whether the target state of a call is of category `DONE` in the workflow it names. -/
def entersDone (db : Store) (k : Call) : Bool :=
  match flow.DetailWorkflow db k.brief.FlowID k.sec with
  | .ok workflow =>
    match workflow.StateMachine.FindState k.brief.ToState with
    | some toState => decide (toState.Category = state.Category.Done)
    | none => false
  | .error _ => false

end work

/-! ## `WorkflowManager`: the mutations -/

/-- Modelled from the spec: the constant `domain.ProjectRoleManager` is not among the
sources; the manager role of project `p` is the literal `manager_p`. -/
def domain.ProjectRoleManager : String := "manager"

namespace flow

open domain

/-- Input `flow.WorkflowCreation`. -/
structure WorkflowCreation where
  Name : String
  ProjectID : types.ID
  ThemeColor : String
  ThemeIcon : String
  StateMachine : state.StateMachine
deriving DecidableEq, Repr

/-- Input `flow.WorkflowStateUpdating`; `OriginName` and `Name` are bound as required. -/
structure WorkflowStateUpdating where
  OriginName : String
  Name : String
  Order : Int
deriving DecidableEq, Repr

/-- Input `flow.StateOrderRangeUpdating`. -/
structure StateOrderRangeUpdating where
  State : String
  NewOlder : Int
  OldOlder : Int
deriving DecidableEq, Repr

/-- Input `flow.StateCreating`. -/
structure StateCreating where
  Name : String
  Category : state.Category
  Order : Int
  Transitions : List state.Transition
deriving DecidableEq, Repr

/-- The loop `States[idx].Order = 10000 + idx + 1` of `CreateWorkflow`, from index `idx`. -/
def stampOrdersFrom (idx : Nat) : List state.State → List state.State
  | [] => []
  | s :: rest => { s with Order := ((10000 + idx + 1 : Nat) : Int) } :: stampOrdersFrom (idx + 1) rest

/-- The states of a creation with their orders re-stamped by input position. -/
def stampOrders (states : List state.State) : List state.State := stampOrdersFrom 0 states

/-- The state row `CreateWorkflow` inserts for a state of the machine. -/
def stateEntity (workflow : Workflow) (s : state.State) : WorkflowState :=
  { WorkflowID := workflow.ID, Order := s.Order, Name := s.Name, Category := s.Category,
    CreateTime := workflow.CreateTime }

/-- The transition row `CreateWorkflow` inserts for a transition of the machine. -/
def transitionEntity (workflow : Workflow) (t : state.Transition) : WorkflowStateTransition :=
  { WorkflowID := workflow.ID, Name := t.Name, FromState := t.From, ToState := t.To,
    CreateTime := workflow.CreateTime }

/-- Embedding of `WorkflowManager.CreateWorkflow`: the returned detail or error, and the
store afterwards.  The new id is `env.newId`, the creation time `env.now`. -/
def CreateWorkflow (env : Env) (db : Store) (c : WorkflowCreation) (sec : security.Context) :
    Except Error WorkflowDetail × Store :=
  if !sec.HasRoleSuffix ("_" ++ types.ID.String c.ProjectID) then (.error .ErrForbidden, db)
  else
    let workflow : WorkflowDetail :=
      { Workflow :=
          { ID := env.newId, Name := c.Name, ProjectID := c.ProjectID,
            ThemeColor := c.ThemeColor, ThemeIcon := c.ThemeIcon, CreateTime := env.now }
        StateMachine :=
          { States := stampOrders c.StateMachine.States
            Transitions := c.StateMachine.Transitions } }
    match Transaction db (fun tx =>
        .ok { tx with
          workflows := tx.workflows ++ [workflow.Workflow]
          workflowStates := tx.workflowStates ++
            workflow.StateMachine.States.map (stateEntity workflow.Workflow)
          workflowStateTransitions := tx.workflowStateTransitions ++
            workflow.StateMachine.Transitions.map (transitionEntity workflow.Workflow) }) with
    | (some e, db1) => (.error e, db1)
    | (none, db1) => (.ok workflow, db1)

/-- Embedding of `isWorkflowReferenced`: some work item, or else some process step, has
the workflow as its flow. -/
def isWorkflowReferenced (db : Store) (workflowID : types.ID) : Option Error :=
  match firstByKey (fun w => w.ID) (db.works.filter (fun w => condID workflowID w.FlowID)) with
  | some _ => some .ErrWorkflowIsReferenced
  | none =>
    match firstByKey (fun s => s.WorkID)
        (db.workProcessSteps.filter (fun s => condID workflowID s.FlowID)) with
    | some _ => some .ErrWorkflowIsReferenced
    | none => none

/-- Embedding of `WorkflowManager.DeleteWorkflow`.  `Delete(&Workflow{ID: id})` deletes by
the primary key of its value, and every row when that key is zero. -/
def DeleteWorkflow (db : Store) (id : types.ID) (sec : security.Context) :
    Option Error × Store :=
  Transaction db (fun tx =>
    match firstByKey (fun w => w.ID) (tx.workflows.filter (fun w => condID id w.ID)) with
    | none => .error .ErrRecordNotFound
    | some wf =>
      if !sec.HasRoleSuffix (ProjectRoleManager ++ "_" ++ types.ID.String wf.ProjectID) then
        .error .ErrForbidden
      else
        match isWorkflowReferenced tx wf.ID with
        | some e => .error e
        | none =>
          .ok { tx with
            workflows := deleteWhere (fun w => condID id w.ID) tx.workflows
            workflowStates :=
              deleteWhere (fun s => decide (s.WorkflowID = wf.ID)) tx.workflowStates
            workflowStateTransitions :=
              deleteWhere (fun t => decide (t.WorkflowID = wf.ID)) tx.workflowStateTransitions })

/-- Modelled from the spec: the key of `workflow_state_transitions`, whose declaration is
not among the sources, is `(workflow_id, from_state, to_state)`.  `Save` rewrites the
rows bearing the key of its value and inserts the value when there is none (or when the
leading key field is zero). -/
def saveTransition (t : WorkflowStateTransition) (rows : List WorkflowStateTransition) :
    List WorkflowStateTransition :=
  let same := fun (r : WorkflowStateTransition) =>
    decide (r.WorkflowID = t.WorkflowID) && decide (r.FromState = t.FromState) &&
      decide (r.ToState = t.ToState)
  if t.WorkflowID ≠ 0 ∧ rows.any same = true then updateWhere same (fun _ => t) rows
  else rows ++ [t]

/-- The loop of `CreateWorkflowStateTransitions`: both endpoints of a transition must be
among the states of the workflow, else `ErrUnknownState`. -/
def saveTransitions (now : types.Timestamp) (workflowID : types.ID)
    (states : List WorkflowState) :
    List state.Transition → List WorkflowStateTransition →
      Except Error (List WorkflowStateTransition)
  | [], rows => .ok rows
  | t :: rest, rows =>
    if !states.any (fun s => decide (s.Name = t.From)) then .error .ErrUnknownState
    else if !states.any (fun s => decide (s.Name = t.To)) then .error .ErrUnknownState
    else
      saveTransitions now workflowID states rest
        (saveTransition { WorkflowID := workflowID, Name := t.Name, FromState := t.From,
                          ToState := t.To, CreateTime := now } rows)

/-- Embedding of `WorkflowManager.CreateWorkflowStateTransitions`; every row is stamped
with the one clock reading `env.now`. -/
def CreateWorkflowStateTransitions (env : Env) (db : Store) (id : types.ID)
    (transitions : List state.Transition) (sec : security.Context) : Option Error × Store :=
  Transaction db (fun tx =>
    match firstByKey (fun w => w.ID) (tx.workflows.filter (fun w => condID id w.ID)) with
    | none => .error .ErrRecordNotFound
    | some workflow =>
      if !sec.HasRoleSuffix
          (ProjectRoleManager ++ "_" ++ types.ID.String workflow.ProjectID) then
        .error .ErrForbidden
      else
        match saveTransitions env.now workflow.ID
            (tx.workflowStates.filter (fun s => condID workflow.ID s.WorkflowID))
            transitions tx.workflowStateTransitions with
        | .error e => .error e
        | .ok rows => .ok { tx with workflowStateTransitions := rows })

/-- The loop of `DeleteWorkflowStateTransitions`: the rows of the workflow whose endpoints
are `LIKE` those of a listed transition are deleted. -/
def deleteTransitions (workflowID : types.ID) :
    List state.Transition → List WorkflowStateTransition → List WorkflowStateTransition
  | [], rows => rows
  | t :: rest, rows =>
    deleteTransitions workflowID rest
      (deleteWhere (fun r => decide (r.WorkflowID = workflowID) && like t.From r.FromState &&
        like t.To r.ToState) rows)

/-- Embedding of `WorkflowManager.DeleteWorkflowStateTransitions`. -/
def DeleteWorkflowStateTransitions (db : Store) (id : types.ID)
    (transitions : List state.Transition) (sec : security.Context) : Option Error × Store :=
  Transaction db (fun tx =>
    match firstByKey (fun w => w.ID) (tx.workflows.filter (fun w => condID id w.ID)) with
    | none => .error .ErrRecordNotFound
    | some wf =>
      if !sec.HasRoleSuffix (ProjectRoleManager ++ "_" ++ types.ID.String wf.ProjectID) then
        .error .ErrForbidden
      else
        .ok { tx with
          workflowStateTransitions :=
            deleteTransitions wf.ID transitions tx.workflowStateTransitions })

/-- Embedding of `WorkflowManager.checkPerms`, for a session that is present. -/
def checkPerms (db : Store) (id : types.ID) (sec : security.Context) : Option Error :=
  match firstByKey (fun w => w.ID) (db.workflows.filter (fun w => condID id w.ID)) with
  | none => some .ErrRecordNotFound
  | some workflow =>
    if !sec.HasRoleSuffix ("_" ++ types.ID.String workflow.ProjectID) then some .ErrForbidden
    else none

/-- The loop of `CreateState` over the transitions to create: an endpoint is known when
the name map of the states holds a non-empty entry for it. -/
def createTransitions (now : types.Timestamp) (workflowID : types.ID)
    (states : List WorkflowState) :
    List state.Transition → List WorkflowStateTransition →
      Except Error (List WorkflowStateTransition)
  | [], rows => .ok rows
  | t :: rest, rows =>
    if t.From = "" ∨ !states.any (fun s => decide (s.Name = t.From)) = true ∨
        t.To = "" ∨ !states.any (fun s => decide (s.Name = t.To)) = true then
      .error .ErrUnknownState
    else
      createTransitions now workflowID states rest
        (rows ++ [{ WorkflowID := workflowID, Name := t.Name, FromState := t.From,
                    ToState := t.To, CreateTime := now }])

/-- Embedding of `WorkflowManager.CreateState`. -/
def CreateState (env : Env) (db : Store) (workflowID : types.ID) (creating : StateCreating)
    (sec : security.Context) : Option Error × Store :=
  Transaction db (fun tx =>
    match checkPerms db workflowID sec with
    | some e => .error e
    | none =>
      let states := tx.workflowStates ++
        [{ WorkflowID := workflowID, Order := creating.Order, Name := creating.Name,
           Category := creating.Category, CreateTime := env.now }]
      match createTransitions env.now workflowID
          (states.filter (fun s => condID workflowID s.WorkflowID))
          creating.Transitions tx.workflowStateTransitions with
      | .error e => .error e
      | .ok rows => .ok { tx with workflowStates := states, workflowStateTransitions := rows })

/-- Modelled from the spec: the key of `workflow_states`, whose declaration is not among
the sources, is `(workflow_id, name)`.  `Delete(originState)` deletes the rows bearing the
key of its value, and every row when the leading key field is zero. -/
def deleteState (origin : WorkflowState) (rows : List WorkflowState) : List WorkflowState :=
  deleteWhere (fun s => decide (origin.WorkflowID = 0) ||
    (decide (s.WorkflowID = origin.WorkflowID) && decide (s.Name = origin.Name))) rows

/-- The transitions after the rename cascade: `from_state`, then `to_state`. -/
def renameTransitions (origin : WorkflowState) (name : String)
    (rows : List WorkflowStateTransition) : List WorkflowStateTransition :=
  updateWhere (fun t => decide (t.WorkflowID = origin.WorkflowID) && like origin.Name t.ToState)
    (fun t => { t with ToState := if name = "" then t.ToState else name })
    (updateWhere
      (fun t => decide (t.WorkflowID = origin.WorkflowID) && like origin.Name t.FromState)
      (fun t => { t with FromState := if name = "" then t.FromState else name }) rows)

/-- The works after the rename cascade. -/
def renameWorks (origin : WorkflowState) (name : String) (rows : List Work) : List Work :=
  updateWhere (fun w => decide (w.FlowID = origin.WorkflowID) && like origin.Name w.StateName)
    (fun w => { w with
      StateName := if name = "" then w.StateName else name
      StateCategory := origin.Category }) rows

/-- The process steps after the rename cascade: `state_name`, then `next_state_name`. -/
def renameSteps (origin : WorkflowState) (name : String) (rows : List WorkProcessStep) :
    List WorkProcessStep :=
  updateWhere
    (fun s => decide (s.FlowID = origin.WorkflowID) && like origin.Name s.NextStateName)
    (fun s => { s with
      NextStateName := if name = "" then s.NextStateName else name
      NextStateCategory := some origin.Category })
    (updateWhere
      (fun s => decide (s.FlowID = origin.WorkflowID) && like origin.Name s.StateName)
      (fun s => { s with
        StateName := if name = "" then s.StateName else name
        StateCategory := origin.Category }) rows)

/-- The states after "delete origin state" and "insert new state". -/
def replaceState (workflow : Workflow) (origin : WorkflowState)
    (updating : WorkflowStateUpdating) (rows : List WorkflowState) : List WorkflowState :=
  deleteState origin rows ++
    [{ WorkflowID := workflow.ID, Order := updating.Order, Name := updating.Name,
       Category := origin.Category, CreateTime := workflow.CreateTime }]

/-- The store a committed `UpdateWorkflowState` leaves: the state replaced and, when the
name changes, the referrers renamed. -/
def stateUpdated (workflow : Workflow) (origin : WorkflowState)
    (updating : WorkflowStateUpdating) (tx : Store) : Store :=
  if origin.Name ≠ updating.Name then
    { tx with
      workflowStates := replaceState workflow origin updating tx.workflowStates
      workflowStateTransitions :=
        renameTransitions origin updating.Name tx.workflowStateTransitions
      works := renameWorks origin updating.Name tx.works
      workProcessSteps := renameSteps origin updating.Name tx.workProcessSteps }
  else { tx with workflowStates := replaceState workflow origin updating tx.workflowStates }

/-- The function `UpdateWorkflowState` hands to `db.Transaction`. -/
def updateStateTx (id : types.ID) (updating : WorkflowStateUpdating) (sec : security.Context)
    (tx : Store) : Except Error Store :=
  match firstByKey (fun w => w.ID) (tx.workflows.filter (fun w => condID id w.ID)) with
  | none => .error .ErrRecordNotFound
  | some workflow =>
    if !sec.HasRoleSuffix
        (ProjectRoleManager ++ "_" ++ types.ID.String workflow.ProjectID) then
      .error .ErrForbidden
    else
      match firstByKey (fun s => s.WorkflowID) (tx.workflowStates.filter
          (fun s => condID workflow.ID s.WorkflowID && condString updating.OriginName s.Name)) with
      | none => .error .ErrRecordNotFound
      | some originState =>
        if updating.OriginName ≠ updating.Name ∧
            (tx.workflowStates.filter (fun s =>
              condID workflow.ID s.WorkflowID && condString updating.Name s.Name)) ≠ [] then
          .error .ErrStateExisted
        else .ok (stateUpdated workflow originState updating tx)

/-- Embedding of `WorkflowManager.UpdateWorkflowState`. -/
def UpdateWorkflowState (db : Store) (id : types.ID) (updating : WorkflowStateUpdating)
    (sec : security.Context) : Option Error × Store :=
  Transaction db (updateStateTx id updating sec)

/-- The loop of `UpdateStateRangeOrders`: each entry sets the order of the states it
matches, and the driver must report exactly one affected row for it. -/
def updateOrders (foundRows : Bool) (workflowID : types.ID) :
    List StateOrderRangeUpdating → List WorkflowState → Except Error (List WorkflowState)
  | [], rows => .ok rows
  | u :: rest, rows =>
    if rowsAffectedBy foundRows
        (fun s => condID workflowID s.WorkflowID && condString u.State s.Name)
        (fun s => { s with Order := u.NewOlder }) rows ≠ 1 then
      .error (.Message ("expected affected row is 1, but actual is " ++
        Nat.repr (rowsAffectedBy foundRows
          (fun s => condID workflowID s.WorkflowID && condString u.State s.Name)
          (fun s => { s with Order := u.NewOlder }) rows)))
    else
      updateOrders foundRows workflowID rest
        (updateWhere (fun s => condID workflowID s.WorkflowID && condString u.State s.Name)
          (fun s => { s with Order := u.NewOlder }) rows)

/-- The order a state called `name` holds after the entries were applied in list order:
the `NewOlder` of the last entry naming it, or else the order it had. -/
def orderAfter (entries : List StateOrderRangeUpdating) (name : String) (order : Int) : Int :=
  entries.foldl (fun acc u => if u.State = name then u.NewOlder else acc) order

/-- Whether every entry naming `name` changes the order of that state, the entries being
applied in list order to a state that holds `order`. -/
def changesOrder : List StateOrderRangeUpdating → String → Int → Bool
  | [], _, _ => true
  | u :: rest, name, order =>
    if u.State = name then decide (u.NewOlder ≠ order) && changesOrder rest name u.NewOlder
    else changesOrder rest name order

/-- Embedding of `WorkflowManager.UpdateStateRangeOrders`; of `env` it takes the way the
connection counts `RowsAffected`. -/
def UpdateStateRangeOrders (env : Env) (db : Store) (workflowID : types.ID)
    (wantedOrders : List StateOrderRangeUpdating) (sec : security.Context) :
    Option Error × Store :=
  if wantedOrders.length = 0 then (none, db)
  else
    Transaction db (fun tx =>
      match checkPerms db workflowID sec with
      | some e => .error e
      | none =>
        match updateOrders env.foundRows workflowID wantedOrders tx.workflowStates with
        | .error e => .error e
        | .ok rows => .ok { tx with workflowStates := rows })

/-- Referential integrity of the stored transitions: both endpoints of every transition row
name a state row of the same workflow. -/
def TransitionsResolved (db : Store) : Prop :=
  ∀ t ∈ db.workflowStateTransitions,
    (∃ s ∈ db.workflowStates, s.WorkflowID = t.WorkflowID ∧ s.Name = t.FromState) ∧
    (∃ s ∈ db.workflowStates, s.WorkflowID = t.WorkflowID ∧ s.Name = t.ToState)

instance (db : Store) : Decidable (TransitionsResolved db) := by
  unfold TransitionsResolved
  infer_instance

end flow

/-! ## `WorkflowManager.UpdateWorkflowBase` and the calls that write -/

namespace flow

open domain

/-- Input `flow.WorkflowBaseUpdation`. -/
structure WorkflowBaseUpdation where
  Name : String
  ThemeColor : String
  ThemeIcon : String
deriving DecidableEq, Repr

/-- Embedding of `WorkflowManager.UpdateWorkflowBase`: the workflow row read again after
the update, or the error, and the store afterwards (the input store when the transaction
rolls back).  The struct update writes the non-empty fields only. -/
def UpdateWorkflowBase (db : Store) (id : types.ID) (c : WorkflowBaseUpdation)
    (sec : security.Context) : Except Error Workflow × Store :=
  match firstByKey (fun w => w.ID) (db.workflows.filter (fun w => condID id w.ID)) with
  | none => (.error .ErrRecordNotFound, db)
  | some wf =>
    if !sec.HasRoleSuffix (ProjectRoleManager ++ "_" ++ types.ID.String wf.ProjectID) then
      (.error .ErrForbidden, db)
    else
      let workflows := updateWhere (fun w => condID id w.ID)
        (fun w => { w with
          Name := if c.Name = "" then w.Name else c.Name
          ThemeIcon := if c.ThemeIcon = "" then w.ThemeIcon else c.ThemeIcon
          ThemeColor := if c.ThemeColor = "" then w.ThemeColor else c.ThemeColor })
        db.workflows
      match firstByKey (fun w => w.ID) (workflows.filter (fun w => condID id w.ID)) with
      | none => (.error .ErrRecordNotFound, db)
      | some again => (.ok again, { db with workflows := workflows })

end flow

/-- A call of one of the writing operations of `WorkProcessManager` and
`WorkflowManager`, with its arguments.  The reading operations (`QueryProcessSteps`,
`DetailWorkflow`, `QueryWorkflows`) return no store and are not listed. -/
inductive Operation where
  | CreateWorkStateTransition (c : domain.WorkStateTransitionBrief)
  | CreateWorkflow (c : flow.WorkflowCreation)
  | UpdateWorkflowBase (id : types.ID) (c : flow.WorkflowBaseUpdation)
  | DeleteWorkflow (id : types.ID)
  | CreateWorkflowStateTransitions (id : types.ID) (transitions : List state.Transition)
  | DeleteWorkflowStateTransitions (id : types.ID) (transitions : List state.Transition)
  | CreateState (workflowID : types.ID) (creating : flow.StateCreating)
  | UpdateWorkflowState (id : types.ID) (updating : flow.WorkflowStateUpdating)
  | UpdateStateRangeOrders (workflowID : types.ID)
      (wantedOrders : List flow.StateOrderRangeUpdating)
deriving DecidableEq, Repr

/-- Whether the call is an `UpdateWorkflowState` that asks for a new name, the one call
that runs the rename cascade.  A call with an empty `originName`, which the struct
condition would not constrain, is counted with them. -/
def Operation.renamesState : Operation → Bool
  | .UpdateWorkflowState _ updating =>
    decide (updating.OriginName ≠ updating.Name) || decide (updating.OriginName = "")
  | _ => false

/-- The store after the call, whether it succeeded or failed. -/
def Operation.run (env : Env) (sec : security.Context) (db : Store) : Operation → Store
  | .CreateWorkStateTransition c => (work.CreateWorkStateTransition env db c sec).2
  | .CreateWorkflow c => (flow.CreateWorkflow env db c sec).2
  | .UpdateWorkflowBase id c => (flow.UpdateWorkflowBase db id c sec).2
  | .DeleteWorkflow id => (flow.DeleteWorkflow db id sec).2
  | .CreateWorkflowStateTransitions id transitions =>
    (flow.CreateWorkflowStateTransitions env db id transitions sec).2
  | .DeleteWorkflowStateTransitions id transitions =>
    (flow.DeleteWorkflowStateTransitions db id transitions sec).2
  | .CreateState workflowID creating => (flow.CreateState env db workflowID creating sec).2
  | .UpdateWorkflowState id updating => (flow.UpdateWorkflowState db id updating sec).2
  | .UpdateStateRangeOrders workflowID wantedOrders =>
    (flow.UpdateStateRangeOrders env db workflowID wantedOrders sec).2

namespace work

open domain

/-- The fields of a process step that the history is to keep: `work_id`, `flow_id`,
`state_name`, `state_category`, `begin_time`. -/
def stepIdentity (s : WorkProcessStep) :
    types.ID × types.ID × String × state.Category × types.Timestamp :=
  (s.WorkID, s.FlowID, s.StateName, s.StateCategory, s.BeginTime)

/-- The fields of a process step that no operation writes after the insert: `work_id`,
`flow_id`, `begin_time`. -/
def stepOrigin (s : WorkProcessStep) : types.ID × types.ID × types.Timestamp :=
  (s.WorkID, s.FlowID, s.BeginTime)

/-- The step table `after` is an append-only successor of `before`: every row of `before`
is still there, at its place, with `work_id`, `flow_id`, `state_name`, `state_category`
and `begin_time` as they were; rows may have been added behind. -/
def AppendOnly (before after : List WorkProcessStep) : Prop :=
  List.IsPrefix (before.map stepIdentity) (after.map stepIdentity)

instance (before after : List WorkProcessStep) : Decidable (AppendOnly before after) := by
  unfold AppendOnly
  infer_instance

end work

/-! ## The scenario of the tests

Project 1 has the workflow 10 with the states `PENDING`, `DOING`, `DONE` and the
transitions `PENDING → DOING` and `DOING → DONE`; the work item 7 of that project waits in
`PENDING` with the process step its creation opened; the caller is user 1, a manager of
project 1. -/

namespace scenario

open domain

/-- The workflow row. -/
def workflow1 : Workflow :=
  { ID := 10, Name := "wf1", ProjectID := 1, ThemeColor := "#fff", ThemeIcon := "i",
    CreateTime := 5 }

/-- The work item, in `PENDING`. -/
def work1 : Work :=
  { ID := 7, ProjectID := 1, FlowID := 10, StateName := "PENDING",
    StateCategory := state.Category.InBacklog, StateBeginTime := 100, ProcessBeginTime := 0,
    ProcessEndTime := 0, ArchiveTime := 0 }

/-- The step opened when the work item was created. -/
def step1 : WorkProcessStep :=
  { WorkID := 7, FlowID := 10, StateName := "PENDING",
    StateCategory := state.Category.InBacklog, BeginTime := 100, EndTime := 0,
    NextStateName := "", NextStateCategory := none, CreatorID := 1, CreatorName := "u1" }

/-- The store before any transition. -/
def store0 : Store :=
  { workflows := [workflow1]
    workflowStates :=
      [{ WorkflowID := 10, Name := "PENDING", Category := state.Category.InBacklog,
         Order := 10001, CreateTime := 5 },
       { WorkflowID := 10, Name := "DOING", Category := state.Category.InProcess,
         Order := 10002, CreateTime := 5 },
       { WorkflowID := 10, Name := "DONE", Category := state.Category.Done,
         Order := 10003, CreateTime := 5 }]
    workflowStateTransitions :=
      [{ WorkflowID := 10, Name := "begin", FromState := "PENDING", ToState := "DOING",
         CreateTime := 5 },
       { WorkflowID := 10, Name := "finish", FromState := "DOING", ToState := "DONE",
         CreateTime := 5 }]
    works := [work1]
    workProcessSteps := [step1]
    workStateTransitions := [] }

/-- The state machine `DetailWorkflow` materialises for workflow 10. -/
def detail1 : WorkflowDetail :=
  { Workflow := workflow1
    StateMachine :=
      { States :=
          [{ Name := "PENDING", Category := state.Category.InBacklog, Order := 10001 },
           { Name := "DOING", Category := state.Category.InProcess, Order := 10002 },
           { Name := "DONE", Category := state.Category.Done, Order := 10003 }]
        Transitions :=
          [{ Name := "begin", From := "PENDING", To := "DOING" },
           { Name := "finish", From := "DOING", To := "DONE" }] } }

/-- The caller: user 1, manager of project 1. -/
def sec1 : security.Context :=
  { Identity := { ID := 1, Name := "u1", Nickname := "user one" }, Perms := ["manager_1"] }

/-- A call environment reading `now` on the clock, with an event sink that accepts, on a
connection that counts the rows an update changed. -/
def envAt (now : types.Timestamp) : Env :=
  { now := now, newId := 1000 + now, CreateWorkPropertyUpdatedEvent := fun _ _ _ => none,
    foundRows := false }

/-- The request `PENDING → DOING` on work 7. -/
def toDoing : WorkStateTransitionBrief :=
  { FlowID := 10, WorkID := 7, FromState := "PENDING", ToState := "DOING" }

/-- The request `DOING → DONE` on work 7. -/
def toDone : WorkStateTransitionBrief :=
  { FlowID := 10, WorkID := 7, FromState := "DOING", ToState := "DONE" }

/-- The request `PENDING → DONE` on work 7, which the state machine lacks. -/
def pendingToDone : WorkStateTransitionBrief :=
  { FlowID := 10, WorkID := 7, FromState := "PENDING", ToState := "DONE" }

/-- The log row the request `PENDING → DOING` at instant 200 returns. -/
def log1 : WorkStateTransition :=
  { ID := 1200, CreateTime := 200, Creator := 1, WorkStateTransitionBrief := toDoing }

/-- The log row the request `DOING → DONE` at instant 300 returns. -/
def log2 : WorkStateTransition :=
  { ID := 1300, CreateTime := 300, Creator := 1, WorkStateTransitionBrief := toDone }

/-- The store after `PENDING → DOING` at instant 200. -/
def store1 : Store := (work.CreateWorkStateTransition (envAt 200) store0 toDoing sec1).2

/-- The store after a further `DOING → DONE` at instant 300. -/
def store2 : Store := (work.CreateWorkStateTransition (envAt 300) store1 toDone sec1).2

/-- A second workflow of project 1, with the same `PENDING → DOING` transition. -/
def workflow2 : Workflow :=
  { ID := 11, Name := "wf2", ProjectID := 1, ThemeColor := "#000", ThemeIcon := "j",
    CreateTime := 6 }

/-- The store of the scenario with the second workflow added. -/
def storeTwoFlows : Store :=
  { store0 with
    workflows := [workflow1, workflow2]
    workflowStates := store0.workflowStates ++
      [{ WorkflowID := 11, Name := "PENDING", Category := state.Category.InBacklog,
         Order := 10001, CreateTime := 6 },
       { WorkflowID := 11, Name := "DOING", Category := state.Category.InProcess,
         Order := 10002, CreateTime := 6 }]
    workflowStateTransitions := store0.workflowStateTransitions ++
      [{ WorkflowID := 11, Name := "begin", FromState := "PENDING", ToState := "DOING",
         CreateTime := 6 }] }

/-- The request `PENDING → DOING` on work 7 (of workflow 10) naming workflow 11. -/
def toDoingOtherFlow : WorkStateTransitionBrief :=
  { FlowID := 11, WorkID := 7, FromState := "PENDING", ToState := "DOING" }

/-- The store after that request at instant 200. -/
def storeTwoFlows1 : Store :=
  (work.CreateWorkStateTransition (envAt 200) storeTwoFlows toDoingOtherFlow sec1).2

/-- The store of the scenario, except that the single open step of work 7 (which waits in
`PENDING`) bears the state name `DOING`. -/
def storeMisnamed : Store :=
  { store0 with workProcessSteps := [{ step1 with StateName := "DOING" }] }

/-- The store after `PENDING → DOING` at instant 200 on `storeMisnamed`. -/
def storeMisnamed1 : Store :=
  (work.CreateWorkStateTransition (envAt 200) storeMisnamed toDoing sec1).2

/-- The two calls of the test: `PENDING → DOING` at 200, then `DOING → DONE` at 300. -/
def calls : List work.Call :=
  [{ env := envAt 200, brief := toDoing, sec := sec1 },
   { env := envAt 300, brief := toDone, sec := sec1 }]

/-- The store without any row. -/
def emptyStore : Store :=
  { workflows := [], workflowStates := [], workflowStateTransitions := [], works := [],
    workProcessSteps := [], workStateTransitions := [] }

/-- The creation of the first end-to-end scenario: three states, two transitions. -/
def creation1 : flow.WorkflowCreation :=
  { Name := "wf1", ProjectID := 1, ThemeColor := "#fff", ThemeIcon := "i"
    StateMachine :=
      { States :=
          [{ Name := "PENDING", Category := state.Category.InBacklog, Order := 0 },
           { Name := "DOING", Category := state.Category.InProcess, Order := 0 },
           { Name := "DONE", Category := state.Category.Done, Order := 0 }]
        Transitions :=
          [{ Name := "begin", From := "PENDING", To := "DOING" },
           { Name := "finish", From := "DOING", To := "DONE" }] } }

/-- A creation whose only transition, `PENDING → DOING`, names a state it does not list. -/
def creationDangling : flow.WorkflowCreation :=
  { Name := "wf3", ProjectID := 1, ThemeColor := "#fff", ThemeIcon := "i"
    StateMachine :=
      { States := [{ Name := "PENDING", Category := state.Category.InBacklog, Order := 0 }]
        Transitions := [{ Name := "begin", From := "PENDING", To := "DOING" }] } }

/-- The store after `creationDangling` on the empty store at instant 5 (new id 1005). -/
def storeDangling : Store :=
  (flow.CreateWorkflow (envAt 5) emptyStore creationDangling sec1).2

/-- A caller whose only role is on project 2. -/
def sec2 : security.Context :=
  { Identity := { ID := 100, Name := "u100", Nickname := "user hundred" },
    Perms := ["manager_2"] }

/-- The rename `DOING → IN_PROGRESS` of the seventh end-to-end scenario. -/
def renameDoing : flow.WorkflowStateUpdating :=
  { OriginName := "DOING", Name := "IN_PROGRESS", Order := 10002 }

/-- The store after `renameDoing` on `store1`, where work 7 is in `DOING`. -/
def storeRenamed : Store := (flow.UpdateWorkflowState store1 10 renameDoing sec1).2

/-- The creation of a further state `DO_NG` of category `IN_PROCESS`. -/
def createUnderscore : flow.StateCreating :=
  { Name := "DO_NG", Category := state.Category.InProcess, Order := 10004,
    Transitions := [] }

/-- The store after `createUnderscore` in workflow 10 on `store1` at instant 250: workflow
10 has the states `PENDING`, `DOING`, `DONE` and `DO_NG`, and work 7 is in `DOING`. -/
def storeUnderscore : Store :=
  (flow.CreateState (envAt 250) store1 10 createUnderscore sec1).2

/-- The rename `DO_NG → REVIEW`. -/
def renameUnderscore : flow.WorkflowStateUpdating :=
  { OriginName := "DO_NG", Name := "REVIEW", Order := 10004 }

/-- The store after `renameUnderscore` on `storeUnderscore`. -/
def storeUnderscore1 : Store :=
  (flow.UpdateWorkflowState storeUnderscore 10 renameUnderscore sec1).2

/-- The creation of a further state `REVIEW` of category `IN_PROCESS`. -/
def createReview : flow.StateCreating :=
  { Name := "REVIEW", Category := state.Category.InProcess, Order := 10004,
    Transitions := [] }

/-- The store after `createReview` in workflow 10 on `store1` at instant 250; the workflow
itself was created at instant 5. -/
def storeReview : Store := (flow.CreateState (envAt 250) store1 10 createReview sec1).2

/-- The update of `REVIEW` that keeps the name and sets the order to 7. -/
def reorderReview : flow.WorkflowStateUpdating :=
  { OriginName := "REVIEW", Name := "REVIEW", Order := 7 }

/-- The rename `DOING → DONE`, onto a name that is taken. -/
def renameOntoDone : flow.WorkflowStateUpdating :=
  { OriginName := "DOING", Name := "DONE", Order := 10002 }

/-- The update of `DOING` that keeps the name and sets the order to 5. -/
def reorderDoing : flow.WorkflowStateUpdating :=
  { OriginName := "DOING", Name := "DOING", Order := 5 }

/-- Two order updates that both name `PENDING`. -/
def ordersTwice : List flow.StateOrderRangeUpdating :=
  [{ State := "PENDING", NewOlder := 1, OldOlder := 10001 },
   { State := "PENDING", NewOlder := 2, OldOlder := 1 }]

/-- The store after `ordersTwice` on workflow 10 of `store0`. -/
def storeOrdersTwice : Store :=
  (flow.UpdateStateRangeOrders (envAt 0) store0 10 ordersTwice sec1).2

/-- Two order updates on distinct states, the second to the order `DOING` has already. -/
def ordersPlain : List flow.StateOrderRangeUpdating :=
  [{ State := "PENDING", NewOlder := 7, OldOlder := 10001 },
   { State := "DOING", NewOlder := 10002, OldOlder := 10002 }]

/-- A call environment on a connection that counts the rows an update matched. -/
def envFound (now : types.Timestamp) : Env := { envAt now with foundRows := true }

/-- A third workflow of project 1, whose only transition `PENDING → DONE` workflow 10
does not have. -/
def workflow3 : Workflow :=
  { ID := 12, Name := "wf3", ProjectID := 1, ThemeColor := "#0f0", ThemeIcon := "k",
    CreateTime := 7 }

/-- The store of the scenario with the third workflow added; work 7 stays a work item of
workflow 10. -/
def storeShortcut : Store :=
  { store0 with
    workflows := [workflow1, workflow3]
    workflowStates := store0.workflowStates ++
      [{ WorkflowID := 12, Name := "PENDING", Category := state.Category.InBacklog,
         Order := 10001, CreateTime := 7 },
       { WorkflowID := 12, Name := "DONE", Category := state.Category.Done,
         Order := 10002, CreateTime := 7 }]
    workflowStateTransitions := store0.workflowStateTransitions ++
      [{ WorkflowID := 12, Name := "skip", FromState := "PENDING", ToState := "DONE",
         CreateTime := 7 }] }

/-- The request `PENDING → DONE` on work 7 (of workflow 10) naming workflow 12. -/
def skipOtherFlow : WorkStateTransitionBrief :=
  { FlowID := 12, WorkID := 7, FromState := "PENDING", ToState := "DONE" }

end scenario

/-! ## General facts about the ORM primitives -/

section primitives

theorem condID_iff {v x : types.ID} (hv : v ≠ 0) : condID v x = true ↔ x = v := by
  simp [condID, hv]

theorem condString_iff {v x : String} (hv : v ≠ "") : condString v x = true ↔ x = v := by
  simp [condString, hv]

theorem firstByKey_mem {α : Type} (key : α → Nat) :
    ∀ (l : List α) (x : α), firstByKey key l = some x → x ∈ l
  | [], x, h => by simp [firstByKey] at h
  | a :: l, x, h => by
    unfold firstByKey at h
    cases hrec : firstByKey key l with
    | none =>
      rw [hrec] at h
      simp only [Option.some.injEq] at h
      simp [h]
    | some y =>
      rw [hrec] at h
      have hy := firstByKey_mem key l y hrec
      by_cases hle : key a ≤ key y
      · simp only [hle, if_true, Option.some.injEq] at h
        simp [h]
      · simp only [hle, if_false, Option.some.injEq] at h
        subst h
        exact List.mem_cons_of_mem _ hy

theorem firstByKey_eq_none {α : Type} (key : α → Nat) :
    ∀ (l : List α), firstByKey key l = none → l = []
  | [], _ => rfl
  | a :: l, h => by
    unfold firstByKey at h
    cases hrec : firstByKey key l with
    | none => rw [hrec] at h; simp at h
    | some y =>
      rw [hrec] at h
      by_cases hle : key a ≤ key y <;> simp [hle] at h

theorem mem_updateWhere {α : Type} {cond : α → Bool} {f : α → α} {rows : List α} {r : α} :
    r ∈ updateWhere cond f rows ↔ ∃ a ∈ rows, r = if cond a then f a else a := by
  unfold updateWhere
  simp only [List.mem_map]
  constructor
  · rintro ⟨a, ha, rfl⟩; exact ⟨a, ha, rfl⟩
  · rintro ⟨a, ha, rfl⟩; exact ⟨a, ha, rfl⟩

theorem length_updateWhere {α : Type} (cond : α → Bool) (f : α → α) (rows : List α) :
    (updateWhere cond f rows).length = rows.length := by
  simp [updateWhere]

end primitives

/-! ## What a successful transition went through -/

namespace work

open domain

/-- Every check a successful `transitionTx` passed, and the store it returns. -/
theorem transitionTx_ok {env : Env} {c : WorkStateTransitionBrief} {sec : security.Context}
    {workflow : WorkflowDetail} {fromState toState : state.State}
    {transition : WorkStateTransition} {tx tx1 : Store}
    (h : transitionTx env c sec workflow fromState toState transition tx = .ok tx1) :
    ∃ work : Work,
      firstByKey (fun w => w.ID) (tx.works.filter (fun w => condID c.WorkID w.ID)) = some work ∧
      sec.HasRoleSuffix ("_" ++ types.ID.String work.ProjectID) = true ∧
      work.ArchiveTime = 0 ∧
      rowsAffectedBy env.foundRows (matchesWorkState c) (setWorkState c toState env.now)
        tx.works = 1 ∧
      env.CreateWorkPropertyUpdatedEvent work (stateNameUpdated work c) sec.Identity = none ∧
      tx1 = committed env c workflow fromState toState work transition tx := by
  unfold transitionTx at h
  cases hw : firstByKey (fun w => w.ID) (tx.works.filter (fun w => condID c.WorkID w.ID)) with
  | none => rw [hw] at h; simp at h
  | some work =>
    rw [hw] at h
    simp only at h
    by_cases hrole : sec.HasRoleSuffix ("_" ++ types.ID.String work.ProjectID) = true
    · by_cases harch : work.ArchiveTime = 0
      · by_cases hrows : rowsAffectedBy env.foundRows (matchesWorkState c)
            (setWorkState c toState env.now) tx.works = 1
        · cases hev : env.CreateWorkPropertyUpdatedEvent work (stateNameUpdated work c) sec.Identity with
          | some e => simp [hrole, harch, hrows, hev] at h
          | none =>
            simp [hrole, harch, hrows, hev] at h
            exact ⟨work, rfl, hrole, harch, hrows, hev, by rw [← h]; rfl⟩
        · simp [hrole, harch, hrows] at h
      · simp [hrole, harch] at h
    · simp [hrole] at h

/-- Every check a successful `CreateWorkStateTransition` passed, the transition it
returns and the store it leaves. -/
theorem CreateWorkStateTransition_ok {env : Env} {db db1 : Store}
    {c : WorkStateTransitionBrief} {sec : security.Context} {t : WorkStateTransition}
    (h : CreateWorkStateTransition env db c sec = (.ok t, db1)) :
    ∃ (workflow : WorkflowDetail) (fromState toState : state.State) (work : Work),
      flow.DetailWorkflow db c.FlowID sec = .ok workflow ∧
      (workflow.StateMachine.AvailableTransitions c.FromState c.ToState).length = 1 ∧
      workflow.StateMachine.FindState c.FromState = some fromState ∧
      workflow.StateMachine.FindState c.ToState = some toState ∧
      firstByKey (fun w => w.ID) (db.works.filter (fun w => condID c.WorkID w.ID)) = some work ∧
      sec.HasRoleSuffix ("_" ++ types.ID.String work.ProjectID) = true ∧
      work.ArchiveTime = 0 ∧
      rowsAffectedBy env.foundRows (matchesWorkState c) (setWorkState c toState env.now)
        db.works = 1 ∧
      env.CreateWorkPropertyUpdatedEvent work (stateNameUpdated work c) sec.Identity = none ∧
      t = { ID := env.newId, CreateTime := env.now, Creator := sec.Identity.ID,
            WorkStateTransitionBrief := c } ∧
      db1 = committed env c workflow fromState toState work t db := by
  unfold CreateWorkStateTransition at h
  cases hd : flow.DetailWorkflow db c.FlowID sec with
  | error e => rw [hd] at h; simp at h
  | ok workflow =>
    rw [hd] at h
    simp only at h
    by_cases hlen : (workflow.StateMachine.AvailableTransitions c.FromState c.ToState).length = 1
    · simp only [hlen, ne_eq, not_true_eq_false, if_false] at h
      cases hf : workflow.StateMachine.FindState c.FromState with
      | none => rw [hf] at h; simp at h
      | some fromState =>
        rw [hf] at h
        simp only at h
        cases hto : workflow.StateMachine.FindState c.ToState with
        | none => rw [hto] at h; simp at h
        | some toState =>
          rw [hto] at h
          simp only at h
          unfold Transaction at h
          cases htx : transitionTx env c sec workflow fromState toState
              { ID := env.newId, CreateTime := env.now, Creator := sec.Identity.ID,
                WorkStateTransitionBrief := c } db with
          | error e => rw [htx] at h; simp at h
          | ok tx1 =>
            rw [htx] at h
            simp only [Prod.mk.injEq, Except.ok.injEq] at h
            obtain ⟨ht, hdb⟩ := h
            obtain ⟨work, h1, h2, h3, h4, h5, h6⟩ := transitionTx_ok htx
            refine ⟨workflow, fromState, toState, work, rfl, hlen, hf, hto, h1, h2, h3, h4, h5,
              ht.symm, ?_⟩
            rw [← hdb, h6, ← ht]
    · simp [hlen] at h

end work

/-! ## The transition engine: validation -/

namespace work

open domain

/-- C1: when the workflow detail loads and the number of transitions of its state machine
whose endpoints are `(FromState, ToState)` is not exactly one, `CreateWorkStateTransition`
returns the invalid-transition error and the store it leaves is the store it was given: no
work, process-step or transition-log row is changed or added. -/
theorem CreateWorkStateTransition_rejects_unlisted_transition
    (env : Env) (db : Store) (c : WorkStateTransitionBrief) (sec : security.Context)
    (workflow : WorkflowDetail)
    (hdetail : flow.DetailWorkflow db c.FlowID sec = .ok workflow)
    (hcount : workflow.StateMachine.Transitions.countP
      (fun t => decide (t.From = c.FromState ∧ t.To = c.ToState)) ≠ 1) :
    CreateWorkStateTransition env db c sec =
      (.error (.Message
        ("transition from " ++ c.FromState ++ " to " ++ c.ToState ++ " is not invalid")), db) := by
  have hlen : (workflow.StateMachine.AvailableTransitions c.FromState c.ToState).length ≠ 1 := by
    intro hl
    apply hcount
    rw [← hl, state.StateMachine.AvailableTransitions, List.countP_eq_length_filter]
    congr 2
    funext t
    simp [Bool.decide_and]
  unfold CreateWorkStateTransition
  rw [hdetail]
  simp only [hlen, ne_eq, not_false_eq_true, if_true]

/-- C1 at the scenario of the tests: the state machine lacks `PENDING → DONE`. -/
theorem CreateWorkStateTransition_rejects_unlisted_transition_witness :
    CreateWorkStateTransition (scenario.envAt 200) scenario.store0 scenario.pendingToDone
        scenario.sec1 =
      (.error (.Message "transition from PENDING to DONE is not invalid"), scenario.store0) :=
  CreateWorkStateTransition_rejects_unlisted_transition (scenario.envAt 200) scenario.store0
    scenario.pendingToDone scenario.sec1 scenario.detail1 (by rfl) (by decide)

end work

/-! ## The transition engine: the work row -/

namespace work

open domain

theorem updateProcessTimes_eq_map (c : WorkStateTransitionBrief) (work : Work)
    (toState : state.State) (now : types.Timestamp) (works : List Work) :
    updateProcessTimes c work toState now works =
      works.map (fun w =>
        if condID c.WorkID w.ID then
          { w with
            ProcessBeginTime :=
              if work.ProcessBeginTime = 0 ∧ toState.Category ≠ state.Category.InBacklog then now
              else w.ProcessBeginTime
            ProcessEndTime :=
              if work.ProcessEndTime = 0 ∧ toState.Category = state.Category.Done then now
              else if work.ProcessEndTime ≠ 0 ∧ toState.Category ≠ state.Category.Done then 0
              else w.ProcessEndTime }
        else w) := by
  have hmap : ∀ (f g : Work → Work), (∀ w, f w = g w) → works.map f = works.map g :=
    fun f g hfg => List.map_congr_left (fun w _ => hfg w)
  unfold updateProcessTimes updateWhere
  dsimp only
  split_ifs <;> (try simp only [List.map_map]) <;>
    (first
      | apply hmap
      | (refine Eq.trans (List.map_id works).symm ?_; apply hmap)) <;>
    intro w <;> by_cases hw : condID c.WorkID w.ID = true <;> simp_all [Function.comp]

theorem exists_of_rowsAffected_one {α : Type} {cond : α → Bool} {rows : List α}
    (h : rowsAffected cond rows = 1) : ∃ m ∈ rows, cond m = true := by
  unfold rowsAffected at h
  cases hf : rows.filter cond with
  | nil => rw [hf] at h; simp at h
  | cons m rest =>
    have hm : m ∈ rows.filter cond := by rw [hf]; simp
    rw [List.mem_filter] at hm
    exact ⟨m, hm.1, hm.2⟩

/-- However the driver counts, one affected row is a row the condition matched. -/
theorem exists_of_rowsAffectedBy_one {α : Type} [DecidableEq α] {foundRows : Bool}
    {cond : α → Bool} {f : α → α} {rows : List α}
    (h : rowsAffectedBy foundRows cond f rows = 1) : ∃ m ∈ rows, cond m = true := by
  unfold rowsAffectedBy at h
  split_ifs at h
  · exact exists_of_rowsAffected_one h
  · obtain ⟨m, hm, hc⟩ := exists_of_rowsAffected_one h
    rw [Bool.and_eq_true] at hc
    exact ⟨m, hm, hc.1⟩

/-- However the driver counts, no matched row is no affected row. -/
theorem rowsAffectedBy_eq_zero {α : Type} [DecidableEq α] (foundRows : Bool)
    {cond : α → Bool} (f : α → α) {rows : List α}
    (h : ∀ r ∈ rows, cond r = false) : rowsAffectedBy foundRows cond f rows = 0 := by
  unfold rowsAffectedBy rowsAffected
  split_ifs <;>
    (rw [List.length_eq_zero, List.filter_eq_nil_iff]
     intro r hr hc
     simp [h r hr] at hc)

/-- The row a transition read is a stored row bearing the requested id. -/
theorem read_work_mem {c : WorkStateTransitionBrief} {works : List Work} {work : Work}
    (hid : c.WorkID ≠ 0)
    (h : firstByKey (fun w => w.ID) (works.filter (fun w => condID c.WorkID w.ID)) = some work) :
    work ∈ works ∧ work.ID = c.WorkID := by
  have hmem := firstByKey_mem _ _ _ h
  rw [List.mem_filter, condID_iff hid] at hmem
  exact hmem

/-- Under the primary key of `works`, the row the conditional update matched is the row
the transition read. -/
theorem read_work_matches {c : WorkStateTransitionBrief} {works : List Work} {work : Work}
    (hkey : (works.map (fun w => w.ID)).Nodup) (hid : c.WorkID ≠ 0)
    (hwork : work ∈ works ∧ work.ID = c.WorkID)
    {foundRows : Bool} {f : Work → Work}
    (hrows : rowsAffectedBy foundRows (matchesWorkState c) f works = 1) :
    matchesWorkState c work = true := by
  obtain ⟨m, hm, hmc⟩ := exists_of_rowsAffectedBy_one hrows
  have hmid : m.ID = c.WorkID := by
    unfold matchesWorkState at hmc
    rw [Bool.and_eq_true, condID_iff hid] at hmc
    exact hmc.1
  have : m = work := List.inj_on_of_nodup_map hkey hm hwork.1 (by rw [hmid, hwork.2])
  rw [← this]; exact hmc

/-- The rows of `works` a committed transition leaves, row by row. -/
theorem mem_committed_works {env : Env} {c : WorkStateTransitionBrief}
    {workflow : WorkflowDetail} {fromState toState : state.State} {work : Work}
    {t : WorkStateTransition} {db : Store} {w1 : Work}
    (h : w1 ∈ (committed env c workflow fromState toState work t db).works) :
    ∃ w ∈ db.works,
      (w1.ID = w.ID ∧ w1.ProjectID = w.ProjectID ∧ w1.FlowID = w.FlowID ∧
        w1.ArchiveTime = w.ArchiveTime) ∧
      (condID c.WorkID w.ID = false → w1 = w) ∧
      (condID c.WorkID w.ID = true →
        w1.ProcessBeginTime =
          (if work.ProcessBeginTime = 0 ∧ toState.Category ≠ state.Category.InBacklog
            then env.now else w.ProcessBeginTime) ∧
        w1.ProcessEndTime =
          (if work.ProcessEndTime = 0 ∧ toState.Category = state.Category.Done then env.now
            else if work.ProcessEndTime ≠ 0 ∧ toState.Category ≠ state.Category.Done then 0
            else w.ProcessEndTime) ∧
        (matchesWorkState c w = true →
          w1.StateName = (if c.ToState = "" then w.StateName else c.ToState) ∧
          w1.StateCategory = toState.Category ∧
          w1.StateBeginTime = (if env.now = 0 then w.StateBeginTime else env.now))) := by
  unfold committed at h
  simp only at h
  rw [updateProcessTimes_eq_map, List.mem_map] at h
  obtain ⟨x, hx, rfl⟩ := h
  rw [mem_updateWhere] at hx
  obtain ⟨w, hw, rfl⟩ := hx
  refine ⟨w, hw, ?_, ?_, ?_⟩
  · by_cases hm : matchesWorkState c w = true <;> by_cases hc : condID c.WorkID w.ID = true <;>
      simp [hm, hc, setWorkState]
  · intro hc
    have hm : matchesWorkState c w = false := by simp [matchesWorkState, hc]
    simp [hm, hc]
  · intro hc
    by_cases hm : matchesWorkState c w = true
    · simp [hm, hc, setWorkState]
    · simp [hm, hc]

/-- C2: after a successful transition captured at instant `now`, the work row of the
requested id has `state_name = ToState`, `state_category` the category of `ToState` in the
state machine of the loaded workflow, and `state_begin_time = now`.  The request is
well-formed (a positive work id, a non-empty target name), the clock reading is not the
zero instant, and `id` is the primary key of `works`. -/
theorem CreateWorkStateTransition_sets_work_state
    (env : Env) (db db1 : Store) (c : WorkStateTransitionBrief) (sec : security.Context)
    (t : WorkStateTransition)
    (hkey : (db.works.map (fun w => w.ID)).Nodup)
    (hid : c.WorkID ≠ 0) (hname : c.ToState ≠ "") (hnow : env.now ≠ 0)
    (h : CreateWorkStateTransition env db c sec = (.ok t, db1)) :
    ∃ (workflow : WorkflowDetail) (toState : state.State),
      flow.DetailWorkflow db c.FlowID sec = .ok workflow ∧
      workflow.StateMachine.FindState c.ToState = some toState ∧
      (∃ w ∈ db1.works, w.ID = c.WorkID) ∧
      ∀ w ∈ db1.works, w.ID = c.WorkID →
        w.StateName = c.ToState ∧ w.StateCategory = toState.Category ∧
          w.StateBeginTime = env.now := by
  obtain ⟨workflow, fromState, toState, work, hd, _, _, hto, hread, _, _, hrows, _, _, hdb⟩ :=
    CreateWorkStateTransition_ok h
  have hwork := read_work_mem hid hread
  have hmatch := read_work_matches hkey hid hwork hrows
  have hall : ∀ w ∈ db1.works, w.ID = c.WorkID →
      w.StateName = c.ToState ∧ w.StateCategory = toState.Category ∧
        w.StateBeginTime = env.now := by
    intro w1 hw1 hid1
    rw [hdb] at hw1
    obtain ⟨w, hw, hkeep, _, hyes⟩ := mem_committed_works hw1
    have hwid : w.ID = c.WorkID := by rw [← hkeep.1, hid1]
    have hweq : w = work := List.inj_on_of_nodup_map hkey hw hwork.1 (by rw [hwid, hwork.2])
    have hc : condID c.WorkID w.ID = true := (condID_iff hid).2 hwid
    obtain ⟨_, _, hst⟩ := hyes hc
    have := hst (by rw [hweq]; exact hmatch)
    simpa [hname, hnow] using this
  refine ⟨workflow, toState, hd, hto, ?_, hall⟩
  have : ∃ w1 ∈ db1.works, w1.ID = work.ID := by
    rw [hdb]
    unfold committed
    simp only
    rw [updateProcessTimes_eq_map]
    refine ⟨_, List.mem_map.2 ⟨_, mem_updateWhere.2 ⟨work, hwork.1, rfl⟩, rfl⟩, ?_⟩
    by_cases hm : matchesWorkState c work = true <;>
      by_cases hc : condID c.WorkID work.ID = true <;> simp [hm, hc, setWorkState]
  obtain ⟨w1, hw1, hw1id⟩ := this
  exact ⟨w1, hw1, by rw [hw1id, hwork.2]⟩

/-- C2 at the scenario of the tests: `PENDING → DOING` at instant 200. -/
theorem CreateWorkStateTransition_sets_work_state_witness :
    ∃ (workflow : WorkflowDetail) (toState : state.State),
      flow.DetailWorkflow scenario.store0 scenario.toDoing.FlowID scenario.sec1 = .ok workflow ∧
      workflow.StateMachine.FindState scenario.toDoing.ToState = some toState ∧
      (∃ w ∈ scenario.store1.works, w.ID = scenario.toDoing.WorkID) ∧
      ∀ w ∈ scenario.store1.works, w.ID = scenario.toDoing.WorkID →
        w.StateName = scenario.toDoing.ToState ∧ w.StateCategory = toState.Category ∧
          w.StateBeginTime = (scenario.envAt 200).now :=
  CreateWorkStateTransition_sets_work_state (scenario.envAt 200) scenario.store0
    scenario.store1 scenario.toDoing scenario.sec1 scenario.log1
    (by decide) (by decide) (by decide) (by decide) (by rfl)

/-- C7: after a successful transition captured at instant `now`, the derived timing fields
of the work row are: `process_begin_time = now` if it was zero and the category of
`ToState` is not `IN_BACKLOG`, otherwise unchanged; `process_end_time = now` if it was zero
and the category of `ToState` is `DONE`, zero (cleared) if it was set and the category is
not `DONE`, otherwise unchanged.  The work id is positive and `id` is the primary key of
`works`. -/
theorem CreateWorkStateTransition_maintains_process_times
    (env : Env) (db db1 : Store) (c : WorkStateTransitionBrief) (sec : security.Context)
    (t : WorkStateTransition)
    (hkey : (db.works.map (fun w => w.ID)).Nodup) (hid : c.WorkID ≠ 0)
    (h : CreateWorkStateTransition env db c sec = (.ok t, db1)) :
    ∃ (workflow : WorkflowDetail) (toState : state.State) (w w1 : Work),
      flow.DetailWorkflow db c.FlowID sec = .ok workflow ∧
      workflow.StateMachine.FindState c.ToState = some toState ∧
      w ∈ db.works ∧ w.ID = c.WorkID ∧ w1 ∈ db1.works ∧ w1.ID = c.WorkID ∧
      (∀ x ∈ db1.works, x.ID = c.WorkID → x = w1) ∧
      w1.ProcessBeginTime =
        (if w.ProcessBeginTime = 0 ∧ toState.Category ≠ state.Category.InBacklog then env.now
          else w.ProcessBeginTime) ∧
      w1.ProcessEndTime =
        (if w.ProcessEndTime = 0 ∧ toState.Category = state.Category.Done then env.now
          else if w.ProcessEndTime ≠ 0 ∧ toState.Category ≠ state.Category.Done then 0
          else w.ProcessEndTime) := by
  obtain ⟨workflow, fromState, toState, work, hd, _, _, hto, hread, _, _, _, _, _, hdb⟩ :=
    CreateWorkStateTransition_ok h
  have hwork := read_work_mem hid hread
  have hkey1 : (db1.works.map (fun w => w.ID)).Nodup := by
    have : db1.works.map (fun w => w.ID) = db.works.map (fun w => w.ID) := by
      rw [hdb]
      unfold committed
      simp only
      rw [updateProcessTimes_eq_map]
      unfold updateWhere
      rw [List.map_map, List.map_map]
      apply List.map_congr_left
      intro w _
      by_cases hm : matchesWorkState c w = true <;>
        by_cases hc : condID c.WorkID w.ID = true <;> simp [hm, hc, setWorkState]
    rw [this]; exact hkey
  have hex : ∃ w1 ∈ db1.works, w1.ID = work.ID ∧
      w1.ProcessBeginTime =
        (if work.ProcessBeginTime = 0 ∧ toState.Category ≠ state.Category.InBacklog
          then env.now else work.ProcessBeginTime) ∧
      w1.ProcessEndTime =
        (if work.ProcessEndTime = 0 ∧ toState.Category = state.Category.Done then env.now
          else if work.ProcessEndTime ≠ 0 ∧ toState.Category ≠ state.Category.Done then 0
          else work.ProcessEndTime) := by
    have hc : condID c.WorkID work.ID = true := (condID_iff hid).2 hwork.2
    rw [hdb]
    unfold committed
    simp only
    rw [updateProcessTimes_eq_map]
    refine ⟨_, List.mem_map.2 ⟨_, mem_updateWhere.2 ⟨work, hwork.1, rfl⟩, rfl⟩, ?_⟩
    by_cases hm : matchesWorkState c work = true <;> simp [hm, hc, setWorkState]
  obtain ⟨w1, hw1, hw1id, hpb, hpe⟩ := hex
  refine ⟨workflow, toState, work, w1, hd, hto, hwork.1, hwork.2, hw1, by rw [hw1id, hwork.2],
    ?_, hpb, hpe⟩
  intro x hx hxid
  exact List.inj_on_of_nodup_map hkey1 hx hw1 (by rw [hxid, hw1id, hwork.2])

/-- C7 at the scenario of the tests: `PENDING → DOING` at instant 200. -/
theorem CreateWorkStateTransition_maintains_process_times_witness :
    ∃ (workflow : WorkflowDetail) (toState : state.State) (w w1 : Work),
      flow.DetailWorkflow scenario.store0 scenario.toDoing.FlowID scenario.sec1 = .ok workflow ∧
      workflow.StateMachine.FindState scenario.toDoing.ToState = some toState ∧
      w ∈ scenario.store0.works ∧ w.ID = scenario.toDoing.WorkID ∧
      w1 ∈ scenario.store1.works ∧ w1.ID = scenario.toDoing.WorkID ∧
      (∀ x ∈ scenario.store1.works, x.ID = scenario.toDoing.WorkID → x = w1) ∧
      w1.ProcessBeginTime =
        (if w.ProcessBeginTime = 0 ∧ toState.Category ≠ state.Category.InBacklog
          then (scenario.envAt 200).now else w.ProcessBeginTime) ∧
      w1.ProcessEndTime =
        (if w.ProcessEndTime = 0 ∧ toState.Category = state.Category.Done
          then (scenario.envAt 200).now
          else if w.ProcessEndTime ≠ 0 ∧ toState.Category ≠ state.Category.Done then 0
          else w.ProcessEndTime) :=
  CreateWorkStateTransition_maintains_process_times (scenario.envAt 200) scenario.store0
    scenario.store1 scenario.toDoing scenario.sec1 scenario.log1
    (by decide) (by decide) (by rfl)

/-! ## The transition engine: the stale `FromState` -/

/-- `DetailWorkflow` reads the three workflow tables only. -/
theorem DetailWorkflow_congr {db db1 : Store} (h1 : db1.workflows = db.workflows)
    (h2 : db1.workflowStates = db.workflowStates)
    (h3 : db1.workflowStateTransitions = db.workflowStateTransitions)
    (id : types.ID) (sec : security.Context) :
    flow.DetailWorkflow db1 id sec = flow.DetailWorkflow db id sec := by
  unfold flow.DetailWorkflow flow.stateRecords flow.transitionRecords
  rw [h1, h2, h3]

/-- A request that passes the checks before the conditional update, on a work item whose
`state_name` is not `FromState`, gets the affected-row mismatch with zero rows and leaves
the store as it was. -/
theorem stale_fromState_mismatch (env : Env) (db : Store) (c : WorkStateTransitionBrief)
    (sec : security.Context) (workflow : WorkflowDetail)
    (hid : c.WorkID ≠ 0) (hfrom : c.FromState ≠ "")
    (hdetail : flow.DetailWorkflow db c.FlowID sec = .ok workflow)
    (hlen : (workflow.StateMachine.AvailableTransitions c.FromState c.ToState).length = 1)
    (hfs : (workflow.StateMachine.FindState c.FromState).isSome = true)
    (hts : (workflow.StateMachine.FindState c.ToState).isSome = true)
    (hex : ∃ w ∈ db.works, w.ID = c.WorkID)
    (hall : ∀ w ∈ db.works, w.ID = c.WorkID →
      sec.HasRoleSuffix ("_" ++ types.ID.String w.ProjectID) = true ∧ w.ArchiveTime = 0 ∧
        w.StateName ≠ c.FromState) :
    CreateWorkStateTransition env db c sec =
      (.error (.Message "expected affected row is 1, but actual is 0"), db) := by
  obtain ⟨fromState, hf⟩ := Option.isSome_iff_exists.1 hfs
  obtain ⟨toState, hto⟩ := Option.isSome_iff_exists.1 hts
  have hrows : rowsAffectedBy env.foundRows (matchesWorkState c)
      (setWorkState c toState env.now) db.works = 0 := by
    apply rowsAffectedBy_eq_zero
    intro w hw
    rw [Bool.eq_false_iff]
    intro hm
    unfold matchesWorkState at hm
    rw [Bool.and_eq_true, condID_iff hid, condString_iff hfrom] at hm
    exact (hall w hw hm.1).2.2 hm.2
  cases hread : firstByKey (fun w => w.ID) (db.works.filter (fun w => condID c.WorkID w.ID)) with
  | none =>
    exfalso
    obtain ⟨w, hw, hwid⟩ := hex
    have hnil := firstByKey_eq_none _ _ hread
    have : w ∈ db.works.filter (fun w => condID c.WorkID w.ID) :=
      List.mem_filter.2 ⟨hw, (condID_iff hid).2 hwid⟩
    rw [hnil] at this
    exact List.not_mem_nil _ this
  | some work =>
    have hwork := read_work_mem hid hread
    obtain ⟨hrole, harch, _⟩ := hall work hwork.1 hwork.2
    unfold CreateWorkStateTransition
    rw [hdetail]
    simp only [hlen, ne_eq, not_true_eq_false, if_false, hf, hto]
    unfold Transaction transitionTx
    rw [hread]
    simp only [hrole, harch, hrows]
    rfl

/-- C3: a request on an existing, non-archived work item whose `state_name` differs from
`FromState`, and which passes the checks that come before the conditional update (the
workflow loads, the transition is listed once, the caller holds a role on the project of
the work), fails with "expected affected row is 1, but actual is 0" and leaves every row
as it was; hence, when a transition with `FromState ≠ ToState` has succeeded, the same
request applied again fails that way: of the two, exactly one succeeds.  Ids are positive
and names non-empty. -/
theorem CreateWorkStateTransition_stale_fromState
    (c : WorkStateTransitionBrief) (sec : security.Context)
    (hid : c.WorkID ≠ 0) (hfrom : c.FromState ≠ "") :
    (∀ (env : Env) (db : Store) (workflow : WorkflowDetail),
      flow.DetailWorkflow db c.FlowID sec = .ok workflow →
      (workflow.StateMachine.AvailableTransitions c.FromState c.ToState).length = 1 →
      (workflow.StateMachine.FindState c.FromState).isSome = true →
      (workflow.StateMachine.FindState c.ToState).isSome = true →
      (∃ w ∈ db.works, w.ID = c.WorkID) →
      (∀ w ∈ db.works, w.ID = c.WorkID →
        sec.HasRoleSuffix ("_" ++ types.ID.String w.ProjectID) = true ∧ w.ArchiveTime = 0 ∧
          w.StateName ≠ c.FromState) →
      CreateWorkStateTransition env db c sec =
        (.error (.Message "expected affected row is 1, but actual is 0"), db)) ∧
    (∀ (env env2 : Env) (db db1 : Store) (t : WorkStateTransition),
      (db.works.map (fun w => w.ID)).Nodup → c.ToState ≠ "" → c.FromState ≠ c.ToState →
      CreateWorkStateTransition env db c sec = (.ok t, db1) →
      CreateWorkStateTransition env2 db1 c sec =
        (.error (.Message "expected affected row is 1, but actual is 0"), db1)) := by
  refine ⟨fun env db workflow hd hlen hfs hts hex hall =>
    stale_fromState_mismatch env db c sec workflow hid hfrom hd hlen hfs hts hex hall, ?_⟩
  intro env env2 db db1 t hkey hname hne h
  obtain ⟨workflow, fromState, toState, work, hd, hlen, hf, hto, hread, hrole, harch, hrows,
    _, _, hdb⟩ := CreateWorkStateTransition_ok h
  have hwork := read_work_mem hid hread
  have hmatch := read_work_matches hkey hid hwork hrows
  have hd1 : flow.DetailWorkflow db1 c.FlowID sec = .ok workflow := by
    rw [← hd]
    apply DetailWorkflow_congr <;> rw [hdb] <;> rfl
  have hfacts : ∀ w1 ∈ db1.works, w1.ID = c.WorkID →
      sec.HasRoleSuffix ("_" ++ types.ID.String w1.ProjectID) = true ∧ w1.ArchiveTime = 0 ∧
        w1.StateName ≠ c.FromState := by
    intro w1 hw1 hid1
    rw [hdb] at hw1
    obtain ⟨w, hw, hkeep, _, hyes⟩ := mem_committed_works hw1
    have hwid : w.ID = c.WorkID := by rw [← hkeep.1, hid1]
    have hweq : w = work := List.inj_on_of_nodup_map hkey hw hwork.1 (by rw [hwid, hwork.2])
    obtain ⟨_, _, hst⟩ := hyes ((condID_iff hid).2 hwid)
    have hst1 := (hst (by rw [hweq]; exact hmatch)).1
    rw [if_neg hname] at hst1
    refine ⟨?_, ?_, ?_⟩
    · rw [hkeep.2.1, hweq]; exact hrole
    · rw [hkeep.2.2.2, hweq]; exact harch
    · rw [hst1]; exact fun heq => hne heq.symm
  have hex1 : ∃ w1 ∈ db1.works, w1.ID = c.WorkID := by
    have : ∃ w1 ∈ db1.works, w1.ID = work.ID := by
      rw [hdb]
      unfold committed
      simp only
      rw [updateProcessTimes_eq_map]
      refine ⟨_, List.mem_map.2 ⟨_, mem_updateWhere.2 ⟨work, hwork.1, rfl⟩, rfl⟩, ?_⟩
      by_cases hm : matchesWorkState c work = true <;>
        by_cases hc : condID c.WorkID work.ID = true <;> simp [hm, hc, setWorkState]
    obtain ⟨w1, hw1, hw1id⟩ := this
    exact ⟨w1, hw1, by rw [hw1id, hwork.2]⟩
  exact stale_fromState_mismatch env2 db1 c sec workflow hid hfrom hd1 hlen
    (by rw [hf]; rfl) (by rw [hto]; rfl) hex1 hfacts

/-- C3 at the scenario of the tests: `PENDING → DOING` succeeds at instant 200, and the
same request at instant 300 is answered with the mismatch and changes nothing. -/
theorem CreateWorkStateTransition_stale_fromState_witness :
    CreateWorkStateTransition (scenario.envAt 200) scenario.store0 scenario.toDoing
        scenario.sec1 = (.ok scenario.log1, scenario.store1) ∧
    CreateWorkStateTransition (scenario.envAt 300) scenario.store1 scenario.toDoing
        scenario.sec1 =
      (.error (.Message "expected affected row is 1, but actual is 0"), scenario.store1) :=
  ⟨by rfl,
   (CreateWorkStateTransition_stale_fromState scenario.toDoing scenario.sec1
      (by decide) (by decide)).2 (scenario.envAt 200) (scenario.envAt 300) scenario.store0
      scenario.store1 scenario.log1 (by decide) (by decide) (by decide) (by rfl)⟩

/-! ## The transition engine: the process steps -/

theorem FindState_name {sm : state.StateMachine} {name : String} {st : state.State}
    (h : sm.FindState name = some st) : st.Name = name := by
  unfold state.StateMachine.FindState at h
  have := List.find?_some h
  simpa using this

/-- C5: after a successful transition, when the category of `ToState` is not `DONE` the
process steps are the former rows (the open step of `FromState` closed, no row removed)
followed by exactly one new row, with `work_id` the work id, `flow_id` the flow id of the
work item, `state_name = ToState`, `state_category` the category of `ToState`,
`begin_time = now` and `end_time` zero; when the category is `DONE` no row is added.  The
work id is positive. -/
theorem CreateWorkStateTransition_opens_next_step
    (env : Env) (db db1 : Store) (c : WorkStateTransitionBrief) (sec : security.Context)
    (t : WorkStateTransition) (hid : c.WorkID ≠ 0)
    (h : CreateWorkStateTransition env db c sec = (.ok t, db1)) :
    ∃ (workflow : WorkflowDetail) (fromState toState : state.State) (work : Work),
      flow.DetailWorkflow db c.FlowID sec = .ok workflow ∧
      workflow.StateMachine.FindState c.FromState = some fromState ∧
      workflow.StateMachine.FindState c.ToState = some toState ∧
      work ∈ db.works ∧ work.ID = c.WorkID ∧
      (closeProcessStep c workflow fromState env.now db.workProcessSteps).length =
        db.workProcessSteps.length ∧
      (toState.Category ≠ state.Category.Done →
        ∃ step : WorkProcessStep,
          db1.workProcessSteps =
            closeProcessStep c workflow fromState env.now db.workProcessSteps ++ [step] ∧
          step.WorkID = c.WorkID ∧ step.FlowID = work.FlowID ∧ step.StateName = c.ToState ∧
          step.StateCategory = toState.Category ∧ step.BeginTime = env.now ∧
          step.EndTime = 0) ∧
      (toState.Category = state.Category.Done →
        db1.workProcessSteps =
          closeProcessStep c workflow fromState env.now db.workProcessSteps) := by
  obtain ⟨workflow, fromState, toState, work, hd, _, hf, hto, hread, _, _, _, _, _, hdb⟩ :=
    CreateWorkStateTransition_ok h
  have hwork := read_work_mem hid hread
  refine ⟨workflow, fromState, toState, work, hd, hf, hto, hwork.1, hwork.2, ?_, ?_, ?_⟩
  · unfold closeProcessStep
    split_ifs
    · exact length_updateWhere _ _ _
    · rfl
  · intro hcat
    refine ⟨nextProcessStep work toState env.now, ?_, hwork.2, rfl, FindState_name hto, rfl,
      rfl, rfl⟩
    rw [hdb]
    unfold committed createNextProcessStep
    simp only [hcat, ne_eq, not_false_eq_true, if_true]
  · intro hcat
    rw [hdb]
    unfold committed createNextProcessStep
    simp only [hcat, ne_eq, not_true_eq_false, if_false]

/-- C5 at the scenario of the tests: `PENDING → DOING` at instant 200. -/
theorem CreateWorkStateTransition_opens_next_step_witness :
    ∃ (workflow : WorkflowDetail) (fromState toState : state.State) (work : Work),
      flow.DetailWorkflow scenario.store0 scenario.toDoing.FlowID scenario.sec1 = .ok workflow ∧
      workflow.StateMachine.FindState scenario.toDoing.FromState = some fromState ∧
      workflow.StateMachine.FindState scenario.toDoing.ToState = some toState ∧
      work ∈ scenario.store0.works ∧ work.ID = scenario.toDoing.WorkID ∧
      (closeProcessStep scenario.toDoing workflow fromState (scenario.envAt 200).now
          scenario.store0.workProcessSteps).length = scenario.store0.workProcessSteps.length ∧
      (toState.Category ≠ state.Category.Done →
        ∃ step : WorkProcessStep,
          scenario.store1.workProcessSteps =
            closeProcessStep scenario.toDoing workflow fromState (scenario.envAt 200).now
              scenario.store0.workProcessSteps ++ [step] ∧
          step.WorkID = scenario.toDoing.WorkID ∧ step.FlowID = work.FlowID ∧
          step.StateName = scenario.toDoing.ToState ∧
          step.StateCategory = toState.Category ∧ step.BeginTime = (scenario.envAt 200).now ∧
          step.EndTime = 0) ∧
      (toState.Category = state.Category.Done →
        scenario.store1.workProcessSteps =
          closeProcessStep scenario.toDoing workflow fromState (scenario.envAt 200).now
            scenario.store0.workProcessSteps) :=
  CreateWorkStateTransition_opens_next_step (scenario.envAt 200) scenario.store0
    scenario.store1 scenario.toDoing scenario.sec1 scenario.log1 (by decide) (by rfl)

/-- C4, the code at the scenario of the tests: `PENDING → DOING` at instant 200 succeeds
and closes the open `PENDING` step with `end_time = 200`, but the closed step carries no
next state: its `next_state_name` is still empty and its `next_state_category` unset,
where the claim (and the test of the repository) expects `DOING` and `IN_PROCESS`. -/
theorem closed_step_carries_no_next_state :
    CreateWorkStateTransition (scenario.envAt 200) scenario.store0 scenario.toDoing
        scenario.sec1 = (.ok scenario.log1, scenario.store1) ∧
    scenario.store1.workProcessSteps.filter (fun s => decide (s.StateName = "PENDING")) =
      [{ scenario.step1 with EndTime := 200 }] ∧
    ∀ s ∈ scenario.store1.workProcessSteps, s.StateName = "PENDING" →
      s.EndTime = 200 ∧ s.NextStateName = "" ∧ s.NextStateName ≠ "DOING" ∧
        s.NextStateCategory = none ∧ s.NextStateCategory ≠ some state.Category.InProcess := by
  refine ⟨by rfl, by decide, by decide⟩

/-- C9, the code at the scenario of the tests: the step `PENDING → DOING` inserts for the
caller with id 1 and nickname "user one" has `creator_id = 0` and an empty
`creator_name`. -/
theorem inserted_step_has_no_creator :
    CreateWorkStateTransition (scenario.envAt 200) scenario.store0 scenario.toDoing
        scenario.sec1 = (.ok scenario.log1, scenario.store1) ∧
    scenario.sec1.Identity.ID = 1 ∧ scenario.sec1.Identity.Nickname = "user one" ∧
    scenario.store1.workProcessSteps.length = scenario.store0.workProcessSteps.length + 1 ∧
    scenario.store1.workProcessSteps.getLast? =
      some { WorkID := 7, FlowID := 10, StateName := "DOING",
             StateCategory := state.Category.InProcess, BeginTime := 200, EndTime := 0,
             NextStateName := "", NextStateCategory := none, CreatorID := 0,
             CreatorName := "" } ∧
    ∀ s ∈ scenario.store1.workProcessSteps, s.StateName = "DOING" →
      s.CreatorID = 0 ∧ s.CreatorID ≠ scenario.sec1.Identity.ID ∧
        s.CreatorName = "" ∧ s.CreatorName ≠ scenario.sec1.Identity.Nickname := by
  refine ⟨by rfl, by rfl, by rfl, by decide, by decide, by decide⟩

/-! ## The transition engine: the open-step invariant -/

/-- What a loaded workflow detail says about the stored rows: it is the workflow of the
requested id, and every state it resolves is a stored state of that workflow with the
same name and category. -/
theorem DetailWorkflow_facts {db : Store} {id : types.ID} {sec : security.Context}
    {workflow : WorkflowDetail} (hid : id ≠ 0)
    (h : flow.DetailWorkflow db id sec = .ok workflow) :
    workflow.Workflow.ID = id ∧
    ∀ (name : String) (st : state.State), workflow.StateMachine.FindState name = some st →
      ∃ s ∈ db.workflowStates, s.WorkflowID = id ∧ s.Name = name ∧ s.Category = st.Category := by
  unfold flow.DetailWorkflow at h
  cases hw : firstByKey (fun w => w.ID) (db.workflows.filter (fun w => condID id w.ID)) with
  | none => rw [hw] at h; simp at h
  | some wf =>
    rw [hw] at h
    simp only at h
    have hmem := firstByKey_mem _ _ _ hw
    rw [List.mem_filter, condID_iff hid] at hmem
    by_cases hrole : sec.HasRoleSuffix ("_" ++ types.ID.String wf.ProjectID) = true
    · simp only [hrole, Bool.not_true, Bool.false_eq_true, if_false] at h
      cases hb : flow.bindTransitions
          { States := (flow.stateRecords db wf.ID).map
              (fun record => { Name := record.Name, Category := record.Category,
                               Order := record.Order }),
            Transitions := [] } (flow.transitionRecords db wf.ID) with
      | error e => rw [hb] at h; simp at h
      | ok ts =>
        rw [hb] at h
        simp only [Except.ok.injEq] at h
        subst h
        refine ⟨hmem.2, ?_⟩
        intro name st hfind
        have hname := FindState_name hfind
        unfold state.StateMachine.FindState at hfind
        have hst := List.mem_of_find?_eq_some hfind
        simp only [List.mem_map] at hst
        obtain ⟨r, hr, hrst⟩ := hst
        unfold flow.stateRecords at hr
        rw [(List.perm_insertionSort _ _).mem_iff, List.mem_filter] at hr
        have hwid : wf.ID ≠ 0 := by rw [hmem.2]; exact hid
        rw [condID_iff hwid] at hr
        refine ⟨r, hr.1, by rw [hr.2, hmem.2], ?_, ?_⟩
        · rw [← hname, ← hrst]
        · rw [← hrst]
    · simp [hrole] at h

theorem filter_map_stable {α : Type} (p : α → Bool) (f : α → α) :
    ∀ (l : List α), (∀ a ∈ l, p (f a) = p a) → (∀ a ∈ l, p a = true → f a = a) →
      (l.map f).filter p = l.filter p
  | [], _, _ => rfl
  | a :: l, h1, h2 => by
    have ih := filter_map_stable p f l (fun x hx => h1 x (List.mem_cons_of_mem _ hx))
      (fun x hx => h2 x (List.mem_cons_of_mem _ hx))
    have ha := h1 a (List.mem_cons_self _ _)
    simp only [List.map_cons, List.filter_cons, ha, ih]
    by_cases hp : p a = true
    · simp [hp, h2 a (List.mem_cons_self _ _) hp]
    · simp [hp]

theorem closeProcessStep_eq_map (c : WorkStateTransitionBrief) (workflow : WorkflowDetail)
    (fromState : state.State) (now : types.Timestamp) (steps : List WorkProcessStep) :
    closeProcessStep c workflow fromState now steps =
      steps.map (fun s =>
        if fromState.Category ≠ state.Category.Done ∧ matchesOpenStep c workflow fromState s = true
        then { s with EndTime := now } else s) := by
  unfold closeProcessStep updateWhere
  by_cases hcat : fromState.Category = state.Category.Done
  · simp [hcat]
  · simp [hcat]

/-- Closing the open step of one work item leaves the open steps of every other one. -/
theorem closeProcessStep_other (c : WorkStateTransitionBrief) (workflow : WorkflowDetail)
    (fromState : state.State) (now : types.Timestamp) (steps : List WorkProcessStep)
    (x : types.ID) (hid : c.WorkID ≠ 0) (hx : x ≠ c.WorkID) :
    (closeProcessStep c workflow fromState now steps).filter
        (fun s => decide (s.WorkID = x) && decide (s.EndTime = 0)) =
      steps.filter (fun s => decide (s.WorkID = x) && decide (s.EndTime = 0)) := by
  rw [closeProcessStep_eq_map]
  have hnot : ∀ s : WorkProcessStep, s.WorkID = x → matchesOpenStep c workflow fromState s = false := by
    intro s hs
    have : condID c.WorkID s.WorkID = false := by
      rw [Bool.eq_false_iff, ne_eq, condID_iff hid, hs]; exact hx
    simp [matchesOpenStep, this]
  apply filter_map_stable
  · intro s _
    by_cases hm : fromState.Category ≠ state.Category.Done ∧
        matchesOpenStep c workflow fromState s = true
    · have hsx : s.WorkID ≠ x := fun hs => by rw [hnot s hs] at hm; simp at hm
      simp [hm, hsx]
    · rw [if_neg hm]
  · intro s _ hp
    simp only [Bool.and_eq_true, decide_eq_true_eq] at hp
    simp [hnot s hp.1]

/-- Closing the open step of the work item leaves it no open step, when its open steps
are at most the one of `fromState` in the flow of the request. -/
theorem closeProcessStep_target (c : WorkStateTransitionBrief) (workflow : WorkflowDetail)
    (fromState : state.State) (now : types.Timestamp) (steps : List WorkProcessStep)
    (hid : c.WorkID ≠ 0) (hnow : now ≠ 0)
    (hopen : ∀ s ∈ steps, s.WorkID = c.WorkID → s.EndTime = 0 →
      fromState.Category ≠ state.Category.Done ∧ s.FlowID = workflow.Workflow.ID ∧
        s.StateName = fromState.Name) :
    (closeProcessStep c workflow fromState now steps).filter
        (fun s => decide (s.WorkID = c.WorkID) && decide (s.EndTime = 0)) = [] := by
  rw [closeProcessStep_eq_map, List.filter_eq_nil_iff]
  intro s1 hs1
  rw [List.mem_map] at hs1
  obtain ⟨s, hs, rfl⟩ := hs1
  by_cases hp : s.WorkID = c.WorkID ∧ s.EndTime = 0
  · obtain ⟨hcat, hflow, hname⟩ := hopen s hs hp.1 hp.2
    have hm : matchesOpenStep c workflow fromState s = true := by
      simp [matchesOpenStep, condID, condString, hp.1, hp.2, hflow, hname]
    simp [hcat, hm, hnow]
  · have hm : matchesOpenStep c workflow fromState s = false := by
      rw [Bool.eq_false_iff]
      intro hm
      apply hp
      unfold matchesOpenStep at hm
      simp only [Bool.and_eq_true, decide_eq_true_eq] at hm
      exact ⟨(condID_iff hid).1 hm.1.1.1, hm.2⟩
    simp only [hm, Bool.false_eq_true, and_false, if_false]
    simpa using hp

theorem Coherent.openStepInvariant {db : Store} (h : Coherent db) : OpenStepInvariant db := by
  intro w hw
  obtain ⟨_, hopen, hdone⟩ := h.2.2 w hw
  refine ⟨fun hc => ?_, fun hc => ?_⟩
  · obtain ⟨s, hs, _⟩ := hopen hc
    rw [hs]; rfl
  · rw [hdone hc]; rfl

theorem committed_works_ids (env : Env) (c : WorkStateTransitionBrief)
    (workflow : WorkflowDetail) (fromState toState : state.State) (work : Work)
    (t : WorkStateTransition) (db : Store) :
    (committed env c workflow fromState toState work t db).works.map (fun w => w.ID) =
      db.works.map (fun w => w.ID) := by
  unfold committed
  simp only
  rw [updateProcessTimes_eq_map]
  unfold updateWhere
  rw [List.map_map, List.map_map]
  apply List.map_congr_left
  intro w _
  by_cases hm : matchesWorkState c w = true <;>
    by_cases hc : condID c.WorkID w.ID = true <;> simp [hm, hc, setWorkState]

/-- C6, amended: a successful transition that names the flow of the work item preserves
the coherence of the store (primary key on `works`, state categories determined by
`(workflow_id, name)`, category snapshots in line with the workflow, the open step of a
work item that is not done being the step of its current state in its flow), and with it
the open-step invariant: afterwards every work item whose state category is not `DONE` has
exactly one open step and every one whose category is `DONE` has none. -/
theorem CreateWorkStateTransition_preserves_open_step
    (env : Env) (db db1 : Store) (c : WorkStateTransitionBrief) (sec : security.Context)
    (t : WorkStateTransition) (hcoh : Coherent db)
    (hid : c.WorkID ≠ 0) (hflowid : c.FlowID ≠ 0) (hfrom : c.FromState ≠ "")
    (hto : c.ToState ≠ "") (hnow : env.now ≠ 0)
    (hflow : ∀ w ∈ db.works, w.ID = c.WorkID → w.FlowID = c.FlowID)
    (h : CreateWorkStateTransition env db c sec = (.ok t, db1)) :
    Coherent db1 ∧ OpenStepInvariant db1 := by
  obtain ⟨hkey, hstates, hworks⟩ := hcoh
  obtain ⟨workflow, fromState, toState, work, hd, _, hf, hts, hread, _, _, hrows, _, _, hdb⟩ :=
    CreateWorkStateTransition_ok h
  have hwork := read_work_mem hid hread
  have hmatch := read_work_matches hkey hid hwork hrows
  have hstate : work.StateName = c.FromState := by
    unfold matchesWorkState at hmatch
    rw [Bool.and_eq_true, condString_iff hfrom] at hmatch
    exact hmatch.2
  obtain ⟨hwfid, hres⟩ := DetailWorkflow_facts hflowid hd
  obtain ⟨sf, hsf, hsfw, hsfn, hsfc⟩ := hres _ _ hf
  obtain ⟨st, hst, hstw, hstn, hstc⟩ := hres _ _ hts
  have hwflow : work.FlowID = c.FlowID := hflow work hwork.1 hwork.2
  obtain ⟨hsnap, hopen, hdone⟩ := hworks work hwork.1
  have hfromcat : fromState.Category = work.StateCategory := by
    rw [← hsfc]
    exact hsnap sf hsf (by rw [hsfw, hwflow]) (by rw [hsfn, hstate])
  have hsteps : db1.workProcessSteps = createNextProcessStep work toState env.now
      (closeProcessStep c workflow fromState env.now db.workProcessSteps) := by
    rw [hdb]; rfl
  have hstatesEq : db1.workflowStates = db.workflowStates := by rw [hdb]; rfl
  have hother : ∀ x, x ≠ c.WorkID → openSteps db1 x = openSteps db x := by
    intro x hx
    unfold openSteps
    rw [hsteps]
    unfold createNextProcessStep
    split_ifs
    · rw [List.filter_append, closeProcessStep_other _ _ _ _ _ x hid hx]
      have : (nextProcessStep work toState env.now).WorkID ≠ x := by
        show work.ID ≠ x
        rw [hwork.2]; exact fun h => hx h.symm
      simp [this]
    · exact closeProcessStep_other _ _ _ _ _ x hid hx
  have hop : ∀ s ∈ db.workProcessSteps, s.WorkID = c.WorkID → s.EndTime = 0 →
      fromState.Category ≠ state.Category.Done ∧ s.FlowID = workflow.Workflow.ID ∧
        s.StateName = fromState.Name := by
    intro s hs hsw hse
    have hsopen : s ∈ openSteps db work.ID := by
      unfold openSteps
      rw [List.mem_filter]
      simp [hs, hsw, hse, hwork.2]
    by_cases hcat : work.StateCategory = state.Category.Done
    · rw [hdone hcat] at hsopen
      simp at hsopen
    · obtain ⟨s0, hs0, hs0f, hs0n⟩ := hopen hcat
      rw [hs0] at hsopen
      have hseq : s = s0 := by simpa using hsopen
      subst hseq
      exact ⟨by rw [hfromcat]; exact hcat, by rw [hs0f, hwflow, hwfid],
        by rw [hs0n, hstate, FindState_name hf]⟩
  have hclosed := closeProcessStep_target c workflow fromState env.now db.workProcessSteps
    hid hnow hop
  have htarget : openSteps db1 c.WorkID =
      if toState.Category ≠ state.Category.Done then [nextProcessStep work toState env.now]
      else [] := by
    unfold openSteps
    rw [hsteps]
    unfold createNextProcessStep
    split_ifs with hc
    · rw [List.filter_append, hclosed]
      simp [nextProcessStep, hwork.2]
    · exact hclosed
  have hcoh1 : Coherent db1 := by
    refine ⟨?_, ?_, ?_⟩
    · rw [hdb, committed_works_ids]; exact hkey
    · rw [hstatesEq]; exact hstates
    · intro w1 hw1
      rw [hdb] at hw1
      obtain ⟨w, hw, hkeep, hno, hyes⟩ := mem_committed_works hw1
      by_cases hwid : w.ID = c.WorkID
      · have hweq : w = work :=
          List.inj_on_of_nodup_map hkey hw hwork.1 (by rw [hwid, hwork.2])
        obtain ⟨_, _, hset⟩ := hyes ((condID_iff hid).2 hwid)
        obtain ⟨hn, hcg, _⟩ := hset (by rw [hweq]; exact hmatch)
        rw [if_neg hto] at hn
        have hw1id : w1.ID = c.WorkID := by rw [hkeep.1, hwid]
        have hw1flow : w1.FlowID = work.FlowID := by rw [hkeep.2.2.1, hweq]
        rw [hstatesEq, hw1id, htarget, hn, hcg, hw1flow]
        refine ⟨?_, ?_, ?_⟩
        · intro s hs hsw hsn
          rw [← hstc]
          exact hstates s hs st hst (by rw [hsw, hstw, hwflow]) (by rw [hsn, hstn])
        · intro hc
          rw [if_pos hc]
          exact ⟨_, rfl, rfl, FindState_name hts⟩
        · intro hc
          simp [hc]
      · have hc : condID c.WorkID w.ID = false := by
          rw [Bool.eq_false_iff, ne_eq, condID_iff hid]; exact hwid
        have hweq := hno hc
        subst hweq
        rw [hstatesEq, hother _ hwid]
        exact hworks _ hw
  exact ⟨hcoh1, hcoh1.openStepInvariant⟩

theorem scenario_store0_coherent : Coherent scenario.store0 := by
  refine ⟨by decide, by decide, ?_⟩
  intro w hw
  have hw1 : w = scenario.work1 := by simpa [scenario.store0] using hw
  subst hw1
  exact ⟨by decide, fun _ => ⟨scenario.step1, by decide, rfl, rfl⟩,
    fun hc => absurd hc (by decide)⟩

/-- C6, amended, at the scenario of the tests: `PENDING → DOING` at instant 200. -/
theorem CreateWorkStateTransition_preserves_open_step_witness :
    Coherent scenario.store1 ∧ OpenStepInvariant scenario.store1 :=
  CreateWorkStateTransition_preserves_open_step (scenario.envAt 200) scenario.store0
    scenario.store1 scenario.toDoing scenario.sec1 scenario.log1 scenario_store0_coherent
    (by decide) (by decide) (by decide) (by decide) (by decide) (by decide) (by rfl)

/-- C6 as stated fails.  First: work 7 of workflow 10 waits in `PENDING` with its one open
step; the request names workflow 11, which lists `PENDING → DOING` too; it succeeds, the
open step (of flow 10) is not closed and a second open step is inserted.  Second: the one
open step of work 7 bears another state name than the work item; the invariant as worded
holds, the transition `PENDING → DOING` succeeds, closes nothing and opens a second step. -/
theorem open_step_invariant_not_preserved :
    (OpenStepInvariant scenario.storeTwoFlows ∧
      CreateWorkStateTransition (scenario.envAt 200) scenario.storeTwoFlows
          scenario.toDoingOtherFlow scenario.sec1 =
        (.ok { ID := 1200, CreateTime := 200, Creator := 1,
               WorkStateTransitionBrief := scenario.toDoingOtherFlow },
         scenario.storeTwoFlows1) ∧
      (openSteps scenario.storeTwoFlows1 7).length = 2 ∧
      ¬ OpenStepInvariant scenario.storeTwoFlows1) ∧
    (OpenStepInvariant scenario.storeMisnamed ∧
      CreateWorkStateTransition (scenario.envAt 200) scenario.storeMisnamed
          scenario.toDoing scenario.sec1 = (.ok scenario.log1, scenario.storeMisnamed1) ∧
      (openSteps scenario.storeMisnamed1 7).length = 2 ∧
      ¬ OpenStepInvariant scenario.storeMisnamed1) := by
  refine ⟨⟨by decide, by rfl, by decide, by decide⟩, ⟨by decide, by rfl, by decide, by decide⟩⟩

/-! ## The process-step query -/

/-- The query on a positive id of an existing work item, by a session with a role on its
project, returns the stored steps of that work item as the engine delivers them. -/
theorem QueryProcessSteps_eq_stepsOf (deliver : Delivery) (db : Store)
    (query : WorkProcessStepQuery)
    (sec : security.Context) (hid : query.WorkID ≠ 0)
    (hex : ∃ w ∈ db.works, w.ID = query.WorkID)
    (hrole : ∀ w ∈ db.works, w.ID = query.WorkID →
      sec.HasRoleSuffix ("_" ++ types.ID.String w.ProjectID) = true) :
    QueryProcessSteps deliver db query sec =
      .ok (deliver.arrange (stepsOf db query.WorkID)) := by
  unfold QueryProcessSteps
  cases hread : firstByKey (fun w => w.ID)
      (db.works.filter (fun w => condID query.WorkID w.ID)) with
  | none =>
    exfalso
    obtain ⟨w, hw, hwid⟩ := hex
    have hnil := firstByKey_eq_none _ _ hread
    have : w ∈ db.works.filter (fun w => condID query.WorkID w.ID) :=
      List.mem_filter.2 ⟨hw, (condID_iff hid).2 hwid⟩
    rw [hnil] at this
    exact List.not_mem_nil _ this
  | some work =>
    have hmem := firstByKey_mem _ _ _ hread
    rw [List.mem_filter, condID_iff hid] at hmem
    have hr := hrole work hmem.1 hmem.2
    simp only [hr, Bool.not_true, Bool.false_eq_true, if_false]
    unfold stepsOf
    congr 2
    apply List.filter_congr
    intro s _
    by_cases hs : s.WorkID = query.WorkID <;> simp [condID, hid, hs]

/-- C10, amended: for an existing work item (positive id) and a session holding a role on
its project, `QueryProcessSteps` returns exactly the stored process steps whose `work_id`
is the queried id, each of them once and steps of other work items never, whatever the
order in which the engine delivers them; the query asks for no order. -/
theorem QueryProcessSteps_returns_steps_of_work (deliver : Delivery) (db : Store)
    (query : WorkProcessStepQuery)
    (sec : security.Context) (hid : query.WorkID ≠ 0)
    (hex : ∃ w ∈ db.works, w.ID = query.WorkID)
    (hrole : ∀ w ∈ db.works, w.ID = query.WorkID →
      sec.HasRoleSuffix ("_" ++ types.ID.String w.ProjectID) = true) :
    ∃ steps : List WorkProcessStep,
      QueryProcessSteps deliver db query sec = .ok steps ∧
      steps.Perm (db.workProcessSteps.filter (fun s => decide (s.WorkID = query.WorkID))) ∧
      (∀ s, s ∈ steps ↔ s ∈ db.workProcessSteps ∧ s.WorkID = query.WorkID) := by
  refine ⟨deliver.arrange (stepsOf db query.WorkID),
    QueryProcessSteps_eq_stepsOf deliver db query sec hid hex hrole, deliver.perm _, ?_⟩
  intro s
  rw [(deliver.perm _).mem_iff]
  simp [stepsOf, List.mem_filter]

/-- C10, amended, at the scenario of the tests after `PENDING → DOING`, the engine
delivering in the order of the key. -/
theorem QueryProcessSteps_returns_steps_of_work_witness :
    ∃ steps : List WorkProcessStep,
      QueryProcessSteps Delivery.byKey scenario.store1 { WorkID := 7 } scenario.sec1 =
        .ok steps ∧
      steps.Perm (scenario.store1.workProcessSteps.filter (fun s => decide (s.WorkID = 7))) ∧
      (∀ s, s ∈ steps ↔ s ∈ scenario.store1.workProcessSteps ∧ s.WorkID = 7) :=
  QueryProcessSteps_returns_steps_of_work Delivery.byKey scenario.store1 { WorkID := 7 }
    scenario.sec1 (by decide) (by decide) (by decide)

/-- C10 as stated fails, for nothing in the query orders its answer.  Work 7 has its
initial `PENDING` step begun at 100 and, after the transition `PENDING → DOING` at the
later instant 200, a `DOING` step begun at 200.  An engine that reads the table along the
key `(work_id, flow_id, state_name, begin_time)` delivers the `DOING` step (begin 200)
before the `PENDING` step (begin 100), not in ascending `begin_time` order; an engine that
delivers in storage order gives the other order on the same store. -/
theorem QueryProcessSteps_not_ordered_by_begin_time :
    CreateWorkStateTransition (scenario.envAt 200) scenario.store0 scenario.toDoing
        scenario.sec1 = (.ok scenario.log1, scenario.store1) ∧
    (∃ steps : List WorkProcessStep,
      QueryProcessSteps Delivery.byKey scenario.store1 { WorkID := 7 } scenario.sec1 =
        .ok steps ∧
      steps.map (fun s => (s.StateName, s.BeginTime)) = [("DOING", 200), ("PENDING", 100)] ∧
      ¬ (steps.map (fun s => s.BeginTime)).Sorted (fun a b => a ≤ b)) ∧
    (∃ steps : List WorkProcessStep,
      QueryProcessSteps Delivery.stored scenario.store1 { WorkID := 7 } scenario.sec1 =
        .ok steps ∧
      steps.map (fun s => (s.StateName, s.BeginTime)) =
        [("PENDING", 100), ("DOING", 200)]) := by
  refine ⟨by rfl,
    ⟨Delivery.byKey.arrange scenario.store1.workProcessSteps, by rfl, by decide, by decide⟩,
    ⟨scenario.store1.workProcessSteps, by rfl, by decide⟩⟩

/-! ## The history after a sequence of transitions -/

theorem filter_map_map_stable {α β : Type} (p : α → Bool) (g : α → β) (f : α → α) :
    ∀ (l : List α), (∀ a ∈ l, p (f a) = p a) → (∀ a ∈ l, g (f a) = g a) →
      ((l.map f).filter p).map g = (l.filter p).map g
  | [], _, _ => rfl
  | a :: l, h1, h2 => by
    have ih := filter_map_map_stable p g f l (fun x hx => h1 x (List.mem_cons_of_mem _ hx))
      (fun x hx => h2 x (List.mem_cons_of_mem _ hx))
    have ha := h1 a (List.mem_cons_self _ _)
    have hg := h2 a (List.mem_cons_self _ _)
    simp only [List.map_cons, List.filter_cons, ha]
    by_cases hp : p a = true
    · simp only [hp, if_true, List.map_cons, hg, ih]
    · simp only [hp, Bool.false_eq_true, if_false, ih]

theorem committed_works_keys (env : Env) (c : WorkStateTransitionBrief)
    (workflow : WorkflowDetail) (fromState toState : state.State) (work : Work)
    (t : WorkStateTransition) (db : Store) :
    (committed env c workflow fromState toState work t db).works.map
        (fun w => (w.ID, w.ProjectID)) = db.works.map (fun w => (w.ID, w.ProjectID)) := by
  unfold committed
  simp only
  rw [updateProcessTimes_eq_map]
  unfold updateWhere
  rw [List.map_map, List.map_map]
  apply List.map_congr_left
  intro w _
  by_cases hm : matchesWorkState c w = true <;>
    by_cases hc : condID c.WorkID w.ID = true <;> simp [hm, hc, setWorkState]

/-- One successful call on work `x`: the begin times of its steps are the former ones,
followed by the clock reading of the call unless its target category is `DONE`; the
workflow tables and the ids and projects of the work items are as before. -/
theorem stepsOf_after_call {k : Call} {db db1 : Store} {t : WorkStateTransition}
    (hid : k.brief.WorkID ≠ 0)
    (h : CreateWorkStateTransition k.env db k.brief k.sec = (.ok t, db1)) :
    (stepsOf db1 k.brief.WorkID).map (fun s => s.BeginTime) =
        (stepsOf db k.brief.WorkID).map (fun s => s.BeginTime) ++
          (if entersDone db k = true then [] else [k.env.now]) ∧
      db1.workflows = db.workflows ∧ db1.workflowStates = db.workflowStates ∧
      db1.workflowStateTransitions = db.workflowStateTransitions ∧
      db1.works.map (fun w => (w.ID, w.ProjectID)) =
        db.works.map (fun w => (w.ID, w.ProjectID)) := by
  obtain ⟨workflow, fromState, toState, work, hd, _, _, hts, hread, _, _, _, _, _, hdb⟩ :=
    CreateWorkStateTransition_ok h
  have hwork := read_work_mem hid hread
  have hdone : entersDone db k = decide (toState.Category = state.Category.Done) := by
    unfold entersDone
    rw [hd]
    simp only [hts]
  refine ⟨?_, by rw [hdb]; rfl, by rw [hdb]; rfl, by rw [hdb]; rfl,
    by rw [hdb]; exact committed_works_keys _ _ _ _ _ _ _ _⟩
  have hclose : ((closeProcessStep k.brief workflow fromState k.env.now
        db.workProcessSteps).filter (fun s => decide (s.WorkID = k.brief.WorkID))).map
        (fun s => s.BeginTime) =
      (stepsOf db k.brief.WorkID).map (fun s => s.BeginTime) := by
    rw [closeProcessStep_eq_map]
    unfold stepsOf
    apply filter_map_map_stable
    · intro s _
      by_cases hm : fromState.Category ≠ state.Category.Done ∧
          matchesOpenStep k.brief workflow fromState s = true
      · rw [if_pos hm]
      · rw [if_neg hm]
    · intro s _
      by_cases hm : fromState.Category ≠ state.Category.Done ∧
          matchesOpenStep k.brief workflow fromState s = true
      · rw [if_pos hm]
      · rw [if_neg hm]
  have hsteps : db1.workProcessSteps = createNextProcessStep work toState k.env.now
      (closeProcessStep k.brief workflow fromState k.env.now db.workProcessSteps) := by
    rw [hdb]; rfl
  rw [hdone]
  unfold stepsOf at hclose ⊢
  rw [hsteps]
  unfold createNextProcessStep
  by_cases hcat : toState.Category = state.Category.Done
  · simp only [hcat, ne_eq, not_true_eq_false, if_false, decide_True, if_true,
      List.append_nil]
    exact hclose
  · simp only [hcat, ne_eq, not_false_eq_true, if_true, decide_False, Bool.false_eq_true,
      if_false, List.filter_append, List.map_append, hclose]
    simp [nextProcessStep, hwork.2]

theorem entersDone_congr {db db1 : Store} (h1 : db1.workflows = db.workflows)
    (h2 : db1.workflowStates = db.workflowStates)
    (h3 : db1.workflowStateTransitions = db.workflowStateTransitions) (k : Call) :
    entersDone db1 k = entersDone db k := by
  unfold entersDone
  rw [DetailWorkflow_congr h1 h2 h3]

/-- A sequence of successful calls on work `x`: the begin times of its steps are the
former ones followed by the clock readings of the calls whose target category is not
`DONE`, in call order. -/
theorem stepsOf_after_calls (x : types.ID) (hx : x ≠ 0) :
    ∀ (calls : List Call) (db db1 : Store), (∀ k ∈ calls, k.brief.WorkID = x) →
      applyCalls db calls = some db1 →
      (stepsOf db1 x).map (fun s => s.BeginTime) =
          (stepsOf db x).map (fun s => s.BeginTime) ++
            (calls.filter (fun k => !entersDone db k)).map (fun k => k.env.now) ∧
        db1.workflows = db.workflows ∧ db1.workflowStates = db.workflowStates ∧
        db1.workflowStateTransitions = db.workflowStateTransitions ∧
        db1.works.map (fun w => (w.ID, w.ProjectID)) =
          db.works.map (fun w => (w.ID, w.ProjectID))
  | [], db, db1, _, hrun => by
    unfold applyCalls at hrun
    simp only [Option.some.injEq] at hrun
    subst hrun
    simp
  | k :: ks, db, db1, hcalls, hrun => by
    unfold applyCalls at hrun
    have hk : k.brief.WorkID = x := hcalls k (List.mem_cons_self _ _)
    cases hcall : CreateWorkStateTransition k.env db k.brief k.sec with
    | mk r dbm =>
      rw [hcall] at hrun
      cases r with
      | error e => simp at hrun
      | ok t =>
        simp only at hrun
        obtain ⟨hb, h1, h2, h3, h4⟩ := stepsOf_after_call (by rw [hk]; exact hx) hcall
        obtain ⟨ib, i1, i2, i3, i4⟩ := stepsOf_after_calls x hx ks dbm db1
          (fun k' hk' => hcalls k' (List.mem_cons_of_mem _ hk')) hrun
        rw [hk] at hb
        refine ⟨?_, i1.trans h1, i2.trans h2, i3.trans h3, i4.trans h4⟩
        have hfil : ks.filter (fun k => !entersDone dbm k) =
            ks.filter (fun k => !entersDone db k) := by
          apply List.filter_congr
          intro k' _
          rw [entersDone_congr h1 h2 h3]
        rw [ib, hb, hfil, List.filter_cons]
        by_cases hd : entersDone db k = true
        · simp [hd]
        · simp [hd]

/-- The number of steps the query returns after a sequence of successful transitions of
a work item of positive id, whatever the order of delivery: the number of steps returned
afterwards plus the number of transitions into a `DONE` state is the number returned
before plus the number of transitions. -/
theorem QueryProcessSteps_after_calls (deliver : Delivery) (db db1 : Store)
    (calls : List Call) (x : types.ID)
    (sec : security.Context) (hx : x ≠ 0)
    (hex : ∃ w ∈ db.works, w.ID = x)
    (hrole : ∀ w ∈ db.works, w.ID = x →
      sec.HasRoleSuffix ("_" ++ types.ID.String w.ProjectID) = true)
    (hcalls : ∀ k ∈ calls, k.brief.WorkID = x)
    (hrun : applyCalls db calls = some db1) :
    ∃ steps0 steps1 : List WorkProcessStep,
      QueryProcessSteps deliver db { WorkID := x } sec = .ok steps0 ∧
      QueryProcessSteps deliver db1 { WorkID := x } sec = .ok steps1 ∧
      steps1.length + (calls.filter (fun k => entersDone db k)).length =
        steps0.length + calls.length := by
  obtain ⟨hb, _, _, _, hkeys⟩ := stepsOf_after_calls x hx calls db db1 hcalls hrun
  have hex1 : ∃ w ∈ db1.works, w.ID = x := by
    obtain ⟨w, hw, hwid⟩ := hex
    have : (w.ID, w.ProjectID) ∈ db1.works.map (fun w => (w.ID, w.ProjectID)) := by
      rw [hkeys]; exact List.mem_map.2 ⟨w, hw, rfl⟩
    obtain ⟨w1, hw1, heq⟩ := List.mem_map.1 this
    simp only [Prod.mk.injEq] at heq
    exact ⟨w1, hw1, by rw [heq.1, hwid]⟩
  have hrole1 : ∀ w ∈ db1.works, w.ID = x →
      sec.HasRoleSuffix ("_" ++ types.ID.String w.ProjectID) = true := by
    intro w1 hw1 hw1id
    have : (w1.ID, w1.ProjectID) ∈ db.works.map (fun w => (w.ID, w.ProjectID)) := by
      rw [← hkeys]; exact List.mem_map.2 ⟨w1, hw1, rfl⟩
    obtain ⟨w, hw, heq⟩ := List.mem_map.1 this
    simp only [Prod.mk.injEq] at heq
    rw [← heq.2]
    exact hrole w hw (by rw [heq.1, hw1id])
  refine ⟨deliver.arrange (stepsOf db x), deliver.arrange (stepsOf db1 x),
    QueryProcessSteps_eq_stepsOf deliver db { WorkID := x } sec hx hex hrole,
    QueryProcessSteps_eq_stepsOf deliver db1 { WorkID := x } sec hx hex1 hrole1, ?_⟩
  have hlen := congrArg List.length hb
  simp only [List.length_map, List.length_append] at hlen
  have hsplit := calls.length_eq_length_filter_add (fun k => entersDone db k)
  have h0 := (deliver.perm (stepsOf db x)).length_eq
  have h1 := (deliver.perm (stepsOf db1 x)).length_eq
  omega

/-- The count of steps at the scenario of the tests: `PENDING → DOING`, then
`DOING → DONE`, the engine delivering in storage order. -/
theorem QueryProcessSteps_after_calls_witness :
    ∃ steps0 steps1 : List WorkProcessStep,
      QueryProcessSteps Delivery.stored scenario.store0 { WorkID := 7 } scenario.sec1 =
        .ok steps0 ∧
      QueryProcessSteps Delivery.stored scenario.store2 { WorkID := 7 } scenario.sec1 =
        .ok steps1 ∧
      steps1.length + (scenario.calls.filter (fun k => entersDone scenario.store0 k)).length =
        steps0.length + scenario.calls.length :=
  QueryProcessSteps_after_calls Delivery.stored scenario.store0 scenario.store2
    scenario.calls 7 scenario.sec1 (by decide) (by decide) (by decide) (by decide) (by rfl)

/-- C8: the code at the scenario of the test.  Work 7 starts with its single initial step;
the two transitions of the test (`PENDING → DOING` at 200, `DOING → DONE` at 300) succeed;
the query then returns 2 steps, the `PENDING` step and the `DOING` step, both closed, and
no step of the state `DONE`, whatever the order of delivery: not the `2 + 1` steps of the
claim and of the test. -/
theorem QueryProcessSteps_two_steps_after_two_calls (deliver : Delivery) :
    (∃ steps0, QueryProcessSteps deliver scenario.store0 { WorkID := 7 } scenario.sec1 =
        .ok steps0 ∧ steps0.length = 1) ∧
    scenario.calls.length = 2 ∧
    applyCalls scenario.store0 scenario.calls = some scenario.store2 ∧
    ∃ steps : List WorkProcessStep,
      QueryProcessSteps deliver scenario.store2 { WorkID := 7 } scenario.sec1 = .ok steps ∧
      steps.Perm
        [{ scenario.step1 with EndTime := 200 },
         { WorkID := 7, FlowID := 10, StateName := "DOING",
           StateCategory := state.Category.InProcess, BeginTime := 200, EndTime := 300,
           NextStateName := "", NextStateCategory := none, CreatorID := 0,
           CreatorName := "" }] ∧
      (∀ s ∈ steps, s.StateName ≠ "DONE") ∧
      steps.length = 2 ∧ steps.length ≠ scenario.calls.length + 1 := by
  have hperm := deliver.perm scenario.store2.workProcessSteps
  have hstore : scenario.store2.workProcessSteps =
      [{ scenario.step1 with EndTime := 200 },
       { WorkID := 7, FlowID := 10, StateName := "DOING",
         StateCategory := state.Category.InProcess, BeginTime := 200, EndTime := 300,
         NextStateName := "", NextStateCategory := none, CreatorID := 0,
         CreatorName := "" }] := by rfl
  have hlen : (deliver.arrange scenario.store2.workProcessSteps).length = 2 := by
    rw [hperm.length_eq]; rfl
  refine ⟨⟨deliver.arrange scenario.store0.workProcessSteps, by rfl, ?_⟩, by decide, by rfl,
    deliver.arrange scenario.store2.workProcessSteps, by rfl, ?_, ?_, hlen, ?_⟩
  · rw [(deliver.perm scenario.store0.workProcessSteps).length_eq]; rfl
  · rw [← hstore]; exact hperm
  · intro s hs
    rw [hperm.mem_iff, hstore] at hs
    simp only [List.mem_cons, List.mem_singleton, List.not_mem_nil, or_false] at hs
    rcases hs with hs | hs <;> rw [hs] <;> decide
  · rw [hlen]; decide

end work

/-! ## The process-step query: the empty answers -/

namespace work

open domain

/-- C11: for a positive work id, when no work item bears the id, or when the session holds
no role with the suffix `_<projectId>` of the project of the work item, `QueryProcessSteps`
returns the empty list and no error, whatever process steps are stored. -/
theorem QueryProcessSteps_empty (deliver : Delivery) (db : Store)
    (query : WorkProcessStepQuery)
    (sec : security.Context) (hid : query.WorkID ≠ 0)
    (h : (∀ w ∈ db.works, w.ID ≠ query.WorkID) ∨
      (∀ w ∈ db.works, w.ID = query.WorkID →
        sec.HasRoleSuffix ("_" ++ types.ID.String w.ProjectID) = false)) :
    QueryProcessSteps deliver db query sec = .ok [] := by
  unfold QueryProcessSteps
  cases hread : firstByKey (fun w => w.ID)
      (db.works.filter (fun w => condID query.WorkID w.ID)) with
  | none => rfl
  | some work =>
    have hmem := firstByKey_mem _ _ _ hread
    rw [List.mem_filter, condID_iff hid] at hmem
    rcases h with h | h
    · exact absurd hmem.2 (h work hmem.1)
    · simp [h work hmem.1 hmem.2]

/-- C11 at the two tests: an unknown work id on the scenario after `PENDING → DOING`, and
work 7 of project 1 queried by a caller whose only role is on project 2. -/
theorem QueryProcessSteps_empty_witness :
    QueryProcessSteps Delivery.stored scenario.store1 { WorkID := 1 } scenario.sec1 =
      .ok [] ∧
    QueryProcessSteps Delivery.stored scenario.store1 { WorkID := 7 } scenario.sec2 =
      .ok [] :=
  ⟨QueryProcessSteps_empty Delivery.stored scenario.store1 { WorkID := 1 } scenario.sec1
      (by decide) (Or.inl (by decide)),
   QueryProcessSteps_empty Delivery.stored scenario.store1 { WorkID := 7 } scenario.sec2
      (by decide) (Or.inr (by decide))⟩

end work

/-! ## The workflow manager: creation -/

namespace flow

open domain

theorem stampOrdersFrom_getElem? (k : Nat) :
    ∀ (states : List state.State) (i : Nat),
      (stampOrdersFrom k states)[i]? =
        (states[i]?).map (fun s => { s with Order := ((10000 + (k + i) + 1 : Nat) : Int) })
  | [], i => by simp [stampOrdersFrom]
  | s :: rest, 0 => by simp [stampOrdersFrom]
  | s :: rest, i + 1 => by
    simp only [stampOrdersFrom, List.getElem?_cons_succ]
    rw [stampOrdersFrom_getElem? (k + 1) rest i]
    have : k + 1 + i = k + (i + 1) := by omega
    rw [this]

theorem stampOrdersFrom_length (k : Nat) :
    ∀ (states : List state.State), (stampOrdersFrom k states).length = states.length
  | [] => rfl
  | s :: rest => by simp [stampOrdersFrom, stampOrdersFrom_length (k + 1) rest]

/-- What an authorized creation returns and stores. -/
theorem CreateWorkflow_ok (env : Env) (db : Store) (c : WorkflowCreation)
    (sec : security.Context)
    (hrole : sec.HasRoleSuffix ("_" ++ types.ID.String c.ProjectID) = true) :
    CreateWorkflow env db c sec =
      (.ok { Workflow :=
               { ID := env.newId, Name := c.Name, ProjectID := c.ProjectID,
                 ThemeColor := c.ThemeColor, ThemeIcon := c.ThemeIcon, CreateTime := env.now }
             StateMachine :=
               { States := stampOrders c.StateMachine.States
                 Transitions := c.StateMachine.Transitions } },
       { db with
         workflows := db.workflows ++
           [{ ID := env.newId, Name := c.Name, ProjectID := c.ProjectID,
              ThemeColor := c.ThemeColor, ThemeIcon := c.ThemeIcon, CreateTime := env.now }]
         workflowStates := db.workflowStates ++
           (stampOrders c.StateMachine.States).map
             (stateEntity { ID := env.newId, Name := c.Name, ProjectID := c.ProjectID,
                            ThemeColor := c.ThemeColor, ThemeIcon := c.ThemeIcon,
                            CreateTime := env.now })
         workflowStateTransitions := db.workflowStateTransitions ++
           c.StateMachine.Transitions.map
             (transitionEntity { ID := env.newId, Name := c.Name, ProjectID := c.ProjectID,
                                 ThemeColor := c.ThemeColor, ThemeIcon := c.ThemeIcon,
                                 CreateTime := env.now }) }) := by
  unfold CreateWorkflow Transaction
  simp [hrole]

/-- C14: an authorized `CreateWorkflow` succeeds; the states it returns and the state rows
it appends to the table are as many as the input states, and the one at input position
`i` has `order = 10000 + i + 1` and the name and category of the `i`-th input state; the
orders are strictly increasing in input position. -/
theorem CreateWorkflow_stamps_orders (env : Env) (db : Store) (c : WorkflowCreation)
    (sec : security.Context)
    (hrole : sec.HasRoleSuffix ("_" ++ types.ID.String c.ProjectID) = true) :
    ∃ (detail : WorkflowDetail) (db1 : Store) (rows : List WorkflowState),
      CreateWorkflow env db c sec = (.ok detail, db1) ∧
      db1.workflowStates = db.workflowStates ++ rows ∧
      detail.StateMachine.States.length = c.StateMachine.States.length ∧
      rows.length = c.StateMachine.States.length ∧
      (∀ (i : Nat) (s : state.State), c.StateMachine.States[i]? = some s →
        detail.StateMachine.States[i]? =
            some { Name := s.Name, Category := s.Category, Order := ((10000 + i + 1 : Nat) : Int) } ∧
          rows[i]? =
            some { WorkflowID := detail.Workflow.ID, Name := s.Name, Category := s.Category,
                   Order := ((10000 + i + 1 : Nat) : Int),
                   CreateTime := detail.Workflow.CreateTime }) ∧
      (∀ (i j : Nat) (ri rj : WorkflowState), i < j → rows[i]? = some ri →
        rows[j]? = some rj → ri.Order < rj.Order) := by
  have hget : ∀ (i : Nat) (s : state.State), c.StateMachine.States[i]? = some s →
      (stampOrders c.StateMachine.States)[i]? =
        some { Name := s.Name, Category := s.Category, Order := ((10000 + i + 1 : Nat) : Int) } := by
    intro i s hs
    unfold stampOrders
    rw [stampOrdersFrom_getElem?, hs]
    simp
  have hrow : ∀ (wf : Workflow) (i : Nat) (r : WorkflowState),
      ((stampOrders c.StateMachine.States).map (stateEntity wf))[i]? = some r →
        r.Order = ((10000 + i + 1 : Nat) : Int) := by
    intro wf i r hr
    rw [List.getElem?_map] at hr
    unfold stampOrders at hr
    rw [stampOrdersFrom_getElem?] at hr
    cases hs : c.StateMachine.States[i]? with
    | none => rw [hs] at hr; simp at hr
    | some s =>
      rw [hs] at hr
      simp only [Option.map_some', Option.some.injEq, zero_add] at hr
      rw [← hr]
      rfl
  refine ⟨_, _, _, CreateWorkflow_ok env db c sec hrole, rfl, ?_, ?_, ?_, ?_⟩
  · exact stampOrdersFrom_length 0 _
  · rw [List.length_map]
    exact stampOrdersFrom_length 0 _
  · intro i s hs
    refine ⟨hget i s hs, ?_⟩
    rw [List.getElem?_map, hget i s hs]
    rfl
  · intro i j ri rj hij hi hj
    rw [hrow _ i ri hi, hrow _ j rj hj]
    exact_mod_cast (by omega : 10000 + i + 1 < 10000 + j + 1)

/-- C14 at the first end-to-end scenario: three states, orders 10001, 10002, 10003. -/
theorem CreateWorkflow_stamps_orders_witness :
    ∃ (detail : WorkflowDetail) (db1 : Store) (rows : List WorkflowState),
      CreateWorkflow (scenario.envAt 5) scenario.emptyStore scenario.creation1 scenario.sec1 =
        (.ok detail, db1) ∧
      db1.workflowStates = scenario.emptyStore.workflowStates ++ rows ∧
      detail.StateMachine.States.length = scenario.creation1.StateMachine.States.length ∧
      rows.length = scenario.creation1.StateMachine.States.length ∧
      (∀ (i : Nat) (s : state.State), scenario.creation1.StateMachine.States[i]? = some s →
        detail.StateMachine.States[i]? =
            some { Name := s.Name, Category := s.Category, Order := ((10000 + i + 1 : Nat) : Int) } ∧
          rows[i]? =
            some { WorkflowID := detail.Workflow.ID, Name := s.Name, Category := s.Category,
                   Order := ((10000 + i + 1 : Nat) : Int),
                   CreateTime := detail.Workflow.CreateTime }) ∧
      (∀ (i j : Nat) (ri rj : WorkflowState), i < j → rows[i]? = some ri →
        rows[j]? = some rj → ri.Order < rj.Order) :=
  CreateWorkflow_stamps_orders (scenario.envAt 5) scenario.emptyStore scenario.creation1
    scenario.sec1 (by decide)

/-- C12, the code at a creation whose transition `PENDING → DOING` names a state the
creation does not list: on the empty store, where every transition row is resolved,
`CreateWorkflow` succeeds and stores the transition, whose `to_state` names no state row
of the new workflow. -/
theorem CreateWorkflow_stores_unresolved_transition :
    TransitionsResolved scenario.emptyStore ∧
    (CreateWorkflow (scenario.envAt 5) scenario.emptyStore scenario.creationDangling
        scenario.sec1).2 = scenario.storeDangling ∧
    (∃ detail, (CreateWorkflow (scenario.envAt 5) scenario.emptyStore
        scenario.creationDangling scenario.sec1).1 = .ok detail ∧ detail.Workflow.ID = 1005) ∧
    scenario.storeDangling.workflowStateTransitions =
      [{ WorkflowID := 1005, Name := "begin", FromState := "PENDING", ToState := "DOING",
         CreateTime := 5 }] ∧
    scenario.storeDangling.workflowStates.map (fun s => (s.WorkflowID, s.Name)) =
      [(1005, "PENDING")] ∧
    ¬ TransitionsResolved scenario.storeDangling := by
  refine ⟨by decide, by rfl, ⟨_, by rfl, by rfl⟩, by decide, by decide, by decide⟩

/-- C13, the code at a creation whose transition `PENDING → DOING` names a state the
creation does not list: `CreateWorkflow` by a manager of the project succeeds and returns
the id 1005, and `DetailWorkflow` of that id fails with `ErrStateInvalid`. -/
theorem DetailWorkflow_of_created_fails :
    scenario.sec1.HasRoleSuffix ("_" ++ types.ID.String scenario.creationDangling.ProjectID) =
      true ∧
    (∃ detail, CreateWorkflow (scenario.envAt 5) scenario.emptyStore
        scenario.creationDangling scenario.sec1 = (.ok detail, scenario.storeDangling) ∧
      detail.Workflow.ID = 1005) ∧
    DetailWorkflow scenario.storeDangling 1005 scenario.sec1 = .error .ErrStateInvalid := by
  refine ⟨by decide, ⟨_, by rfl, by rfl⟩, by rfl⟩

end flow

/-! ## The workflow manager: updating a state -/

namespace flow

open domain

theorem likeAny_of_accepts (f : List Char → Bool) (text : List Char) (h : f text = true) :
    likeAny f text = true := by
  cases text with
  | nil => simpa [likeAny] using h
  | cons c cs => simp [likeAny, h]

theorem likeAny_of_tail (f : List Char → Bool) (c : Char) (cs : List Char)
    (h : likeAny f cs = true) : likeAny f (c :: cs) = true := by
  simp [likeAny, h]

/-- A pattern matches the text that spells it. -/
theorem likeMatch_self : ∀ (p : List Char), likeMatch p p = true
  | [] => rfl
  | c :: cs => by
    unfold likeMatch
    by_cases hc : c = '%'
    · rw [if_pos hc]
      exact likeAny_of_tail _ _ _ (likeAny_of_accepts _ _ (likeMatch_self cs))
    · rw [if_neg hc]
      simp [likeMatch_self cs]

/-- A pattern without `%` and `_` matches the text that spells it and no other. -/
theorem likeMatch_plain :
    ∀ (p text : List Char), (∀ c ∈ p, c ≠ '%' ∧ c ≠ '_') →
      (likeMatch p text = true ↔ text = p)
  | [], text, _ => by cases text <;> simp [likeMatch]
  | c :: cs, text, h => by
    have hc := h c (List.mem_cons_self _ _)
    have ih := fun t => likeMatch_plain cs t (fun x hx => h x (List.mem_cons_of_mem _ hx))
    unfold likeMatch
    rw [if_neg hc.1]
    cases text with
    | nil => simp
    | cons d ds =>
      simp only [hc.2, decide_False, Bool.false_or, Bool.and_eq_true, decide_eq_true_eq, ih ds,
        List.cons.injEq]
      constructor
      · rintro ⟨h1, h2⟩; exact ⟨h1.symm, h2⟩
      · rintro ⟨h1, h2⟩; exact ⟨h1.symm, h2⟩

theorem like_self (p : String) : like p p = true := likeMatch_self _

theorem like_plain (p v : String) (h : ∀ c ∈ p.toList, c ≠ '%' ∧ c ≠ '_') :
    like p v = true ↔ v = p := by
  unfold like
  rw [likeMatch_plain _ _ h]
  constructor
  · intro hv; exact String.ext hv
  · intro hv; rw [hv]

theorem firstByKey_of_mem {α : Type} (key : α → Nat) {l : List α} {x : α} (hx : x ∈ l) :
    ∃ y, firstByKey key l = some y := by
  cases h : firstByKey key l with
  | some y => exact ⟨y, rfl⟩
  | none =>
    rw [firstByKey_eq_none _ _ h] at hx
    exact absurd hx (List.not_mem_nil _)

/-- Every check a successful `UpdateWorkflowState` passed, and the store it leaves. -/
theorem UpdateWorkflowState_ok {db db1 : Store} {id : types.ID}
    {updating : WorkflowStateUpdating} {sec : security.Context}
    (h : UpdateWorkflowState db id updating sec = (none, db1)) :
    ∃ (workflow : Workflow) (origin : WorkflowState),
      firstByKey (fun w => w.ID) (db.workflows.filter (fun w => condID id w.ID)) =
        some workflow ∧
      sec.HasRoleSuffix (ProjectRoleManager ++ "_" ++ types.ID.String workflow.ProjectID) =
        true ∧
      firstByKey (fun s => s.WorkflowID) (db.workflowStates.filter
        (fun s => condID workflow.ID s.WorkflowID && condString updating.OriginName s.Name)) =
        some origin ∧
      ¬ (updating.OriginName ≠ updating.Name ∧
          (db.workflowStates.filter (fun s =>
            condID workflow.ID s.WorkflowID && condString updating.Name s.Name)) ≠ []) ∧
      db1 = stateUpdated workflow origin updating db := by
  unfold UpdateWorkflowState Transaction at h
  cases htx : updateStateTx id updating sec db with
  | error e => rw [htx] at h; simp at h
  | ok tx1 =>
    rw [htx] at h
    simp only [Prod.mk.injEq, true_and] at h
    subst h
    unfold updateStateTx at htx
    cases hw : firstByKey (fun w => w.ID) (db.workflows.filter (fun w => condID id w.ID)) with
    | none => rw [hw] at htx; simp at htx
    | some workflow =>
      rw [hw] at htx
      simp only at htx
      by_cases hrole : sec.HasRoleSuffix
          (ProjectRoleManager ++ "_" ++ types.ID.String workflow.ProjectID) = true
      · simp only [hrole, Bool.not_true, Bool.false_eq_true, if_false] at htx
        cases ho : firstByKey (fun s => s.WorkflowID) (db.workflowStates.filter
            (fun s => condID workflow.ID s.WorkflowID &&
              condString updating.OriginName s.Name)) with
        | none => rw [ho] at htx; simp at htx
        | some origin =>
          rw [ho] at htx
          simp only at htx
          by_cases hex : updating.OriginName ≠ updating.Name ∧
              (db.workflowStates.filter (fun s =>
                condID workflow.ID s.WorkflowID && condString updating.Name s.Name)) ≠ []
          · rw [if_pos hex] at htx
            simp at htx
          · rw [if_neg hex] at htx
            simp only [Except.ok.injEq] at htx
            exact ⟨workflow, origin, rfl, hrole, ho, hex, htx.symm⟩
      · simp [hrole] at htx

/-- With a positive id and a non-empty origin name, the workflow read is the one of the
id and the origin state read is a stored state of it bearing the origin name. -/
theorem UpdateWorkflowState_reads {db : Store} {id : types.ID}
    {updating : WorkflowStateUpdating} {workflow : Workflow} {origin : WorkflowState}
    (hid : id ≠ 0) (ho : updating.OriginName ≠ "")
    (hw : firstByKey (fun w => w.ID) (db.workflows.filter (fun w => condID id w.ID)) =
      some workflow)
    (hs : firstByKey (fun s => s.WorkflowID) (db.workflowStates.filter
      (fun s => condID workflow.ID s.WorkflowID && condString updating.OriginName s.Name)) =
      some origin) :
    workflow ∈ db.workflows ∧ workflow.ID = id ∧ origin ∈ db.workflowStates ∧
      origin.WorkflowID = id ∧ origin.Name = updating.OriginName := by
  have hwm := firstByKey_mem _ _ _ hw
  rw [List.mem_filter, condID_iff hid] at hwm
  have hsm := firstByKey_mem _ _ _ hs
  have hwid : workflow.ID ≠ 0 := by rw [hwm.2]; exact hid
  rw [List.mem_filter, Bool.and_eq_true, condID_iff hwid, condString_iff ho] at hsm
  exact ⟨hwm.1, hwm.2, hsm.1, by rw [hsm.2.1, hwm.2], hsm.2.2⟩

end flow

namespace flow

open domain

theorem renameTransitions_eq_map (origin : WorkflowState) (name : String) (hname : name ≠ "")
    (rows : List WorkflowStateTransition) :
    renameTransitions origin name rows =
      rows.map (fun t =>
        { t with
          FromState :=
            if t.WorkflowID = origin.WorkflowID ∧ like origin.Name t.FromState = true then name
            else t.FromState
          ToState :=
            if t.WorkflowID = origin.WorkflowID ∧ like origin.Name t.ToState = true then name
            else t.ToState }) := by
  unfold renameTransitions updateWhere
  rw [List.map_map]
  apply List.map_congr_left
  intro t _
  by_cases hw : t.WorkflowID = origin.WorkflowID <;>
    by_cases h1 : like origin.Name t.FromState = true <;>
    by_cases h2 : like origin.Name t.ToState = true <;> simp [hw, h1, h2, hname] <;>
    (cases t; simp_all)

theorem renameWorks_eq_map (origin : WorkflowState) (name : String) (hname : name ≠ "")
    (rows : List Work) :
    renameWorks origin name rows =
      rows.map (fun w =>
        if w.FlowID = origin.WorkflowID ∧ like origin.Name w.StateName = true then
          { w with StateName := name, StateCategory := origin.Category }
        else w) := by
  unfold renameWorks updateWhere
  apply List.map_congr_left
  intro w _
  by_cases hw : w.FlowID = origin.WorkflowID <;>
    by_cases h1 : like origin.Name w.StateName = true <;> simp [hw, h1, hname]

theorem renameSteps_eq_map (origin : WorkflowState) (name : String) (hname : name ≠ "")
    (rows : List WorkProcessStep) :
    renameSteps origin name rows =
      rows.map (fun s =>
        { s with
          StateName :=
            if s.FlowID = origin.WorkflowID ∧ like origin.Name s.StateName = true then name
            else s.StateName
          StateCategory :=
            if s.FlowID = origin.WorkflowID ∧ like origin.Name s.StateName = true then
              origin.Category
            else s.StateCategory
          NextStateName :=
            if s.FlowID = origin.WorkflowID ∧ like origin.Name s.NextStateName = true then name
            else s.NextStateName
          NextStateCategory :=
            if s.FlowID = origin.WorkflowID ∧ like origin.Name s.NextStateName = true then
              some origin.Category
            else s.NextStateCategory }) := by
  unfold renameSteps updateWhere
  rw [List.map_map]
  apply List.map_congr_left
  intro s _
  by_cases hw : s.FlowID = origin.WorkflowID <;>
    by_cases h1 : like origin.Name s.StateName = true <;>
    by_cases h2 : like origin.Name s.NextStateName = true <;> simp [hw, h1, h2, hname] <;>
    (cases s; simp_all)

/-- A successful update to another name was given a non-empty name: an empty one is
answered with `ErrStateExisted`, the name check then matching the origin state. -/
theorem UpdateWorkflowState_name_ne_empty {db : Store} {updating : WorkflowStateUpdating}
    {workflow : Workflow} {origin : WorkflowState}
    (hne : updating.Name ≠ updating.OriginName)
    (horigin : origin ∈ db.workflowStates) (hwf : origin.WorkflowID = workflow.ID)
    (hex : ¬ (updating.OriginName ≠ updating.Name ∧
      (db.workflowStates.filter (fun s =>
        condID workflow.ID s.WorkflowID && condString updating.Name s.Name)) ≠ [])) :
    updating.Name ≠ "" := by
  intro hempty
  apply hex
  refine ⟨fun h => hne h.symm, ?_⟩
  intro hnil
  have : origin ∈ db.workflowStates.filter (fun s =>
      condID workflow.ID s.WorkflowID && condString updating.Name s.Name) := by
    rw [List.mem_filter]
    refine ⟨horigin, ?_⟩
    simp [condID, condString, hempty, hwf]
  rw [hnil] at this
  exact List.not_mem_nil _ this

/-- C15: after a successful `UpdateWorkflowState` of workflow `id` whose `Name` differs from
`OriginName`, no transition row of the workflow has `from_state` or `to_state` equal to
`OriginName`, no work row with that `flow_id` has `state_name` equal to it, and no process
step with that `flow_id` has `state_name` or `next_state_name` equal to it.  The id is
positive and `OriginName` non-empty, as it is bound. -/
theorem UpdateWorkflowState_leaves_no_origin_name
    (db db1 : Store) (id : types.ID) (updating : WorkflowStateUpdating)
    (sec : security.Context) (hid : id ≠ 0) (ho : updating.OriginName ≠ "")
    (hne : updating.Name ≠ updating.OriginName)
    (h : UpdateWorkflowState db id updating sec = (none, db1)) :
    (∀ t ∈ db1.workflowStateTransitions, t.WorkflowID = id →
      t.FromState ≠ updating.OriginName ∧ t.ToState ≠ updating.OriginName) ∧
    (∀ w ∈ db1.works, w.FlowID = id → w.StateName ≠ updating.OriginName) ∧
    (∀ s ∈ db1.workProcessSteps, s.FlowID = id →
      s.StateName ≠ updating.OriginName ∧ s.NextStateName ≠ updating.OriginName) := by
  obtain ⟨workflow, origin, hw, _, hs, hex, hdb⟩ := UpdateWorkflowState_ok h
  obtain ⟨_, hwid, horigin, howf, honame⟩ := UpdateWorkflowState_reads hid ho hw hs
  have hname : updating.Name ≠ "" :=
    UpdateWorkflowState_name_ne_empty hne horigin (by rw [howf, hwid]) hex
  have hdiff : origin.Name ≠ updating.Name := by rw [honame]; exact fun h => hne h.symm
  have hself : ∀ x : String, like origin.Name x = false → x ≠ updating.OriginName := by
    intro x hx hxo
    rw [hxo, ← honame, like_self] at hx
    exact Bool.noConfusion hx
  rw [hdb]
  unfold stateUpdated
  rw [if_pos hdiff]
  simp only
  rw [renameTransitions_eq_map _ _ hname, renameWorks_eq_map _ _ hname,
    renameSteps_eq_map _ _ hname]
  refine ⟨?_, ?_, ?_⟩
  · intro t1 ht1 hwf1
    rw [List.mem_map] at ht1
    obtain ⟨t, _, rfl⟩ := ht1
    simp only at hwf1 ⊢
    have hwt : t.WorkflowID = origin.WorkflowID := by rw [hwf1, howf]
    constructor
    · by_cases hl : like origin.Name t.FromState = true
      · simp [hwt, hl, hne]
      · simp only [hwt, hl, Bool.false_eq_true, and_false, if_false]
        exact hself _ (by simpa using hl)
    · by_cases hl : like origin.Name t.ToState = true
      · simp [hwt, hl, hne]
      · simp only [hwt, hl, Bool.false_eq_true, and_false, if_false]
        exact hself _ (by simpa using hl)
  · intro w1 hw1 hf1
    rw [List.mem_map] at hw1
    obtain ⟨w, _, rfl⟩ := hw1
    by_cases hc : w.FlowID = origin.WorkflowID ∧ like origin.Name w.StateName = true
    · simp [hc, hne]
    · rw [if_neg hc] at hf1 ⊢
      have hwt : w.FlowID = origin.WorkflowID := by rw [hf1, howf]
      exact hself _ (by simpa [hwt] using hc)
  · intro s1 hs1 hf1
    rw [List.mem_map] at hs1
    obtain ⟨s, _, rfl⟩ := hs1
    simp only at hf1 ⊢
    have hwt : s.FlowID = origin.WorkflowID := by rw [hf1, howf]
    constructor
    · by_cases hl : like origin.Name s.StateName = true
      · simp [hwt, hl, hne]
      · simp only [hwt, hl, Bool.false_eq_true, and_false, if_false]
        exact hself _ (by simpa using hl)
    · by_cases hl : like origin.Name s.NextStateName = true
      · simp [hwt, hl, hne]
      · simp only [hwt, hl, Bool.false_eq_true, and_false, if_false]
        exact hself _ (by simpa using hl)

/-- C15 at the seventh end-to-end scenario: `DOING → IN_PROGRESS` while work 7 is in
`DOING`. -/
theorem UpdateWorkflowState_leaves_no_origin_name_witness :
    (∀ t ∈ scenario.storeRenamed.workflowStateTransitions, t.WorkflowID = 10 →
      t.FromState ≠ scenario.renameDoing.OriginName ∧
        t.ToState ≠ scenario.renameDoing.OriginName) ∧
    (∀ w ∈ scenario.storeRenamed.works, w.FlowID = 10 →
      w.StateName ≠ scenario.renameDoing.OriginName) ∧
    (∀ s ∈ scenario.storeRenamed.workProcessSteps, s.FlowID = 10 →
      s.StateName ≠ scenario.renameDoing.OriginName ∧
        s.NextStateName ≠ scenario.renameDoing.OriginName) :=
  UpdateWorkflowState_leaves_no_origin_name scenario.store1 scenario.storeRenamed 10
    scenario.renameDoing scenario.sec1 (by decide) (by decide) (by decide) (by rfl)

end flow

namespace flow

open domain

/-- The frame of a rename whose origin name has no wildcard: a successful rename by
`UpdateWorkflowState` of workflow `id`, whose `OriginName` holds neither `%` nor `_`,
rewrites exactly the rows keyed on the old name:
every transition, work and process-step row is kept in place; a column `from_state`,
`to_state`, `state_name` or `next_state_name` of a row of the workflow becomes `Name` when
it equals `OriginName` and is kept otherwise, rows of other workflows are left as they
are; and the category beside a renamed `state_name` or `next_state_name` is set to the
category of the origin state. -/
theorem UpdateWorkflowState_renames_exactly
    (db db1 : Store) (id : types.ID) (updating : WorkflowStateUpdating)
    (sec : security.Context) (hid : id ≠ 0) (ho : updating.OriginName ≠ "")
    (hne : updating.Name ≠ updating.OriginName)
    (hplain : ∀ c ∈ updating.OriginName.toList, c ≠ '%' ∧ c ≠ '_')
    (h : UpdateWorkflowState db id updating sec = (none, db1)) :
    ∃ origin ∈ db.workflowStates, origin.WorkflowID = id ∧ origin.Name = updating.OriginName ∧
      db1.workflowStateTransitions = db.workflowStateTransitions.map (fun t =>
        { t with
          FromState :=
            if t.WorkflowID = id ∧ t.FromState = updating.OriginName then updating.Name
            else t.FromState
          ToState :=
            if t.WorkflowID = id ∧ t.ToState = updating.OriginName then updating.Name
            else t.ToState }) ∧
      db1.works = db.works.map (fun w =>
        if w.FlowID = id ∧ w.StateName = updating.OriginName then
          { w with StateName := updating.Name, StateCategory := origin.Category }
        else w) ∧
      db1.workProcessSteps = db.workProcessSteps.map (fun s =>
        { s with
          StateName :=
            if s.FlowID = id ∧ s.StateName = updating.OriginName then updating.Name
            else s.StateName
          StateCategory :=
            if s.FlowID = id ∧ s.StateName = updating.OriginName then origin.Category
            else s.StateCategory
          NextStateName :=
            if s.FlowID = id ∧ s.NextStateName = updating.OriginName then updating.Name
            else s.NextStateName
          NextStateCategory :=
            if s.FlowID = id ∧ s.NextStateName = updating.OriginName then some origin.Category
            else s.NextStateCategory }) := by
  obtain ⟨workflow, origin, hw, _, hs, hex, hdb⟩ := UpdateWorkflowState_ok h
  obtain ⟨_, hwid, horigin, howf, honame⟩ := UpdateWorkflowState_reads hid ho hw hs
  have hname : updating.Name ≠ "" :=
    UpdateWorkflowState_name_ne_empty hne horigin (by rw [howf, hwid]) hex
  have hdiff : origin.Name ≠ updating.Name := by rw [honame]; exact fun h => hne h.symm
  have hlike : ∀ x : String, like origin.Name x = true ↔ x = updating.OriginName := by
    intro x
    rw [honame]
    exact like_plain _ _ hplain
  refine ⟨origin, horigin, howf, honame, ?_, ?_, ?_⟩
  · rw [hdb]
    unfold stateUpdated
    rw [if_pos hdiff]
    simp only
    rw [renameTransitions_eq_map _ _ hname]
    apply List.map_congr_left
    intro t _
    simp only [hlike, howf]
  · rw [hdb]
    unfold stateUpdated
    rw [if_pos hdiff]
    simp only
    rw [renameWorks_eq_map _ _ hname]
    apply List.map_congr_left
    intro w _
    simp only [hlike, howf]
  · rw [hdb]
    unfold stateUpdated
    rw [if_pos hdiff]
    simp only
    rw [renameSteps_eq_map _ _ hname]
    apply List.map_congr_left
    intro s _
    simp only [hlike, howf]

/-- The frame of a rename at the seventh end-to-end scenario: `DOING → IN_PROGRESS`. -/
theorem UpdateWorkflowState_renames_exactly_witness :
    ∃ origin ∈ scenario.store1.workflowStates, origin.WorkflowID = 10 ∧
      origin.Name = scenario.renameDoing.OriginName ∧
      scenario.storeRenamed.workflowStateTransitions =
        scenario.store1.workflowStateTransitions.map (fun t =>
          { t with
            FromState :=
              if t.WorkflowID = 10 ∧ t.FromState = scenario.renameDoing.OriginName then
                scenario.renameDoing.Name
              else t.FromState
            ToState :=
              if t.WorkflowID = 10 ∧ t.ToState = scenario.renameDoing.OriginName then
                scenario.renameDoing.Name
              else t.ToState }) ∧
      scenario.storeRenamed.works = scenario.store1.works.map (fun w =>
        if w.FlowID = 10 ∧ w.StateName = scenario.renameDoing.OriginName then
          { w with StateName := scenario.renameDoing.Name, StateCategory := origin.Category }
        else w) ∧
      scenario.storeRenamed.workProcessSteps = scenario.store1.workProcessSteps.map (fun s =>
        { s with
          StateName :=
            if s.FlowID = 10 ∧ s.StateName = scenario.renameDoing.OriginName then
              scenario.renameDoing.Name
            else s.StateName
          StateCategory :=
            if s.FlowID = 10 ∧ s.StateName = scenario.renameDoing.OriginName then
              origin.Category
            else s.StateCategory
          NextStateName :=
            if s.FlowID = 10 ∧ s.NextStateName = scenario.renameDoing.OriginName then
              scenario.renameDoing.Name
            else s.NextStateName
          NextStateCategory :=
            if s.FlowID = 10 ∧ s.NextStateName = scenario.renameDoing.OriginName then
              some origin.Category
            else s.NextStateCategory }) :=
  UpdateWorkflowState_renames_exactly scenario.store1 scenario.storeRenamed 10
    scenario.renameDoing scenario.sec1 (by decide) (by decide) (by decide) (by decide)
    (by rfl)

/-- C16: the code at a store that `CreateState` reaches.  Workflow 10 is given the further
state `DO_NG` by `CreateState`; work 7 is in `DOING`.  The rename `DO_NG → REVIEW`
succeeds.  The state row is looked up by the exact name, so the state `DOING` is still a
state of the workflow; the referrers are matched with `LIKE`, in which `_` stands for any
character, so work 7, the transitions `PENDING → DOING` and `DOING → DONE` and the process
step of work 7 in `DOING`, none of which bears the name `DO_NG`, now bear `REVIEW`. -/
theorem UpdateWorkflowState_like_renames_other_rows :
    CreateState (scenario.envAt 250) scenario.store1 10 scenario.createUnderscore
        scenario.sec1 = (none, scenario.storeUnderscore) ∧
    UpdateWorkflowState scenario.storeUnderscore 10 scenario.renameUnderscore scenario.sec1 =
      (none, scenario.storeUnderscore1) ∧
    scenario.storeUnderscore.workflowStates.map (fun s => (s.WorkflowID, s.Name)) =
      [(10, "PENDING"), (10, "DOING"), (10, "DONE"), (10, "DO_NG")] ∧
    scenario.storeUnderscore1.workflowStates.map (fun s => (s.WorkflowID, s.Name)) =
      [(10, "PENDING"), (10, "DOING"), (10, "DONE"), (10, "REVIEW")] ∧
    scenario.storeUnderscore.works.map (fun w => (w.ID, w.FlowID, w.StateName)) =
      [(7, 10, "DOING")] ∧
    scenario.storeUnderscore1.works.map (fun w => (w.ID, w.FlowID, w.StateName)) =
      [(7, 10, "REVIEW")] ∧
    scenario.storeUnderscore.workflowStateTransitions.map
        (fun t => (t.WorkflowID, t.FromState, t.ToState)) =
      [(10, "PENDING", "DOING"), (10, "DOING", "DONE")] ∧
    scenario.storeUnderscore1.workflowStateTransitions.map
        (fun t => (t.WorkflowID, t.FromState, t.ToState)) =
      [(10, "PENDING", "REVIEW"), (10, "REVIEW", "DONE")] ∧
    scenario.storeUnderscore.workProcessSteps.map
        (fun s => (s.WorkID, s.FlowID, s.StateName, s.BeginTime)) =
      [(7, 10, "PENDING", 100), (7, 10, "DOING", 200)] ∧
    scenario.storeUnderscore1.workProcessSteps.map
        (fun s => (s.WorkID, s.FlowID, s.StateName, s.BeginTime)) =
      [(7, 10, "PENDING", 100), (7, 10, "REVIEW", 200)] := by
  refine ⟨by rfl, by rfl, by decide, by decide, by decide, by decide, by decide, by decide,
    by decide, by decide⟩

/-- C17: for a workflow of positive id, a session that is manager of its project and an
existing origin state: when `Name` differs from `OriginName` and a state called `Name`
exists in the workflow, `UpdateWorkflowState` fails with `ErrStateExisted` and the store
is the one it was given, so every state, transition, work and process-step row is
unchanged. -/
theorem UpdateWorkflowState_name_taken
    (db : Store) (id : types.ID) (updating : WorkflowStateUpdating) (sec : security.Context)
    (hid : id ≠ 0)
    (hwf : ∃ w ∈ db.workflows, w.ID = id)
    (hrole : ∀ w ∈ db.workflows, w.ID = id →
      sec.HasRoleSuffix (ProjectRoleManager ++ "_" ++ types.ID.String w.ProjectID) = true)
    (horigin : ∃ s ∈ db.workflowStates, s.WorkflowID = id ∧ s.Name = updating.OriginName)
    (hne : updating.Name ≠ updating.OriginName)
    (htaken : ∃ s ∈ db.workflowStates, s.WorkflowID = id ∧ s.Name = updating.Name) :
    UpdateWorkflowState db id updating sec = (some .ErrStateExisted, db) := by
  obtain ⟨w0, hw0, hw0id⟩ := hwf
  obtain ⟨workflow, hw⟩ := firstByKey_of_mem (fun w => w.ID)
    (List.mem_filter.2 ⟨hw0, (condID_iff hid).2 hw0id⟩ :
      w0 ∈ db.workflows.filter (fun w => condID id w.ID))
  have hwm := firstByKey_mem _ _ _ hw
  rw [List.mem_filter, condID_iff hid] at hwm
  have hwid : workflow.ID ≠ 0 := by rw [hwm.2]; exact hid
  obtain ⟨s0, hs0, hs0w, hs0n⟩ := horigin
  obtain ⟨origin, hs⟩ := firstByKey_of_mem (fun s => s.WorkflowID)
    (List.mem_filter.2 ⟨hs0, by simp [condID, condString, hs0w, hs0n, hwm.2]⟩ :
      s0 ∈ db.workflowStates.filter
        (fun s => condID workflow.ID s.WorkflowID && condString updating.OriginName s.Name))
  obtain ⟨s1, hs1, hs1w, hs1n⟩ := htaken
  have hex : (db.workflowStates.filter (fun s =>
      condID workflow.ID s.WorkflowID && condString updating.Name s.Name)) ≠ [] := by
    intro hnil
    have : s1 ∈ db.workflowStates.filter (fun s =>
        condID workflow.ID s.WorkflowID && condString updating.Name s.Name) :=
      List.mem_filter.2 ⟨hs1, by simp [condID, condString, hs1w, hs1n, hwm.2]⟩
    rw [hnil] at this
    exact List.not_mem_nil _ this
  unfold UpdateWorkflowState Transaction updateStateTx
  rw [hw]
  simp only [hrole workflow hwm.1 hwm.2, Bool.not_true, Bool.false_eq_true, if_false, hs]
  rw [if_pos ⟨fun h => hne h.symm, hex⟩]

/-- C17 at the scenario of the tests: the rename `DOING → DONE` in workflow 10. -/
theorem UpdateWorkflowState_name_taken_witness :
    UpdateWorkflowState scenario.store0 10 scenario.renameOntoDone scenario.sec1 =
      (some .ErrStateExisted, scenario.store0) :=
  UpdateWorkflowState_name_taken scenario.store0 10 scenario.renameOntoDone scenario.sec1
    (by decide) (by decide) (by decide) (by decide) (by decide) (by decide)

/-- C18, amended: for a workflow of positive id, a session that is manager of its project
and an existing state `s`, `UpdateWorkflowState` with `Name = OriginName` the name of `s`
succeeds; the store it leaves differs from the one it was given in the state table only,
so every transition, work and process-step row is unchanged; the state table holds the
rows of the other names as they were, and for that name one row, re-inserted behind them,
with the name and the category of `s`, the given order, and as its creation time the
creation time of the workflow. -/
theorem UpdateWorkflowState_same_name
    (db : Store) (id : types.ID) (updating : WorkflowStateUpdating) (sec : security.Context)
    (hid : id ≠ 0) (ho : updating.OriginName ≠ "")
    (hsame : updating.Name = updating.OriginName)
    (hwf : ∃ w ∈ db.workflows, w.ID = id)
    (hrole : ∀ w ∈ db.workflows, w.ID = id →
      sec.HasRoleSuffix (ProjectRoleManager ++ "_" ++ types.ID.String w.ProjectID) = true)
    (horigin : ∃ s ∈ db.workflowStates, s.WorkflowID = id ∧ s.Name = updating.OriginName) :
    ∃ workflow ∈ db.workflows, ∃ s ∈ db.workflowStates,
      workflow.ID = id ∧ s.WorkflowID = id ∧ s.Name = updating.OriginName ∧
      UpdateWorkflowState db id updating sec =
        (none,
         { db with
           workflowStates :=
             db.workflowStates.filter
                 (fun x => !(decide (x.WorkflowID = id) && decide (x.Name = updating.OriginName))) ++
               [{ s with Order := updating.Order, CreateTime := workflow.CreateTime }] }) := by
  obtain ⟨w0, hw0, hw0id⟩ := hwf
  obtain ⟨workflow, hw⟩ := firstByKey_of_mem (fun w => w.ID)
    (List.mem_filter.2 ⟨hw0, (condID_iff hid).2 hw0id⟩ :
      w0 ∈ db.workflows.filter (fun w => condID id w.ID))
  obtain ⟨s0, hs0, hs0w, hs0n⟩ := horigin
  have hwm := firstByKey_mem _ _ _ hw
  rw [List.mem_filter, condID_iff hid] at hwm
  obtain ⟨origin, hs⟩ := firstByKey_of_mem (fun s => s.WorkflowID)
    (List.mem_filter.2 ⟨hs0, by simp [condID, condString, hs0w, hs0n, hwm.2]⟩ :
      s0 ∈ db.workflowStates.filter
        (fun s => condID workflow.ID s.WorkflowID && condString updating.OriginName s.Name))
  obtain ⟨_, hwid, hom, howf, honame⟩ := UpdateWorkflowState_reads hid ho hw hs
  refine ⟨workflow, hwm.1, origin, hom, hwid, howf, honame, ?_⟩
  unfold UpdateWorkflowState Transaction updateStateTx
  rw [hw]
  simp only [hrole workflow hwm.1 hwm.2, Bool.not_true, Bool.false_eq_true, if_false, hs]
  rw [if_neg (fun hh => hh.1 hsame.symm)]
  unfold stateUpdated
  rw [if_neg (by rw [honame, hsame]; exact fun hh => hh rfl)]
  simp only [replaceState, deleteState, deleteWhere]
  congr 3
  · apply List.filter_congr
    intro x _
    simp [howf, honame, hid]
  · cases origin
    simp_all

/-- C18, amended, at a state that `CreateState` added: `REVIEW`, created at instant 250 in
workflow 10 (itself created at instant 5), keeps its name and gets the order 7. -/
theorem UpdateWorkflowState_same_name_witness :
    ∃ workflow ∈ scenario.storeReview.workflows, ∃ s ∈ scenario.storeReview.workflowStates,
      workflow.ID = 10 ∧ s.WorkflowID = 10 ∧ s.Name = scenario.reorderReview.OriginName ∧
      UpdateWorkflowState scenario.storeReview 10 scenario.reorderReview scenario.sec1 =
        (none,
         { scenario.storeReview with
           workflowStates :=
             scenario.storeReview.workflowStates.filter
                 (fun x => !(decide (x.WorkflowID = 10) &&
                   decide (x.Name = scenario.reorderReview.OriginName))) ++
               [{ s with Order := scenario.reorderReview.Order,
                         CreateTime := workflow.CreateTime }] }) :=
  UpdateWorkflowState_same_name scenario.storeReview 10 scenario.reorderReview scenario.sec1
    (by decide) (by decide) (by rfl) (by decide) (by decide) (by decide)

/-- C18 as stated fails: not only the order of the state is set.  The state `REVIEW` is
added to workflow 10 by `CreateState` at instant 250 and bears that creation time; the
update with `name = originName = REVIEW` and the order 7 succeeds, and the row of `REVIEW`
then has the order 7 and the creation time 5, the creation time of the workflow. -/
theorem UpdateWorkflowState_same_name_resets_create_time :
    CreateState (scenario.envAt 250) scenario.store1 10 scenario.createReview scenario.sec1 =
      (none, scenario.storeReview) ∧
    (scenario.storeReview.workflowStates.filter (fun s => decide (s.Name = "REVIEW"))).map
        (fun s => (s.WorkflowID, s.Name, s.Category, s.Order, s.CreateTime)) =
      [(10, "REVIEW", state.Category.InProcess, 10004, 250)] ∧
    (UpdateWorkflowState scenario.storeReview 10 scenario.reorderReview scenario.sec1).1 =
      none ∧
    ((UpdateWorkflowState scenario.storeReview 10 scenario.reorderReview
          scenario.sec1).2.workflowStates.filter (fun s => decide (s.Name = "REVIEW"))).map
        (fun s => (s.WorkflowID, s.Name, s.Category, s.Order, s.CreateTime)) =
      [(10, "REVIEW", state.Category.InProcess, 7, 5)] := by
  refine ⟨by rfl, by decide, by decide, by decide⟩

end flow

/-! ## The workflow manager: deletion and state orders -/

namespace flow

open domain

/-- For a positive id, `isWorkflowReferenced` answers `ErrWorkflowIsReferenced` when some
work item or some process step has the workflow as its flow, and nothing otherwise. -/
theorem isWorkflowReferenced_eq (db : Store) (id : types.ID) (hid : id ≠ 0) :
    ((∃ w ∈ db.works, w.FlowID = id) ∨ (∃ s ∈ db.workProcessSteps, s.FlowID = id) →
      isWorkflowReferenced db id = some .ErrWorkflowIsReferenced) ∧
    (¬ ((∃ w ∈ db.works, w.FlowID = id) ∨ (∃ s ∈ db.workProcessSteps, s.FlowID = id)) →
      isWorkflowReferenced db id = none) := by
  unfold isWorkflowReferenced
  constructor
  · intro href
    cases hw : firstByKey (fun w => w.ID) (db.works.filter (fun w => condID id w.FlowID)) with
    | some w => rfl
    | none =>
      simp only
      cases hs : firstByKey (fun s => s.WorkID)
          (db.workProcessSteps.filter (fun s => condID id s.FlowID)) with
      | some s => rfl
      | none =>
        exfalso
        have hwnil := firstByKey_eq_none _ _ hw
        have hsnil := firstByKey_eq_none _ _ hs
        rcases href with ⟨w, hwm, hwf⟩ | ⟨s, hsm, hsf⟩
        · have : w ∈ db.works.filter (fun w => condID id w.FlowID) :=
            List.mem_filter.2 ⟨hwm, (condID_iff hid).2 hwf⟩
          rw [hwnil] at this
          exact List.not_mem_nil _ this
        · have : s ∈ db.workProcessSteps.filter (fun s => condID id s.FlowID) :=
            List.mem_filter.2 ⟨hsm, (condID_iff hid).2 hsf⟩
          rw [hsnil] at this
          exact List.not_mem_nil _ this
  · intro hnot
    cases hw : firstByKey (fun w => w.ID) (db.works.filter (fun w => condID id w.FlowID)) with
    | some w =>
      exfalso
      have hm := firstByKey_mem _ _ _ hw
      rw [List.mem_filter, condID_iff hid] at hm
      exact hnot (Or.inl ⟨w, hm.1, hm.2⟩)
    | none =>
      simp only
      cases hs : firstByKey (fun s => s.WorkID)
          (db.workProcessSteps.filter (fun s => condID id s.FlowID)) with
      | some s =>
        exfalso
        have hm := firstByKey_mem _ _ _ hs
        rw [List.mem_filter, condID_iff hid] at hm
        exact hnot (Or.inr ⟨s, hm.1, hm.2⟩)
      | none => rfl

/-- C19: for an existing workflow of positive id and a session that is manager of its
project, `DeleteWorkflow` fails with `ErrWorkflowIsReferenced` exactly when some work row
or some process-step row has `flow_id` equal to the workflow id; in that case the store is
the one it was given, so the workflow, its states and its transitions are present and
unchanged; otherwise the deletion succeeds. -/
theorem DeleteWorkflow_referenced
    (db : Store) (id : types.ID) (sec : security.Context) (hid : id ≠ 0)
    (hwf : ∃ w ∈ db.workflows, w.ID = id)
    (hrole : ∀ w ∈ db.workflows, w.ID = id →
      sec.HasRoleSuffix (ProjectRoleManager ++ "_" ++ types.ID.String w.ProjectID) = true) :
    ((DeleteWorkflow db id sec).1 = some .ErrWorkflowIsReferenced ↔
      ((∃ w ∈ db.works, w.FlowID = id) ∨ (∃ s ∈ db.workProcessSteps, s.FlowID = id))) ∧
    ((∃ w ∈ db.works, w.FlowID = id) ∨ (∃ s ∈ db.workProcessSteps, s.FlowID = id) →
      DeleteWorkflow db id sec = (some .ErrWorkflowIsReferenced, db)) ∧
    (¬ ((∃ w ∈ db.works, w.FlowID = id) ∨ (∃ s ∈ db.workProcessSteps, s.FlowID = id)) →
      (DeleteWorkflow db id sec).1 = none) := by
  obtain ⟨w0, hw0, hw0id⟩ := hwf
  obtain ⟨wf, hw⟩ := firstByKey_of_mem (fun w => w.ID)
    (List.mem_filter.2 ⟨hw0, (condID_iff hid).2 hw0id⟩ :
      w0 ∈ db.workflows.filter (fun w => condID id w.ID))
  have hwm := firstByKey_mem _ _ _ hw
  rw [List.mem_filter, condID_iff hid] at hwm
  have href := isWorkflowReferenced_eq db id hid
  have hyes : (∃ w ∈ db.works, w.FlowID = id) ∨ (∃ s ∈ db.workProcessSteps, s.FlowID = id) →
      DeleteWorkflow db id sec = (some .ErrWorkflowIsReferenced, db) := by
    intro hr
    unfold DeleteWorkflow Transaction
    dsimp only
    rw [hw]
    simp only [hrole wf hwm.1 hwm.2, Bool.not_true, Bool.false_eq_true, if_false, hwm.2,
      href.1 hr]
  have hno : ¬ ((∃ w ∈ db.works, w.FlowID = id) ∨ (∃ s ∈ db.workProcessSteps, s.FlowID = id)) →
      (DeleteWorkflow db id sec).1 = none := by
    intro hr
    unfold DeleteWorkflow Transaction
    dsimp only
    rw [hw]
    simp only [hrole wf hwm.1 hwm.2, Bool.not_true, Bool.false_eq_true, if_false, hwm.2,
      href.2 hr]
  refine ⟨⟨?_, fun hr => by rw [hyes hr]⟩, hyes, hno⟩
  intro herr
  by_contra hr
  rw [hno hr] at herr
  exact Option.noConfusion herr

/-- C19 at the eighth end-to-end scenario: workflow 10 is the flow of work 7. -/
theorem DeleteWorkflow_referenced_witness :
    ((DeleteWorkflow scenario.store0 10 scenario.sec1).1 = some .ErrWorkflowIsReferenced ↔
      ((∃ w ∈ scenario.store0.works, w.FlowID = 10) ∨
        (∃ s ∈ scenario.store0.workProcessSteps, s.FlowID = 10))) ∧
    ((∃ w ∈ scenario.store0.works, w.FlowID = 10) ∨
        (∃ s ∈ scenario.store0.workProcessSteps, s.FlowID = 10) →
      DeleteWorkflow scenario.store0 10 scenario.sec1 =
        (some .ErrWorkflowIsReferenced, scenario.store0)) ∧
    (¬ ((∃ w ∈ scenario.store0.works, w.FlowID = 10) ∨
        (∃ s ∈ scenario.store0.workProcessSteps, s.FlowID = 10)) →
      (DeleteWorkflow scenario.store0 10 scenario.sec1).1 = none) :=
  DeleteWorkflow_referenced scenario.store0 10 scenario.sec1 (by decide) (by decide)
    (by decide)

theorem filter_key_length {α κ : Type} [DecidableEq κ] (key : α → κ) :
    ∀ (rows : List α), (rows.map key).Nodup → ∀ k, k ∈ rows.map key →
      (rows.filter (fun s => decide (key s = k))).length = 1
  | [], _, k, hk => by simp at hk
  | a :: l, hnd, k, hk => by
    rw [List.map_cons, List.nodup_cons] at hnd
    by_cases ha : key a = k
    · have hnil : l.filter (fun s => decide (key s = k)) = [] := by
        rw [List.filter_eq_nil_iff]
        intro s hs hsk
        apply hnd.1
        rw [ha, ← of_decide_eq_true hsk]
        exact List.mem_map_of_mem _ hs
      simp [List.filter_cons, ha, hnil]
    · have hk1 : k ∈ l.map key := by
        rw [List.map_cons, List.mem_cons] at hk
        rcases hk with hk | hk
        · exact absurd hk.symm ha
        · exact hk
      simp [List.filter_cons, ha, filter_key_length key l hnd.2 k hk1]

theorem orderAfter_cons (u : StateOrderRangeUpdating) (rest : List StateOrderRangeUpdating)
    (name : String) (order : Int) :
    orderAfter (u :: rest) name order =
      orderAfter rest name (if u.State = name then u.NewOlder else order) := by
  simp [orderAfter]

theorem changesOrder_cons (u : StateOrderRangeUpdating) (rest : List StateOrderRangeUpdating)
    (name : String) (order : Int) :
    changesOrder (u :: rest) name order =
      if u.State = name then decide (u.NewOlder ≠ order) && changesOrder rest name u.NewOlder
      else changesOrder rest name order := rfl

/-- The loop over the entries, when `(workflow_id, name)` is a key of the state table,
every entry names a state of the workflow and, unless the connection counts the rows an
update matched, every entry changes the order of its state: it succeeds and each state of
the workflow ends with the order of the last entry naming it. -/
theorem updateOrders_ok (foundRows : Bool) (id : types.ID) (hid : id ≠ 0) :
    ∀ (entries : List StateOrderRangeUpdating) (rows : List WorkflowState),
      (rows.map (fun s => (s.WorkflowID, s.Name))).Nodup →
      (∀ u ∈ entries, u.State ≠ "" ∧ (id, u.State) ∈ rows.map (fun s => (s.WorkflowID, s.Name))) →
      (foundRows = true ∨
        ∀ s ∈ rows, s.WorkflowID = id → changesOrder entries s.Name s.Order = true) →
      updateOrders foundRows id entries rows =
        .ok (rows.map (fun s =>
          if s.WorkflowID = id then { s with Order := orderAfter entries s.Name s.Order }
          else s))
  | [], rows, _, _, _ => by
    unfold updateOrders
    congr 1
    conv_lhs => rw [← List.map_id rows]
    apply List.map_congr_left
    intro s _
    simp only [orderAfter, List.foldl_nil, id_eq]
    split_ifs <;> rfl
  | u :: rest, rows, hnd, hall, hcount => by
    obtain ⟨hu, hmem⟩ := hall u (List.mem_cons_self _ _)
    have hcond : ∀ s : WorkflowState,
        (condID id s.WorkflowID && condString u.State s.Name) =
          decide ((s.WorkflowID, s.Name) = (id, u.State)) := by
      intro s
      by_cases h1 : s.WorkflowID = id <;> by_cases h2 : s.Name = u.State <;>
        simp [condID, condString, hid, hu, h1, h2]
    have hmatched : rowsAffected
        (fun s => condID id s.WorkflowID && condString u.State s.Name) rows = 1 := by
      unfold rowsAffected
      rw [List.filter_congr (fun s _ => hcond s)]
      exact filter_key_length (fun s : WorkflowState => (s.WorkflowID, s.Name)) rows hnd _ hmem
    have hrows : rowsAffectedBy foundRows
        (fun s => condID id s.WorkflowID && condString u.State s.Name)
        (fun s => { s with Order := u.NewOlder }) rows = 1 := by
      unfold rowsAffectedBy
      split_ifs with hfound
      · exact hmatched
      · rcases hcount with hcount | hcount
        · exact absurd hcount hfound
        · rw [← hmatched]
          unfold rowsAffected
          congr 1
          apply List.filter_congr
          intro s hs
          by_cases hc : (condID id s.WorkflowID && condString u.State s.Name) = true
          · have hkey := hc
            rw [hcond, decide_eq_true_eq, Prod.mk.injEq] at hkey
            have hch := hcount s hs hkey.1
            rw [changesOrder_cons, if_pos hkey.2.symm, Bool.and_eq_true,
              decide_eq_true_eq] at hch
            have hne : ({ s with Order := u.NewOlder } : WorkflowState) ≠ s := by
              intro heq
              exact hch.1 (congrArg WorkflowState.Order heq)
            simp [hc, hne]
          · simp [hc]
    have hkeys : (updateWhere (fun s => condID id s.WorkflowID && condString u.State s.Name)
        (fun s => { s with Order := u.NewOlder }) rows).map (fun s => (s.WorkflowID, s.Name)) =
          rows.map (fun s => (s.WorkflowID, s.Name)) := by
      unfold updateWhere
      rw [List.map_map]
      apply List.map_congr_left
      intro s _
      simp only [Function.comp]
      split_ifs <;> rfl
    have hrest : foundRows = true ∨
        ∀ s ∈ updateWhere (fun s => condID id s.WorkflowID && condString u.State s.Name)
            (fun s => { s with Order := u.NewOlder }) rows,
          s.WorkflowID = id → changesOrder rest s.Name s.Order = true := by
      rcases hcount with hcount | hcount
      · exact Or.inl hcount
      · right
        intro s1 hs1 hs1w
        rw [mem_updateWhere] at hs1
        obtain ⟨s, hs, rfl⟩ := hs1
        by_cases hc : (condID id s.WorkflowID && condString u.State s.Name) = true
        · have hkey := hc
          rw [hcond, decide_eq_true_eq, Prod.mk.injEq] at hkey
          have hch := hcount s hs hkey.1
          rw [changesOrder_cons, if_pos hkey.2.symm, Bool.and_eq_true] at hch
          simp only [hc, if_true]
          exact hch.2
        · simp only [hc, Bool.false_eq_true, if_false] at hs1w ⊢
          have hch := hcount s hs hs1w
          have hname : ¬ u.State = s.Name := by
            intro hn
            apply hc
            rw [hcond, decide_eq_true_eq, hs1w, hn]
          rw [changesOrder_cons, if_neg hname] at hch
          exact hch
    unfold updateOrders
    rw [if_neg (by rw [hrows]; exact fun h => h rfl)]
    rw [updateOrders_ok foundRows id hid rest _ (by rw [hkeys]; exact hnd)
      (fun v hv => by rw [hkeys]; exact hall v (List.mem_cons_of_mem _ hv)) hrest]
    congr 1
    unfold updateWhere
    rw [List.map_map]
    apply List.map_congr_left
    intro s _
    simp only [Function.comp, orderAfter_cons]
    by_cases h1 : s.WorkflowID = id
    · by_cases h2 : s.Name = u.State
      · have hc : (condID id s.WorkflowID && condString u.State s.Name) = true := by
          rw [hcond, h1, h2]; simp
        simp only [hc, if_true]
        simp only [h1, h2, if_true]
      · have hc : (condID id s.WorkflowID && condString u.State s.Name) = false := by
          rw [hcond]; simp [h1, h2]
        have h3 : ¬ u.State = s.Name := fun h => h2 h.symm
        simp only [hc, Bool.false_eq_true, if_false]
        simp only [h1, if_true, h3, if_false]
    · have hc : (condID id s.WorkflowID && condString u.State s.Name) = false := by
        rw [hcond]; simp [h1]
      simp only [hc, Bool.false_eq_true, if_false]
      simp only [h1, if_false]

end flow

namespace flow

open domain

theorem orderAfter_unnamed :
    ∀ (entries : List StateOrderRangeUpdating) (name : String) (order : Int),
      (∀ u ∈ entries, u.State ≠ name) → orderAfter entries name order = order
  | [], _, _, _ => rfl
  | u :: rest, name, order, h => by
    rw [orderAfter_cons, if_neg (h u (List.mem_cons_self _ _))]
    exact orderAfter_unnamed rest name order (fun v hv => h v (List.mem_cons_of_mem _ hv))

theorem orderAfter_last (pre post : List StateOrderRangeUpdating) (u : StateOrderRangeUpdating)
    (order : Int) (hpost : ∀ v ∈ post, v.State ≠ u.State) :
    orderAfter (pre ++ u :: post) u.State order = u.NewOlder := by
  unfold orderAfter
  rw [List.foldl_append, List.foldl_cons, if_pos rfl]
  exact orderAfter_unnamed post u.State u.NewOlder hpost

/-- C20, amended: for an existing workflow of positive id, a session holding a role on its
project and a non-empty list of order updates each naming an existing state of the
workflow (state rows being keyed by workflow and name), on a connection that counts the
rows an update matched, or else when every entry changes the order its state holds at
that moment, `UpdateStateRangeOrders` succeeds and changes nothing but the orders of the
states of the workflow: each named state ends with the `newOrder` of the last entry naming
it (its own entry when no later entry names the same state), the states no entry names
keep their orders, and names and categories are as before. -/
theorem UpdateStateRangeOrders_sets_orders
    (env : Env) (db : Store) (id : types.ID) (entries : List StateOrderRangeUpdating)
    (sec : security.Context) (hid : id ≠ 0)
    (hwf : ∃ w ∈ db.workflows, w.ID = id)
    (hrole : ∀ w ∈ db.workflows, w.ID = id →
      sec.HasRoleSuffix ("_" ++ types.ID.String w.ProjectID) = true)
    (hne : entries ≠ [])
    (hkey : (db.workflowStates.map (fun s => (s.WorkflowID, s.Name))).Nodup)
    (hall : ∀ u ∈ entries, u.State ≠ "" ∧
      ∃ s ∈ db.workflowStates, s.WorkflowID = id ∧ s.Name = u.State)
    (hcount : env.foundRows = true ∨
      ∀ s ∈ db.workflowStates, s.WorkflowID = id →
        changesOrder entries s.Name s.Order = true) :
    UpdateStateRangeOrders env db id entries sec =
      (none,
       { db with
         workflowStates := db.workflowStates.map (fun s =>
           if s.WorkflowID = id then { s with Order := orderAfter entries s.Name s.Order }
           else s) }) ∧
    (∀ (pre post : List StateOrderRangeUpdating) (u : StateOrderRangeUpdating) (order : Int),
      entries = pre ++ u :: post → (∀ v ∈ post, v.State ≠ u.State) →
        orderAfter entries u.State order = u.NewOlder) ∧
    (∀ (name : String) (order : Int), (∀ u ∈ entries, u.State ≠ name) →
      orderAfter entries name order = order) := by
  refine ⟨?_, ?_, fun name order h => orderAfter_unnamed entries name order h⟩
  · obtain ⟨w0, hw0, hw0id⟩ := hwf
    obtain ⟨wf, hw⟩ := firstByKey_of_mem (fun w => w.ID)
      (List.mem_filter.2 ⟨hw0, (condID_iff hid).2 hw0id⟩ :
        w0 ∈ db.workflows.filter (fun w => condID id w.ID))
    have hwm := firstByKey_mem _ _ _ hw
    rw [List.mem_filter, condID_iff hid] at hwm
    have hperm : checkPerms db id sec = none := by
      unfold checkPerms
      rw [hw]
      simp only [hrole wf hwm.1 hwm.2, Bool.not_true, Bool.false_eq_true, if_false]
    have hlen : ¬ entries.length = 0 := by
      intro h0
      exact hne (List.length_eq_zero.1 h0)
    have hloop := updateOrders_ok env.foundRows id hid entries db.workflowStates hkey
      (fun u hu => by
        obtain ⟨hu1, s, hs, hsw, hsn⟩ := hall u hu
        exact ⟨hu1, List.mem_map.2 ⟨s, hs, by rw [hsw, hsn]⟩⟩) hcount
    unfold UpdateStateRangeOrders Transaction
    rw [if_neg hlen]
    dsimp only
    rw [hperm]
    dsimp only
    rw [hloop]
  · intro pre post u order hsplit hpost
    rw [hsplit]
    exact orderAfter_last pre post u order hpost

/-- C20, amended, at the scenario of the tests, on a connection that counts changed rows:
`PENDING` gets the order 1 and then the order 2, each entry changing the order it
finds. -/
theorem UpdateStateRangeOrders_sets_orders_witness :
    UpdateStateRangeOrders (scenario.envAt 0) scenario.store0 10 scenario.ordersTwice
        scenario.sec1 =
      (none,
       { scenario.store0 with
         workflowStates := scenario.store0.workflowStates.map (fun s =>
           if s.WorkflowID = 10 then
             { s with Order := orderAfter scenario.ordersTwice s.Name s.Order }
           else s) }) ∧
    (∀ (pre post : List StateOrderRangeUpdating) (u : StateOrderRangeUpdating) (order : Int),
      scenario.ordersTwice = pre ++ u :: post → (∀ v ∈ post, v.State ≠ u.State) →
        orderAfter scenario.ordersTwice u.State order = u.NewOlder) ∧
    (∀ (name : String) (order : Int), (∀ u ∈ scenario.ordersTwice, u.State ≠ name) →
      orderAfter scenario.ordersTwice name order = order) :=
  UpdateStateRangeOrders_sets_orders (scenario.envAt 0) scenario.store0 10
    scenario.ordersTwice scenario.sec1
    (by decide) (by decide) (by decide) (by decide) (by decide) (by decide)
    (Or.inr (by decide))

/-- C20 as stated fails, however the connection counts affected rows: both entries of the
list name the existing state `PENDING` of workflow 10, the first with `newOrder = 1`, the
second with `newOrder = 2`; the call succeeds and `PENDING` has the order 2, not the
`newOrder` of the first entry. -/
theorem UpdateStateRangeOrders_last_entry_wins :
    (∀ u ∈ scenario.ordersTwice,
      ∃ s ∈ scenario.store0.workflowStates, s.WorkflowID = 10 ∧ s.Name = u.State) ∧
    UpdateStateRangeOrders (scenario.envAt 0) scenario.store0 10 scenario.ordersTwice
        scenario.sec1 = (none, scenario.storeOrdersTwice) ∧
    UpdateStateRangeOrders (scenario.envFound 0) scenario.store0 10 scenario.ordersTwice
        scenario.sec1 = (none, scenario.storeOrdersTwice) ∧
    scenario.storeOrdersTwice.workflowStates.map (fun s => (s.WorkflowID, s.Name, s.Order)) =
      [(10, "PENDING", 2), (10, "DOING", 10002), (10, "DONE", 10003)] ∧
    ∃ u ∈ scenario.ordersTwice, ∃ s ∈ scenario.storeOrdersTwice.workflowStates,
      s.WorkflowID = 10 ∧ s.Name = u.State ∧ s.Order ≠ u.NewOlder := by
  refine ⟨by decide, by rfl, by rfl, by decide, by decide⟩

/-- An entry that gives a state the order it holds already: on a connection that counts
the rows an update matched the call succeeds and the order stays; on a connection that
counts the rows an update changed it is answered with the affected-row mismatch and the
store is as it was. -/
theorem UpdateStateRangeOrders_same_order :
    UpdateStateRangeOrders (scenario.envFound 0) scenario.store0 10 scenario.ordersPlain
        scenario.sec1 =
      (none,
       { scenario.store0 with
         workflowStates := scenario.store0.workflowStates.map (fun s =>
           if s.WorkflowID = 10 then
             { s with Order := orderAfter scenario.ordersPlain s.Name s.Order }
           else s) }) ∧
    UpdateStateRangeOrders (scenario.envAt 0) scenario.store0 10 scenario.ordersPlain
        scenario.sec1 =
      (some (.Message "expected affected row is 1, but actual is 0"), scenario.store0) := by
  refine ⟨by rfl, by rfl⟩

end flow

/-! ## The workflow manager: creation of a resolved state machine -/

namespace flow

open domain

theorem stampOrdersFrom_map_name (k : Nat) :
    ∀ (states : List state.State),
      (stampOrdersFrom k states).map (fun s => s.Name) = states.map (fun s => s.Name)
  | [] => rfl
  | s :: rest => by simp [stampOrdersFrom, stampOrdersFrom_map_name (k + 1) rest]

theorem stampOrdersFrom_lower (k : Nat) :
    ∀ (states : List state.State), ∀ s ∈ stampOrdersFrom k states,
      ((10000 + k + 1 : Nat) : Int) ≤ s.Order
  | [], s, hs => by simp [stampOrdersFrom] at hs
  | a :: rest, s, hs => by
    simp only [stampOrdersFrom, List.mem_cons] at hs
    rcases hs with hs | hs
    · rw [hs]
    · have := stampOrdersFrom_lower (k + 1) rest s hs
      have h2 : ((10000 + k + 1 : Nat) : Int) ≤ ((10000 + (k + 1) + 1 : Nat) : Int) := by
        exact_mod_cast (by omega : 10000 + k + 1 ≤ 10000 + (k + 1) + 1)
      exact le_trans h2 this

theorem stampOrdersFrom_sorted (workflow : Workflow) (k : Nat) :
    ∀ (states : List state.State),
      ((stampOrdersFrom k states).map (stateEntity workflow)).Sorted
        (fun a b => a.Order ≤ b.Order)
  | [] => List.sorted_nil
  | a :: rest => by
    simp only [stampOrdersFrom, List.map_cons, List.sorted_cons]
    refine ⟨?_, stampOrdersFrom_sorted workflow (k + 1) rest⟩
    intro b hb
    rw [List.mem_map] at hb
    obtain ⟨s, hs, rfl⟩ := hb
    have := stampOrdersFrom_lower (k + 1) rest s hs
    have h2 : ((10000 + k + 1 : Nat) : Int) ≤ ((10000 + (k + 1) + 1 : Nat) : Int) := by
      exact_mod_cast (by omega : 10000 + k + 1 ≤ 10000 + (k + 1) + 1)
    exact le_trans h2 this

theorem FindState_of_name {sm : state.StateMachine} {name : String}
    (h : ∃ s ∈ sm.States, s.Name = name) :
    ∃ st, sm.FindState name = some st ∧ st.Name = name := by
  unfold state.StateMachine.FindState
  cases hf : sm.States.find? (fun s => decide (s.Name = name)) with
  | some st =>
    refine ⟨st, rfl, ?_⟩
    have := List.find?_some hf
    simpa using this
  | none =>
    exfalso
    obtain ⟨s, hs, hsn⟩ := h
    rw [List.find?_eq_none] at hf
    exact hf s hs (by simpa using hsn)

/-- Re-binding the rows of transitions whose endpoints the machine resolves gives the
transitions back. -/
theorem bindTransitions_entities (sm : state.StateMachine) (workflow : Workflow) :
    ∀ (ts : List state.Transition),
      (∀ t ∈ ts, (∃ s ∈ sm.States, s.Name = t.From) ∧ (∃ s ∈ sm.States, s.Name = t.To)) →
      bindTransitions sm (ts.map (transitionEntity workflow)) = .ok ts
  | [], _ => rfl
  | t :: rest, h => by
    obtain ⟨hfrom, hto⟩ := h t (List.mem_cons_self _ _)
    obtain ⟨f, hf, hfn⟩ := FindState_of_name hfrom
    obtain ⟨g, hg, hgn⟩ := FindState_of_name hto
    have ih := bindTransitions_entities sm workflow rest
      (fun x hx => h x (List.mem_cons_of_mem _ hx))
    simp only [List.map_cons, bindTransitions, transitionEntity] at ih ⊢
    rw [hf, hg, ih]
    dsimp only
    rw [hfn, hgn]

/-- Round trip of a resolved creation: when every input transition names input states and
the new id is positive and unused, `DetailWorkflow` of the id `CreateWorkflow` returned
succeeds with the detail `CreateWorkflow` returned: the input states in input order with
the orders 10001, 10002, ... and the input transitions. -/
theorem DetailWorkflow_of_created (env : Env) (db : Store) (c : WorkflowCreation)
    (sec : security.Context)
    (hrole : sec.HasRoleSuffix ("_" ++ types.ID.String c.ProjectID) = true)
    (hid : env.newId ≠ 0)
    (hw : ∀ w ∈ db.workflows, w.ID ≠ env.newId)
    (hs : ∀ s ∈ db.workflowStates, s.WorkflowID ≠ env.newId)
    (ht : ∀ t ∈ db.workflowStateTransitions, t.WorkflowID ≠ env.newId)
    (hres : ∀ t ∈ c.StateMachine.Transitions,
      (∃ s ∈ c.StateMachine.States, s.Name = t.From) ∧
        (∃ s ∈ c.StateMachine.States, s.Name = t.To)) :
    ∃ (detail : WorkflowDetail) (db1 : Store),
      CreateWorkflow env db c sec = (.ok detail, db1) ∧
      DetailWorkflow db1 detail.Workflow.ID sec = .ok detail ∧
      detail.StateMachine.Transitions = c.StateMachine.Transitions ∧
      detail.StateMachine.States = stampOrders c.StateMachine.States := by
  refine ⟨_, _, CreateWorkflow_ok env db c sec hrole, ?_, rfl, rfl⟩
  have hwnil : db.workflows.filter (fun w => condID env.newId w.ID) = [] := by
    rw [List.filter_eq_nil_iff]
    intro w hwm hc
    exact hw w hwm ((condID_iff hid).1 hc)
  have hsnil : db.workflowStates.filter (fun s => condID env.newId s.WorkflowID) = [] := by
    rw [List.filter_eq_nil_iff]
    intro s hsm hc
    exact hs s hsm ((condID_iff hid).1 hc)
  have htnil : db.workflowStateTransitions.filter
      (fun t => condID env.newId t.WorkflowID) = [] := by
    rw [List.filter_eq_nil_iff]
    intro t htm hc
    exact ht t htm ((condID_iff hid).1 hc)
  have hself : condID env.newId env.newId = true := (condID_iff hid).2 rfl
  unfold DetailWorkflow stateRecords transitionRecords
  simp only [List.filter_append, hwnil, hsnil, htnil, List.nil_append]
  have hw1 : List.filter (fun w : Workflow => condID env.newId w.ID)
      [{ ID := env.newId, Name := c.Name, ProjectID := c.ProjectID,
         ThemeColor := c.ThemeColor, ThemeIcon := c.ThemeIcon, CreateTime := env.now }] =
      [{ ID := env.newId, Name := c.Name, ProjectID := c.ProjectID,
         ThemeColor := c.ThemeColor, ThemeIcon := c.ThemeIcon, CreateTime := env.now }] := by
    simp [List.filter_cons, hself]
  rw [hw1]
  simp only [firstByKey, hrole, Bool.not_true, Bool.false_eq_true, if_false]
  have hs1 : ∀ wf : Workflow, wf.ID = env.newId →
      List.filter (fun s : WorkflowState => condID env.newId s.WorkflowID)
        ((stampOrders c.StateMachine.States).map (stateEntity wf)) =
      (stampOrders c.StateMachine.States).map (stateEntity wf) := by
    intro wf hwf
    rw [List.filter_eq_self]
    intro s hsm
    rw [List.mem_map] at hsm
    obtain ⟨x, _, rfl⟩ := hsm
    simp [stateEntity, hwf, hself]
  have ht1 : ∀ wf : Workflow, wf.ID = env.newId →
      List.filter (fun t : WorkflowStateTransition => condID env.newId t.WorkflowID)
        (c.StateMachine.Transitions.map (transitionEntity wf)) =
      c.StateMachine.Transitions.map (transitionEntity wf) := by
    intro wf hwf
    rw [List.filter_eq_self]
    intro t htm
    rw [List.mem_map] at htm
    obtain ⟨x, _, rfl⟩ := htm
    simp [transitionEntity, hwf, hself]
  rw [hs1 _ rfl, ht1 _ rfl]
  simp only [hsnil, htnil, List.nil_append]
  unfold stampOrders
  rw [List.Sorted.insertionSort_eq (stampOrdersFrom_sorted _ 0 _)]
  have hback : ((stampOrdersFrom 0 c.StateMachine.States).map
      (stateEntity { ID := env.newId, Name := c.Name, ProjectID := c.ProjectID,
                     ThemeColor := c.ThemeColor, ThemeIcon := c.ThemeIcon,
                     CreateTime := env.now })).map
      (fun record => ({ Name := record.Name, Category := record.Category,
                        Order := record.Order } : state.State)) =
      stampOrders c.StateMachine.States := by
    rw [List.map_map]
    unfold stampOrders
    conv_rhs => rw [← List.map_id (stampOrdersFrom 0 c.StateMachine.States)]
    apply List.map_congr_left
    intro s _
    rfl
  unfold stampOrders at hback
  rw [hback]
  have hbind := bindTransitions_entities
    { States := stampOrdersFrom 0 c.StateMachine.States, Transitions := [] }
    { ID := env.newId, Name := c.Name, ProjectID := c.ProjectID,
      ThemeColor := c.ThemeColor, ThemeIcon := c.ThemeIcon, CreateTime := env.now }
    c.StateMachine.Transitions (by
      intro t htm
      obtain ⟨⟨a, ha, han⟩, ⟨b, hb, hbn⟩⟩ := hres t htm
      have hnames := stampOrdersFrom_map_name 0 c.StateMachine.States
      have hmemA : t.From ∈ (stampOrdersFrom 0 c.StateMachine.States).map (fun s => s.Name) := by
        rw [hnames, ← han]; exact List.mem_map_of_mem _ ha
      have hmemB : t.To ∈ (stampOrdersFrom 0 c.StateMachine.States).map (fun s => s.Name) := by
        rw [hnames, ← hbn]; exact List.mem_map_of_mem _ hb
      rw [List.mem_map] at hmemA hmemB
      exact ⟨hmemA, hmemB⟩)
  rw [hbind]

end flow

/-! ## The workflow manager: operations that keep the transitions resolved -/

namespace flow

open domain

theorem any_name_iff {states : List WorkflowState} {name : String} :
    states.any (fun s => decide (s.Name = name)) = true ↔ ∃ s ∈ states, s.Name = name := by
  simp [List.any_eq_true]

/-- Every row `saveTransitions` leaves is a row it was given or a row of the workflow with
both endpoints among the states it checked. -/
theorem saveTransitions_mem (now : types.Timestamp) (workflowID : types.ID)
    (states : List WorkflowState) :
    ∀ (ts : List state.Transition) (rows rows1 : List WorkflowStateTransition),
      saveTransitions now workflowID states ts rows = .ok rows1 →
      ∀ r ∈ rows1, r ∈ rows ∨
        (r.WorkflowID = workflowID ∧ (∃ s ∈ states, s.Name = r.FromState) ∧
          (∃ s ∈ states, s.Name = r.ToState))
  | [], rows, rows1, h, r, hr => by
    simp only [saveTransitions, Except.ok.injEq] at h
    subst h
    exact Or.inl hr
  | t :: rest, rows, rows1, h, r, hr => by
    simp only [saveTransitions] at h
    split_ifs at h with h1 h2
    have hfrom := any_name_iff.1 (by simpa using h1)
    have hto := any_name_iff.1 (by simpa using h2)
    rcases saveTransitions_mem now workflowID states rest _ rows1 h r hr with hm | hm
    · unfold saveTransition at hm
      dsimp only at hm
      split_ifs at hm
      · rw [mem_updateWhere] at hm
        obtain ⟨a, ha, hra⟩ := hm
        split_ifs at hra
        · subst hra
          exact Or.inr ⟨rfl, hfrom, hto⟩
        · subst hra
          exact Or.inl ha
      · rw [List.mem_append, List.mem_singleton] at hm
        rcases hm with hm | hm
        · exact Or.inl hm
        · subst hm
          exact Or.inr ⟨rfl, hfrom, hto⟩
    · exact Or.inr hm

/-- Every row `createTransitions` leaves is a row it was given or a row of the workflow
with both endpoints among the states it checked. -/
theorem createTransitions_mem (now : types.Timestamp) (workflowID : types.ID)
    (states : List WorkflowState) :
    ∀ (ts : List state.Transition) (rows rows1 : List WorkflowStateTransition),
      createTransitions now workflowID states ts rows = .ok rows1 →
      ∀ r ∈ rows1, r ∈ rows ∨
        (r.WorkflowID = workflowID ∧ (∃ s ∈ states, s.Name = r.FromState) ∧
          (∃ s ∈ states, s.Name = r.ToState))
  | [], rows, rows1, h, r, hr => by
    simp only [createTransitions, Except.ok.injEq] at h
    subst h
    exact Or.inl hr
  | t :: rest, rows, rows1, h, r, hr => by
    simp only [createTransitions] at h
    split_ifs at h with h1
    simp only [not_or] at h1
    obtain ⟨_, h2, _, h3⟩ := h1
    have hfrom := any_name_iff.1 (by simpa using h2)
    have hto := any_name_iff.1 (by simpa using h3)
    rcases createTransitions_mem now workflowID states rest _ rows1 h r hr with hm | hm
    · rw [List.mem_append, List.mem_singleton] at hm
      rcases hm with hm | hm
      · exact Or.inl hm
      · subst hm
        exact Or.inr ⟨rfl, hfrom, hto⟩
    · exact Or.inr hm

/-- The operation `CreateWorkflowStateTransitions` keeps the transitions resolved, whether
it succeeds or fails. -/
theorem CreateWorkflowStateTransitions_resolved (env : Env) (db : Store) (id : types.ID)
    (transitions : List state.Transition) (sec : security.Context)
    (hid : id ≠ 0) (hdb : TransitionsResolved db) :
    TransitionsResolved (CreateWorkflowStateTransitions env db id transitions sec).2 := by
  unfold CreateWorkflowStateTransitions Transaction
  dsimp only
  cases hw : firstByKey (fun w : Workflow => w.ID)
      (db.workflows.filter (fun w => condID id w.ID)) with
  | none => exact hdb
  | some workflow =>
    have hwid : workflow.ID = id := by
      have hm := firstByKey_mem _ _ _ hw
      rw [List.mem_filter] at hm
      exact (condID_iff hid).1 hm.2
    dsimp only
    split_ifs
    · exact hdb
    · cases hs : saveTransitions env.now workflow.ID
          (db.workflowStates.filter (fun s => condID workflow.ID s.WorkflowID))
          transitions db.workflowStateTransitions with
      | error e => exact hdb
      | ok rows =>
        dsimp only
        intro t ht
        have hres : ∀ name, (∃ s ∈ db.workflowStates.filter
            (fun s => condID workflow.ID s.WorkflowID), s.Name = name) →
            ∃ s ∈ db.workflowStates, s.WorkflowID = workflow.ID ∧ s.Name = name := by
          rintro name ⟨s, hsm, hsn⟩
          rw [List.mem_filter] at hsm
          exact ⟨s, hsm.1, (condID_iff (by rw [hwid]; exact hid)).1 hsm.2, hsn⟩
        rcases saveTransitions_mem _ _ _ _ _ _ hs t ht with hm | ⟨hwf, hfrom, hto⟩
        · exact hdb t hm
        · rw [hwf]
          exact ⟨hres _ hfrom, hres _ hto⟩

/-- The operation `CreateState` keeps the transitions resolved, whether it succeeds or
fails. -/
theorem CreateState_resolved (env : Env) (db : Store) (workflowID : types.ID)
    (creating : StateCreating) (sec : security.Context)
    (hid : workflowID ≠ 0) (hdb : TransitionsResolved db) :
    TransitionsResolved (CreateState env db workflowID creating sec).2 := by
  unfold CreateState Transaction
  dsimp only
  cases checkPerms db workflowID sec with
  | some e => exact hdb
  | none =>
    dsimp only
    cases hs : createTransitions env.now workflowID
        (List.filter (fun s => condID workflowID s.WorkflowID)
          (db.workflowStates ++
            [({ WorkflowID := workflowID, Order := creating.Order, Name := creating.Name,
                Category := creating.Category, CreateTime := env.now } : WorkflowState)]))
        creating.Transitions db.workflowStateTransitions with
    | error e => exact hdb
    | ok rows =>
      dsimp only
      intro t ht
      have hres : ∀ (states : List WorkflowState) (name : String),
          (∃ s ∈ states.filter (fun s => condID workflowID s.WorkflowID), s.Name = name) →
          ∃ s ∈ states, s.WorkflowID = workflowID ∧ s.Name = name := by
        rintro states name ⟨s, hsm, hsn⟩
        rw [List.mem_filter] at hsm
        exact ⟨s, hsm.1, (condID_iff hid).1 hsm.2, hsn⟩
      rcases createTransitions_mem _ _ _ _ _ _ hs t ht with hm | ⟨hwf, hfrom, hto⟩
      · obtain ⟨⟨a, ha, haw⟩, ⟨b, hb, hbw⟩⟩ := hdb t hm
        exact ⟨⟨a, List.mem_append_left _ ha, haw⟩, ⟨b, List.mem_append_left _ hb, hbw⟩⟩
      · rw [hwf]
        exact ⟨hres _ _ hfrom, hres _ _ hto⟩

/-- The operation `CreateWorkflow` keeps the transitions resolved when every input
transition names input states; it performs no such check itself. -/
theorem CreateWorkflow_resolved (env : Env) (db : Store) (c : WorkflowCreation)
    (sec : security.Context)
    (hres : ∀ t ∈ c.StateMachine.Transitions,
      (∃ s ∈ c.StateMachine.States, s.Name = t.From) ∧
        (∃ s ∈ c.StateMachine.States, s.Name = t.To))
    (hdb : TransitionsResolved db) :
    TransitionsResolved (CreateWorkflow env db c sec).2 := by
  by_cases hrole : sec.HasRoleSuffix ("_" ++ types.ID.String c.ProjectID) = true
  · rw [CreateWorkflow_ok env db c sec hrole]
    dsimp only
    have hstate : ∀ (wf : Workflow) (name : String),
        (∃ s ∈ c.StateMachine.States, s.Name = name) →
        ∃ s ∈ db.workflowStates ++ (stampOrders c.StateMachine.States).map (stateEntity wf),
          s.WorkflowID = wf.ID ∧ s.Name = name := by
      rintro wf name ⟨s, hsm, hsn⟩
      have hn : name ∈ (stampOrdersFrom 0 c.StateMachine.States).map (fun s => s.Name) := by
        rw [stampOrdersFrom_map_name, ← hsn]
        exact List.mem_map_of_mem _ hsm
      rw [List.mem_map] at hn
      obtain ⟨x, hx, hxn⟩ := hn
      exact ⟨stateEntity wf x, List.mem_append_right _ (List.mem_map_of_mem _ hx), rfl, hxn⟩
    intro t ht
    rw [List.mem_append] at ht
    rcases ht with ht | ht
    · obtain ⟨⟨a, ha, haw⟩, ⟨b, hb, hbw⟩⟩ := hdb t ht
      exact ⟨⟨a, List.mem_append_left _ ha, haw⟩, ⟨b, List.mem_append_left _ hb, hbw⟩⟩
    · rw [List.mem_map] at ht
      obtain ⟨x, hx, rfl⟩ := ht
      obtain ⟨hf, hto⟩ := hres x hx
      exact ⟨hstate _ _ hf, hstate _ _ hto⟩
  · unfold CreateWorkflow
    simp only [hrole, Bool.not_false, if_true]
    simpa using hdb

end flow

/-! ## The engine resolves the endpoints of a listed transition -/

namespace work

open domain

/-- Every transition `bindTransitions` returns has endpoints the machine resolves. -/
theorem bindTransitions_resolved (sm : state.StateMachine) :
    ∀ (records : List WorkflowStateTransition) (ts : List state.Transition),
      flow.bindTransitions sm records = .ok ts →
      ∀ t ∈ ts, (∃ f, sm.FindState t.From = some f) ∧ (∃ g, sm.FindState t.To = some g)
  | [], ts, h, t, ht => by
    simp only [flow.bindTransitions, Except.ok.injEq] at h
    subst h
    simp at ht
  | record :: rest, ts, h, t, ht => by
    simp only [flow.bindTransitions] at h
    cases hf : sm.FindState record.FromState with
    | none => rw [hf] at h; simp at h
    | some f =>
      cases hg : sm.FindState record.ToState with
      | none => rw [hf, hg] at h; simp at h
      | some g =>
        rw [hf, hg] at h
        simp only at h
        cases hrest : flow.bindTransitions sm rest with
        | error e => rw [hrest] at h; simp at h
        | ok ts1 =>
          rw [hrest] at h
          simp only [Except.ok.injEq] at h
          subst h
          rw [List.mem_cons] at ht
          rcases ht with ht | ht
          · subst ht
            dsimp only
            rw [FindState_name hf, FindState_name hg]
            exact ⟨⟨f, hf⟩, ⟨g, hg⟩⟩
          · exact bindTransitions_resolved sm rest ts1 hrest t ht

/-- Every transition of a loaded workflow detail has endpoints that `FindState` resolves
among the states of that detail. -/
theorem DetailWorkflow_resolved {db : Store} {id : types.ID} {sec : security.Context}
    {workflow : WorkflowDetail} (h : flow.DetailWorkflow db id sec = .ok workflow) :
    ∀ t ∈ workflow.StateMachine.Transitions,
      (∃ f, workflow.StateMachine.FindState t.From = some f) ∧
      (∃ g, workflow.StateMachine.FindState t.To = some g) := by
  unfold flow.DetailWorkflow at h
  cases hw : firstByKey (fun w => w.ID) (db.workflows.filter (fun w => condID id w.ID)) with
  | none => rw [hw] at h; simp at h
  | some wf =>
    rw [hw] at h
    simp only at h
    by_cases hrole : sec.HasRoleSuffix ("_" ++ types.ID.String wf.ProjectID) = true
    · simp only [hrole, Bool.not_true, Bool.false_eq_true, if_false] at h
      cases hb : flow.bindTransitions
          { States := (flow.stateRecords db wf.ID).map
              (fun record => { Name := record.Name, Category := record.Category,
                               Order := record.Order }),
            Transitions := [] } (flow.transitionRecords db wf.ID) with
      | error e => rw [hb] at h; simp at h
      | ok ts =>
        rw [hb] at h
        simp only [Except.ok.injEq] at h
        subst h
        intro t ht
        exact bindTransitions_resolved _ _ _ hb t ht
    · simp [hrole] at h

/-- C23: the "invalid state" branches of `CreateWorkStateTransition` are not reachable.
Whenever `DetailWorkflow` of the named workflow has succeeded and exactly one of the
transitions it returned has the endpoints `(FromState, ToState)`, `FindState` resolves
both `FromState` and `ToState` on that workflow, and the call goes on to the transaction:
its outcome is the outcome of the transaction run with the two resolved states. -/
theorem CreateWorkStateTransition_resolves_states (env : Env) (db : Store)
    (c : WorkStateTransitionBrief) (sec : security.Context) (workflow : WorkflowDetail)
    (hd : flow.DetailWorkflow db c.FlowID sec = .ok workflow)
    (ha : (workflow.StateMachine.AvailableTransitions c.FromState c.ToState).length = 1) :
    ∃ (fromState toState : state.State),
      workflow.StateMachine.FindState c.FromState = some fromState ∧
      workflow.StateMachine.FindState c.ToState = some toState ∧
      CreateWorkStateTransition env db c sec =
        (match Transaction db (transitionTx env c sec workflow fromState toState
            { ID := env.newId, CreateTime := env.now, Creator := sec.Identity.ID,
              WorkStateTransitionBrief := c }) with
         | (some e, db1) => (.error e, db1)
         | (none, db1) =>
           (.ok { ID := env.newId, CreateTime := env.now, Creator := sec.Identity.ID,
                  WorkStateTransitionBrief := c }, db1)) := by
  have hne : workflow.StateMachine.AvailableTransitions c.FromState c.ToState ≠ [] := by
    intro hnil
    rw [hnil] at ha
    simp at ha
  obtain ⟨t, ht⟩ := List.exists_mem_of_ne_nil _ hne
  unfold state.StateMachine.AvailableTransitions at ht
  rw [List.mem_filter] at ht
  obtain ⟨htm, hends⟩ := ht
  simp only [Bool.and_eq_true, decide_eq_true_eq] at hends
  obtain ⟨⟨f, hf⟩, ⟨g, hg⟩⟩ := DetailWorkflow_resolved hd t htm
  rw [hends.1] at hf
  rw [hends.2] at hg
  refine ⟨f, g, hf, hg, ?_⟩
  unfold CreateWorkStateTransition
  rw [hd]
  simp only [ha, ne_eq, not_true_eq_false, if_false, hf, hg]

/-- C23, witnessed on the scenario: workflow 10 loads, lists `PENDING → DOING` once, and
the call at instant 200 resolves both states. -/
theorem CreateWorkStateTransition_resolves_states_witness :
    flow.DetailWorkflow scenario.store0 scenario.toDoing.FlowID scenario.sec1 =
      .ok scenario.detail1 ∧
    (scenario.detail1.StateMachine.AvailableTransitions scenario.toDoing.FromState
      scenario.toDoing.ToState).length = 1 ∧
    ∃ (fromState toState : state.State),
      scenario.detail1.StateMachine.FindState scenario.toDoing.FromState = some fromState ∧
      scenario.detail1.StateMachine.FindState scenario.toDoing.ToState = some toState ∧
      CreateWorkStateTransition (scenario.envAt 200) scenario.store0 scenario.toDoing
          scenario.sec1 =
        (match Transaction scenario.store0 (transitionTx (scenario.envAt 200)
            scenario.toDoing scenario.sec1 scenario.detail1 fromState toState
            { ID := (scenario.envAt 200).newId, CreateTime := (scenario.envAt 200).now,
              Creator := scenario.sec1.Identity.ID,
              WorkStateTransitionBrief := scenario.toDoing }) with
         | (some e, db1) => (.error e, db1)
         | (none, db1) =>
           (.ok { ID := (scenario.envAt 200).newId, CreateTime := (scenario.envAt 200).now,
                  Creator := scenario.sec1.Identity.ID,
                  WorkStateTransitionBrief := scenario.toDoing }, db1)) :=
  ⟨by rfl, by decide,
    CreateWorkStateTransition_resolves_states (scenario.envAt 200) scenario.store0
      scenario.toDoing scenario.sec1 scenario.detail1 (by rfl) (by decide)⟩

end work

/-! ## The engine and the workflow a request names -/

namespace work

open domain

/-- C22: the engine validates a request against the workflow the request names and never
compares it with the workflow of the work item.  Work 7 belongs to workflow 10, which has
no transition `PENDING → DONE` (the request naming workflow 10 is rejected); the same
request naming workflow 12, which lists that transition, succeeds at instant 200: work 7
is moved to `DONE`, the log row bears flow 12, and the open `PENDING` step of work 7,
which bears flow 10, stays open because the close is keyed on the named workflow. -/
theorem CreateWorkStateTransition_accepts_foreign_flow :
    scenario.storeShortcut.works = [scenario.work1] ∧
    scenario.work1.FlowID = 10 ∧ scenario.skipOtherFlow.FlowID = 12 ∧
    (∃ own, flow.DetailWorkflow scenario.storeShortcut scenario.work1.FlowID scenario.sec1 =
        .ok own ∧
      own.StateMachine.AvailableTransitions scenario.skipOtherFlow.FromState
        scenario.skipOtherFlow.ToState = []) ∧
    (CreateWorkStateTransition (scenario.envAt 200) scenario.storeShortcut
        scenario.pendingToDone scenario.sec1).1 =
      .error (.Message "transition from PENDING to DONE is not invalid") ∧
    (CreateWorkStateTransition (scenario.envAt 200) scenario.storeShortcut
        scenario.skipOtherFlow scenario.sec1).1 =
      .ok { ID := 1200, CreateTime := 200, Creator := 1,
            WorkStateTransitionBrief := scenario.skipOtherFlow } ∧
    (CreateWorkStateTransition (scenario.envAt 200) scenario.storeShortcut
        scenario.skipOtherFlow scenario.sec1).2.works =
      [{ scenario.work1 with
         StateName := "DONE", StateCategory := state.Category.Done, StateBeginTime := 200,
         ProcessBeginTime := 200, ProcessEndTime := 200 }] ∧
    (CreateWorkStateTransition (scenario.envAt 200) scenario.storeShortcut
        scenario.skipOtherFlow scenario.sec1).2.workProcessSteps = [scenario.step1] := by
  refine ⟨rfl, rfl, rfl, ⟨scenario.detail1, by rfl, by rfl⟩, by rfl, by rfl, by rfl, by rfl⟩

end work

/-! ## The process-step history under the writing operations -/

namespace work

open domain

/-- A transaction whose function leaves the step table alone leaves it alone. -/
theorem Transaction_steps {db : Store} {fc : Store → Except Error Store}
    (h : ∀ tx1, fc db = .ok tx1 → tx1.workProcessSteps = db.workProcessSteps) :
    (Transaction db fc).2.workProcessSteps = db.workProcessSteps := by
  unfold Transaction
  cases hf : fc db with
  | ok tx1 => exact h tx1 hf
  | error e => rfl

/-- An in-place update whose row function keeps a projection keeps the projected table. -/
theorem map_updateWhere_fixed {α β : Type} (proj : α → β) (cond : α → Bool) (f : α → α)
    (h : ∀ a, proj (f a) = proj a) (rows : List α) :
    (updateWhere cond f rows).map proj = rows.map proj := by
  unfold updateWhere
  rw [List.map_map]
  apply List.map_congr_left
  intro a _
  simp only [Function.comp]
  split_ifs
  · exact h a
  · rfl

/-- A failed `CreateWorkStateTransition` returns the store it was given. -/
theorem CreateWorkStateTransition_error_store {env : Env} {db db1 : Store}
    {c : WorkStateTransitionBrief} {sec : security.Context} {e : Error}
    (h : CreateWorkStateTransition env db c sec = (.error e, db1)) : db1 = db := by
  unfold CreateWorkStateTransition at h
  cases hd : flow.DetailWorkflow db c.FlowID sec with
  | error e1 =>
    rw [hd] at h
    simp only [Prod.mk.injEq] at h
    exact h.2.symm
  | ok workflow =>
    rw [hd] at h
    simp only at h
    split_ifs at h with hlen
    · simp only [Prod.mk.injEq] at h
      exact h.2.symm
    · cases hf : workflow.StateMachine.FindState c.FromState with
      | none =>
        rw [hf] at h
        simp only [Prod.mk.injEq] at h
        exact h.2.symm
      | some fromState =>
        rw [hf] at h
        simp only at h
        cases hto : workflow.StateMachine.FindState c.ToState with
        | none =>
          rw [hto] at h
          simp only [Prod.mk.injEq] at h
          exact h.2.symm
        | some toState =>
          rw [hto] at h
          simp only at h
          unfold Transaction at h
          cases htx : transitionTx env c sec workflow fromState toState
              { ID := env.newId, CreateTime := env.now, Creator := sec.Identity.ID,
                WorkStateTransitionBrief := c } db with
          | error e1 =>
            rw [htx] at h
            simp only [Prod.mk.injEq] at h
            exact h.2.symm
          | ok tx1 =>
            rw [htx] at h
            simp at h

/-- The step table after a `CreateWorkStateTransition`: as it was, or the former rows with
the close applied, followed by the next step when there is one. -/
theorem CreateWorkStateTransition_steps (env : Env) (db : Store)
    (c : WorkStateTransitionBrief) (sec : security.Context) :
    (CreateWorkStateTransition env db c sec).2.workProcessSteps = db.workProcessSteps ∨
    ∃ (workflow : WorkflowDetail) (fromState toState : state.State) (work : Work),
      (CreateWorkStateTransition env db c sec).2.workProcessSteps =
        createNextProcessStep work toState env.now
          (closeProcessStep c workflow fromState env.now db.workProcessSteps) := by
  cases h : CreateWorkStateTransition env db c sec with
  | mk res db1 =>
    cases res with
    | error e =>
      left
      rw [CreateWorkStateTransition_error_store h]
    | ok t =>
      right
      obtain ⟨workflow, fromState, toState, work, _, _, _, _, _, _, _, _, _, _, hdb⟩ :=
        CreateWorkStateTransition_ok h
      exact ⟨workflow, fromState, toState, work, by rw [hdb]; rfl⟩

/-- The close and the insert keep every former row at its place with its `work_id`,
`flow_id`, `state_name`, `state_category` and `begin_time`. -/
theorem createNextProcessStep_appendOnly (c : WorkStateTransitionBrief)
    (workflow : WorkflowDetail) (fromState toState : state.State) (work : Work)
    (now : types.Timestamp) (steps : List WorkProcessStep) :
    AppendOnly steps
      (createNextProcessStep work toState now (closeProcessStep c workflow fromState now steps)) := by
  have hclose : (closeProcessStep c workflow fromState now steps).map stepIdentity =
      steps.map stepIdentity := by
    rw [closeProcessStep_eq_map, List.map_map]
    apply List.map_congr_left
    intro s _
    simp only [Function.comp]
    split_ifs <;> rfl
  unfold AppendOnly createNextProcessStep
  split_ifs
  · rw [List.map_append, hclose]
    exact List.prefix_append _ _
  · rw [hclose]

end work

namespace flow

open domain

theorem CreateWorkflow_steps (env : Env) (db : Store) (c : WorkflowCreation)
    (sec : security.Context) :
    (CreateWorkflow env db c sec).2.workProcessSteps = db.workProcessSteps := by
  unfold CreateWorkflow Transaction
  split_ifs <;> rfl

theorem UpdateWorkflowBase_steps (db : Store) (id : types.ID) (c : WorkflowBaseUpdation)
    (sec : security.Context) :
    (UpdateWorkflowBase db id c sec).2.workProcessSteps = db.workProcessSteps := by
  unfold UpdateWorkflowBase
  split
  · rfl
  · split
    · rfl
    · dsimp only
      split <;> rfl

theorem DeleteWorkflow_steps (db : Store) (id : types.ID) (sec : security.Context) :
    (DeleteWorkflow db id sec).2.workProcessSteps = db.workProcessSteps := by
  unfold DeleteWorkflow
  apply work.Transaction_steps
  intro tx1 h
  split at h
  · simp at h
  · split_ifs at h
    split at h
    · simp at h
    · simp only [Except.ok.injEq] at h
      rw [← h]

theorem CreateWorkflowStateTransitions_steps (env : Env) (db : Store) (id : types.ID)
    (transitions : List state.Transition) (sec : security.Context) :
    (CreateWorkflowStateTransitions env db id transitions sec).2.workProcessSteps =
      db.workProcessSteps := by
  unfold CreateWorkflowStateTransitions
  apply work.Transaction_steps
  intro tx1 h
  split at h
  · simp at h
  · split_ifs at h
    split at h
    · simp at h
    · simp only [Except.ok.injEq] at h
      rw [← h]

theorem DeleteWorkflowStateTransitions_steps (db : Store) (id : types.ID)
    (transitions : List state.Transition) (sec : security.Context) :
    (DeleteWorkflowStateTransitions db id transitions sec).2.workProcessSteps =
      db.workProcessSteps := by
  unfold DeleteWorkflowStateTransitions
  apply work.Transaction_steps
  intro tx1 h
  split at h
  · simp at h
  · split_ifs at h
    simp only [Except.ok.injEq] at h
    rw [← h]

theorem CreateState_steps (env : Env) (db : Store) (workflowID : types.ID)
    (creating : StateCreating) (sec : security.Context) :
    (CreateState env db workflowID creating sec).2.workProcessSteps = db.workProcessSteps := by
  unfold CreateState
  apply work.Transaction_steps
  intro tx1 h
  split at h
  · simp at h
  · dsimp only at h
    split at h
    · simp at h
    · simp only [Except.ok.injEq] at h
      rw [← h]

theorem UpdateStateRangeOrders_steps (env : Env) (db : Store) (workflowID : types.ID)
    (wantedOrders : List StateOrderRangeUpdating) (sec : security.Context) :
    (UpdateStateRangeOrders env db workflowID wantedOrders sec).2.workProcessSteps =
      db.workProcessSteps := by
  unfold UpdateStateRangeOrders
  split_ifs
  · rfl
  · apply work.Transaction_steps
    intro tx1 h
    split at h
    · simp at h
    · split at h
      · simp at h
      · simp only [Except.ok.injEq] at h
        rw [← h]

/-- The rename cascade writes `state_name`, `state_category`, `next_state_name` and
`next_state_category` only: `work_id`, `flow_id` and `begin_time` of every row stay. -/
theorem renameSteps_origin (origin : WorkflowState) (name : String)
    (rows : List WorkProcessStep) :
    (renameSteps origin name rows).map work.stepOrigin = rows.map work.stepOrigin := by
  unfold renameSteps
  refine Eq.trans (work.map_updateWhere_fixed work.stepOrigin _ _ ?_ _)
    (work.map_updateWhere_fixed work.stepOrigin _ _ ?_ _) <;> intro a <;> rfl

/-- The step table after an `UpdateWorkflowState` keeps `work_id`, `flow_id` and
`begin_time` of every row, and has no further row. -/
theorem UpdateWorkflowState_steps (db : Store) (id : types.ID)
    (updating : WorkflowStateUpdating) (sec : security.Context) :
    (UpdateWorkflowState db id updating sec).2.workProcessSteps.map work.stepOrigin =
      db.workProcessSteps.map work.stepOrigin := by
  cases h : UpdateWorkflowState db id updating sec with
  | mk res db1 =>
    cases res with
    | some e =>
      unfold UpdateWorkflowState Transaction at h
      split at h
      · simp at h
      · simp only [Prod.mk.injEq] at h
        rw [← h.2]
    | none =>
      obtain ⟨workflow, origin, _, _, _, _, hdb⟩ := UpdateWorkflowState_ok h
      dsimp only
      rw [hdb]
      unfold stateUpdated
      split_ifs
      · exact renameSteps_origin _ _ _
      · rfl

/-- An `UpdateWorkflowState` that keeps the name, the origin name being non-empty, leaves
the step table as it is. -/
theorem UpdateWorkflowState_steps_same_name (db : Store) (id : types.ID)
    (updating : WorkflowStateUpdating) (sec : security.Context)
    (hsame : updating.OriginName = updating.Name) (ho : ¬ updating.OriginName = "") :
    (UpdateWorkflowState db id updating sec).2.workProcessSteps = db.workProcessSteps := by
  cases h : UpdateWorkflowState db id updating sec with
  | mk res db1 =>
    cases res with
    | some e =>
      unfold UpdateWorkflowState Transaction at h
      split at h
      · simp at h
      · simp only [Prod.mk.injEq] at h
        rw [← h.2]
    | none =>
      obtain ⟨workflow, origin, _, _, hor, _, hdb⟩ := UpdateWorkflowState_ok h
      have hm := firstByKey_mem _ _ _ hor
      rw [List.mem_filter, Bool.and_eq_true, condString_iff ho] at hm
      dsimp only
      rw [hdb]
      unfold stateUpdated
      rw [if_neg (by rw [hm.2.2, hsame]; exact fun hne => hne rfl)]

end flow

namespace work

open domain

/-- An append-only successor keeps `work_id`, `flow_id` and `begin_time` of every row. -/
theorem AppendOnly.origin {before after : List WorkProcessStep}
    (h : AppendOnly before after) :
    List.IsPrefix (before.map stepOrigin) (after.map stepOrigin) := by
  unfold AppendOnly at h
  have hmap := List.IsPrefix.map
    (fun i : types.ID × types.ID × String × state.Category × types.Timestamp =>
      (i.1, i.2.1, i.2.2.2.2)) h
  rw [List.map_map, List.map_map] at hmap
  exact hmap

theorem AppendOnly.of_eq {before after : List WorkProcessStep} (h : after = before) :
    AppendOnly before after := by
  rw [h]
  exact List.prefix_refl _

/-- C21, as amended: under every writing operation of the engine and of the workflow
manager, whether the call succeeds or fails, no row of the process-step table is deleted
and every row keeps its place, its `work_id`, its `flow_id` and its `begin_time`; new rows
come behind the former ones.  Under every operation other than an `UpdateWorkflowState`
that asks for a new name, every row keeps its `state_name` and its `state_category` as
well, so that only `end_time`, `next_state_name` and `next_state_category` can differ
afterwards.  (An `UpdateWorkflowState` with a new name rewrites `state_name` and
`state_category` in its rename cascade.) -/
theorem process_steps_append_only (env : Env) (sec : security.Context) (db : Store)
    (op : Operation) :
    List.IsPrefix (db.workProcessSteps.map stepOrigin)
      ((op.run env sec db).workProcessSteps.map stepOrigin) ∧
    (op.renamesState = false →
      AppendOnly db.workProcessSteps (op.run env sec db).workProcessSteps) := by
  have hall : op.renamesState = false →
      AppendOnly db.workProcessSteps (op.run env sec db).workProcessSteps := by
    intro hop
    cases op with
    | CreateWorkStateTransition c =>
      simp only [Operation.run]
      rcases CreateWorkStateTransition_steps env db c sec with h |
        ⟨workflow, fromState, toState, work, h⟩
      · exact AppendOnly.of_eq h
      · rw [h]
        exact createNextProcessStep_appendOnly c workflow fromState toState work env.now _
    | CreateWorkflow c => exact AppendOnly.of_eq (flow.CreateWorkflow_steps env db c sec)
    | UpdateWorkflowBase id c => exact AppendOnly.of_eq (flow.UpdateWorkflowBase_steps db id c sec)
    | DeleteWorkflow id => exact AppendOnly.of_eq (flow.DeleteWorkflow_steps db id sec)
    | CreateWorkflowStateTransitions id ts =>
      exact AppendOnly.of_eq (flow.CreateWorkflowStateTransitions_steps env db id ts sec)
    | DeleteWorkflowStateTransitions id ts =>
      exact AppendOnly.of_eq (flow.DeleteWorkflowStateTransitions_steps db id ts sec)
    | CreateState id creating =>
      exact AppendOnly.of_eq (flow.CreateState_steps env db id creating sec)
    | UpdateWorkflowState id updating =>
      simp only [Operation.renamesState, Bool.or_eq_false_iff, decide_eq_false_iff_not,
        ne_eq, not_not] at hop
      exact AppendOnly.of_eq (flow.UpdateWorkflowState_steps_same_name db id updating sec
        hop.1 hop.2)
    | UpdateStateRangeOrders id orders =>
      exact AppendOnly.of_eq (flow.UpdateStateRangeOrders_steps env db id orders sec)
  refine ⟨?_, hall⟩
  by_cases hop : op.renamesState = false
  · exact (hall hop).origin
  · cases op with
    | UpdateWorkflowState id updating =>
      simp only [Operation.run]
      rw [flow.UpdateWorkflowState_steps]
    | _ => simp [Operation.renamesState] at hop

/-- C21, witnessed on the scenario: the transition `PENDING → DOING` of work 7 at instant
200 renames no state, and the step table after it is an append-only successor of the one
before. -/
theorem process_steps_append_only_witness :
    (Operation.CreateWorkStateTransition scenario.toDoing).renamesState = false ∧
    AppendOnly scenario.store0.workProcessSteps
      ((Operation.CreateWorkStateTransition scenario.toDoing).run (scenario.envAt 200)
        scenario.sec1 scenario.store0).workProcessSteps :=
  ⟨rfl, (process_steps_append_only (scenario.envAt 200) scenario.sec1 scenario.store0
    (Operation.CreateWorkStateTransition scenario.toDoing)).2 rfl⟩

/-- C21 fails as stated: the rename `DOING → IN_PROGRESS` of workflow 10 by its manager
succeeds on the store in which work 7 is in `DOING`, and the step of work 7 that began at
200 in `DOING` bears the state name `IN_PROGRESS` afterwards, so the step table is no
append-only successor of the former one. -/
theorem process_step_state_name_rewritten :
    (flow.UpdateWorkflowState scenario.store1 10 scenario.renameDoing scenario.sec1).1 = none ∧
    scenario.store1.workProcessSteps.map stepIdentity =
      [(7, 10, "PENDING", state.Category.InBacklog, 100),
       (7, 10, "DOING", state.Category.InProcess, 200)] ∧
    ((Operation.UpdateWorkflowState 10 scenario.renameDoing).run (scenario.envAt 400)
        scenario.sec1 scenario.store1).workProcessSteps.map stepIdentity =
      [(7, 10, "PENDING", state.Category.InBacklog, 100),
       (7, 10, "IN_PROGRESS", state.Category.InProcess, 200)] ∧
    ¬ AppendOnly scenario.store1.workProcessSteps
      ((Operation.UpdateWorkflowState 10 scenario.renameDoing).run (scenario.envAt 400)
        scenario.sec1 scenario.store1).workProcessSteps := by
  refine ⟨by decide, by decide, by decide, by decide⟩

end work

end Flywheel
